import Mathlib

/-!
# WebSocket event envelope (`server/public/model/websocket_message.go`)

A shallow embedding of the event envelope, its broadcast target, the hook
ledger and the JSON wire codec.

Modelling conventions.

* Go pointers and maps are references.  They are modelled by addresses into an
  explicit `Heap`; every operation that allocates or writes takes the heap and
  returns the new heap.  A result of `none` is a run-time panic (nil
  dereference).
* Go strings are modelled by `String` (valid UTF-8 text); byte slices produced
  by the encoder are modelled by `String` as well.
* The slices in the fields of the target (`[]string`, `[]map[string]any`) are
  modelled by lists; a nil slice and an empty slice are both `[]` there (the
  code only ever asks for `len`, and `omitempty` treats both alike).  A slice
  held in an `any` is encoded differently when it is nil, and has a constructor
  of its own for that (`GoAny.nilSlice`).
* A Go map value is modelled by its association list (distinct keys, insertion
  overwrites); a nil map is `none`, and `GoAny.nilMap` when held in an `any`.
* `int64` values are integers in `[-2^63, 2^63)`; `int` is 64 bits wide.
* The JSON decoder is a reader over the characters of the text with a step
  budget of the length of the text plus one, and with the nesting limit of
  `encoding/json` (`maxNestingDepth`).  Its results are three-valued
  (`Outcome`): a value, the error result, or `unmodelled` for the inputs whose
  treatment by `encoding/json` is not represented here (numbers with a fraction
  or an exponent, surrogate escapes, repeated keys, field names that match
  only after Unicode case folding).
-/

namespace Model

/-! ## Dynamic values held by `any` -/

/-- Values that a Go `any` holds in a payload or a hook argument bag:

* `null`: the nil interface value;
* `bool b`, `int n` (a Go `int`), `str s`;
* `float n`: the `float64` whose value is the whole number `n`, of magnitude
  at most `2^53` (these are the `float64`s written without fraction or
  exponent); other `float64`s are not represented;
* `nilSlice`: the nil `[]any`; `slice xs`: a non-nil `[]any` with the elements
  `xs` (`slice []` is the empty slice `[]any{}`);
* `nilMap`: the nil `map[string]any`; `map kvs`: a non-nil `map[string]any`
  with the entries `kvs` (`map []` is the empty map);
* `chan`, which stands for the kinds `encoding/json` refuses to encode. -/
inductive GoAny where
  | null
  | bool (b : Bool)
  | int (n : Int)
  | float (n : Int) (hn : n.natAbs ≤ 9007199254740992)
  | str (s : String)
  | nilSlice
  | slice (xs : List GoAny)
  | nilMap
  | map (kvs : List (String × GoAny))
  | chan

/-- A non-nil `map[string]any` value. -/
abbrev AnyMap := List (String × GoAny)

/-- Assignment `m[k] = v` on a map: overwrite the entry of `k` if there is one,
add a new entry otherwise. -/
def mapInsert {V : Type} : List (String × V) → String → V → List (String × V)
  | [], k, v => [(k, v)]
  | (k0, v0) :: rest, k, v =>
    if k0 = k then (k, v) :: rest else (k0, v0) :: mapInsert rest k v

/-- The loop `for k, v := range m { dataCopy[k] = v }` into a fresh map. -/
def copyEntries {V : Type} (m : List (String × V)) : List (String × V) :=
  m.foldl (fun acc kv => mapInsert acc kv.1 kv.2) []

/-! ## `encoding/json`: the encoder -/

/-- The one failure `json.Marshal` has on these types: an unsupported kind. -/
inductive MarshalError where
  | unsupportedType
deriving DecidableEq, Repr

/-- Lower-case hexadecimal digit. -/
def hexDigit (n : Nat) : Char :=
  "0123456789abcdef".data.getD n '0'

/-- The reverse solidus. -/
def backslash : Char := Char.ofNat 92

/-- How the encoder writes one character of a string (HTML escaping on, as in
`json.Marshal`). -/
def escapeRune (c : Char) : List Char :=
  let n := c.toNat
  if n = 34 ∨ n = 92 then [backslash, c]
  else if n = 8 then [backslash, 'b']
  else if n = 12 then [backslash, 'f']
  else if n = 10 then [backslash, 'n']
  else if n = 13 then [backslash, 'r']
  else if n = 9 then [backslash, 't']
  else if n < 32 ∨ n = 60 ∨ n = 62 ∨ n = 38 then
    [backslash, 'u', '0', '0', hexDigit (n / 16), hexDigit (n % 16)]
  else if n = 8232 ∨ n = 8233 then
    [backslash, 'u', '2', '0', '2', hexDigit (n % 16)]
  else [c]

/-- JSON string literal for a Go string. -/
def quote (s : String) : String :=
  "\"" ++ String.mk (s.data.flatMap escapeRune) ++ "\""

/-- Decimal rendering of a signed integer (`strconv.FormatInt(v, 10)`). -/
def formatInt (v : Int) : String :=
  if v < 0 then "-" ++ Nat.repr v.natAbs else Nat.repr v.natAbs

/-- Lexicographic order on keys (`strings.Compare` is negative); comparing code
points agrees with comparing the UTF-8 bytes. -/
def keyLess : List Char → List Char → Bool
  | _, [] => false
  | [], _ :: _ => true
  | a :: as, b :: bs =>
    if a.toNat < b.toNat then true
    else if b.toNat < a.toNat then false
    else keyLess as bs

/-- Ordered insertion of an encoded member by key. -/
def insertByKey (kv : String × String) : List (String × String) → List (String × String)
  | [] => [kv]
  | x :: rest =>
    if keyLess kv.1.data x.1.data then kv :: x :: rest else x :: insertByKey kv rest

/-- The encoder sorts the members of a map by key. -/
def sortByKey : List (String × String) → List (String × String)
  | [] => []
  | kv :: rest => insertByKey kv (sortByKey rest)

/-- Comma-separated concatenation. -/
def joinComma : List String → String
  | [] => ""
  | [x] => x
  | x :: y :: rest => x ++ "," ++ joinComma (y :: rest)

/-- A JSON object from members given as key and already encoded value, in the
order given. -/
def renderObject (members : List (String × String)) : String :=
  "\x7b" ++ joinComma (members.map (fun kv => quote kv.1 ++ ":" ++ kv.2)) ++ "\x7d"

/-- A JSON array from already encoded elements. -/
def renderArray (elems : List String) : String :=
  "[" ++ joinComma elems ++ "]"

/-- A JSON object for a map: members sorted by key. -/
def renderMap (members : List (String × String)) : String :=
  renderObject (sortByKey members)

mutual
/-- Encoding of a dynamic value: a nil slice and a nil map are written `null`,
an empty slice `[]` and an empty map `{}`. -/
def marshalAny : GoAny → Except MarshalError String
  | .null => .ok "null"
  | .bool b => .ok (if b then "true" else "false")
  | .int n => .ok (formatInt n)
  | .float n _ => .ok (formatInt n)
  | .str s => .ok (quote s)
  | .nilSlice => .ok "null"
  | .slice xs =>
    match marshalElems xs with
    | .ok es => .ok (renderArray es)
    | .error err => .error err
  | .nilMap => .ok "null"
  | .map kvs =>
    match marshalMembers kvs with
    | .ok ms => .ok (renderMap ms)
    | .error err => .error err
  | .chan => .error .unsupportedType
/-- Encoding of the elements of a slice, in order. -/
def marshalElems : List GoAny → Except MarshalError (List String)
  | [] => .ok []
  | x :: xs =>
    match marshalAny x, marshalElems xs with
    | .ok e, .ok es => .ok (e :: es)
    | .error err, _ => .error err
    | _, .error err => .error err
/-- Encoding of the values of a map, each kept with its key. -/
def marshalMembers : List (String × GoAny) → Except MarshalError (List (String × String))
  | [] => .ok []
  | (k, v) :: kvs =>
    match marshalAny v, marshalMembers kvs with
    | .ok e, .ok es => .ok ((k, e) :: es)
    | .error err, _ => .error err
    | _, .error err => .error err
end

/-- Encoding of a `map[string]any`: `null` for the nil map. -/
def marshalAnyMap : Option AnyMap → Except MarshalError String
  | none => .ok "null"
  | some kvs =>
    match marshalMembers kvs with
    | .ok ms => .ok (renderMap ms)
    | .error err => .error err

/-- Encoding of a `map[string]bool`: `null` for the nil map. -/
def marshalBoolMap : Option (List (String × Bool)) → String
  | none => "null"
  | some kvs => renderMap (kvs.map (fun kv => (kv.1, if kv.2 then "true" else "false")))

/-! ## Broadcast target -/

/-- The struct `WebsocketBroadcast`.  `OmitUsers` is `none` for the nil map;
each hook argument bag is `none` for a nil map. -/
structure WebsocketBroadcast where
  OmitUsers : Option (List (String × Bool))
  UserId : String
  ChannelId : String
  TeamId : String
  ConnectionId : String
  OmitConnectionId : String
  ContainsSanitizedData : Bool
  ContainsSensitiveData : Bool
  ReliableClusterSend : Bool
  BroadcastHooks : List String
  BroadcastHookArgs : List (Option AnyMap)

/-- The zero value of the struct (`var c WebsocketBroadcast`). -/
def WebsocketBroadcast.zero : WebsocketBroadcast :=
  { OmitUsers := none, UserId := "", ChannelId := "", TeamId := "", ConnectionId := "",
    OmitConnectionId := "", ContainsSanitizedData := false, ContainsSensitiveData := false,
    ReliableClusterSend := false, BroadcastHooks := [], BroadcastHookArgs := [] }

/-- Encoding of the elements of `BroadcastHookArgs`, in order. -/
def marshalHookArgs : List (Option AnyMap) → Except MarshalError (List String)
  | [] => .ok []
  | m :: ms =>
    match marshalAnyMap m, marshalHookArgs ms with
    | .ok e, .ok es => .ok (e :: es)
    | .error err, _ => .error err
    | _, .error err => .error err

/-- Members of the JSON object the encoder writes for a `WebsocketBroadcast`,
in field order, following the struct tags: the two flags and the two hook
fields are `omitempty`, `ReliableClusterSend` is tagged `-`. -/
def WebsocketBroadcast.members (wb : WebsocketBroadcast) :
    Except MarshalError (List (String × String)) :=
  match marshalHookArgs wb.BroadcastHookArgs with
  | .error err => .error err
  | .ok args =>
    .ok ([("omit_users", marshalBoolMap wb.OmitUsers),
          ("user_id", quote wb.UserId),
          ("channel_id", quote wb.ChannelId),
          ("team_id", quote wb.TeamId),
          ("connection_id", quote wb.ConnectionId),
          ("omit_connection_id", quote wb.OmitConnectionId)]
      ++ (if wb.ContainsSanitizedData then [("contains_sanitized_data", "true")] else [])
      ++ (if wb.ContainsSensitiveData then [("contains_sensitive_data", "true")] else [])
      ++ (if wb.BroadcastHooks.length = 0 then []
          else [("broadcast_hooks", renderArray (wb.BroadcastHooks.map quote))])
      ++ (if wb.BroadcastHookArgs.length = 0 then []
          else [("broadcast_hook_args", renderArray args)]))

/-- Encoding of a `*WebsocketBroadcast`: `null` for the nil pointer. -/
def marshalBroadcast : Option WebsocketBroadcast → Except MarshalError String
  | none => .ok "null"
  | some wb =>
    match wb.members with
    | .ok ms => .ok (renderObject ms)
    | .error err => .error err

/-! ## Event envelope and heap -/

/-- An address in one region of the heap. -/
abbrev Addr := Nat

/-- The struct `precomputedWebSocketEventJSON`: three `json.RawMessage`s. -/
structure precomputedWebSocketEventJSON where
  Event : String
  Data : String
  Broadcast : String
deriving DecidableEq

/-- The struct `WebSocketEvent`.  `data` is a map reference and `broadcast` a
pointer, both `none` when nil; `precomputedJSON` points to a struct that is
never written after it is built, so it is kept by value. -/
structure WebSocketEvent where
  event : String
  data : Option Addr
  broadcast : Option Addr
  sequence : Int
  precomputedJSON : Option precomputedWebSocketEventJSON
deriving DecidableEq

/-- The objects that are reached through references: event structs, payload
maps and broadcast structs. -/
structure Heap where
  events : List WebSocketEvent
  maps : List AnyMap
  broadcasts : List WebsocketBroadcast

/-- Allocation of an event struct. -/
def Heap.newEvent (h : Heap) (e : WebSocketEvent) : Addr × Heap :=
  (h.events.length, { h with events := h.events ++ [e] })

/-- Allocation of a payload map. -/
def Heap.newMap (h : Heap) (m : AnyMap) : Addr × Heap :=
  (h.maps.length, { h with maps := h.maps ++ [m] })

/-- Allocation of a broadcast struct. -/
def Heap.newBroadcast (h : Heap) (wb : WebsocketBroadcast) : Addr × Heap :=
  (h.broadcasts.length, { h with broadcasts := h.broadcasts ++ [wb] })

/-- Store to an event struct. -/
def Heap.setEvent (h : Heap) (a : Addr) (e : WebSocketEvent) : Option Heap :=
  if a < h.events.length then some { h with events := h.events.set a e } else none

/-- Store to a payload map. -/
def Heap.setMap (h : Heap) (a : Addr) (m : AnyMap) : Option Heap :=
  if a < h.maps.length then some { h with maps := h.maps.set a m } else none

/-- Store to a broadcast struct. -/
def Heap.setBroadcast (h : Heap) (a : Addr) (wb : WebsocketBroadcast) : Option Heap :=
  if a < h.broadcasts.length then some { h with broadcasts := h.broadcasts.set a wb } else none

/-- The map a map reference stands for (`none` inside for the nil map). -/
def Heap.getData (h : Heap) : Option Addr → Option (Option AnyMap)
  | none => some none
  | some a => (h.maps[a]?).map some

/-- The struct a broadcast pointer stands for (`none` inside for nil). -/
def Heap.getBroadcast (h : Heap) : Option Addr → Option (Option WebsocketBroadcast)
  | none => some none
  | some a => (h.broadcasts[a]?).map some

/-- Load through a broadcast pointer; a nil pointer panics. -/
def Heap.derefBroadcast (h : Heap) : Option Addr → Option WebsocketBroadcast
  | none => none
  | some a => h.broadcasts[a]?

/-- The method `(wb *WebsocketBroadcast) copy()`. -/
def WebsocketBroadcast.copy (h : Heap) : Option Addr → Option (Option Addr × Heap)
  | none => some (none, h)
  | some a =>
    match h.broadcasts[a]? with
    | none => none
    | some wb =>
      let c := WebsocketBroadcast.zero
      let c := match wb.OmitUsers with
        | some m => { c with OmitUsers := some (copyEntries m) }
        | none => c
      let c := { c with UserId := wb.UserId }
      let c := { c with ChannelId := wb.ChannelId }
      let c := { c with TeamId := wb.TeamId }
      let c := { c with OmitConnectionId := wb.OmitConnectionId }
      let c := { c with ContainsSanitizedData := wb.ContainsSanitizedData }
      let c := { c with ContainsSensitiveData := wb.ContainsSensitiveData }
      let c := { c with BroadcastHooks := wb.BroadcastHooks }
      let c := { c with BroadcastHookArgs := wb.BroadcastHookArgs }
      let r := h.newBroadcast c
      some (some r.1, r.2)

/-- The method `(wb *WebsocketBroadcast) AddHook(hookID, hookArgs)`. -/
def WebsocketBroadcast.AddHook (h : Heap) (wb : Option Addr) (hookID : String)
    (hookArgs : Option AnyMap) : Option Heap :=
  match wb with
  | none => none
  | some a =>
    match h.broadcasts[a]? with
    | none => none
    | some b =>
      let b := { b with BroadcastHooks := b.BroadcastHooks ++ [hookID] }
      let b := { b with BroadcastHookArgs := b.BroadcastHookArgs ++ [hookArgs] }
      h.setBroadcast a b

/-- The method `(p *precomputedWebSocketEventJSON) copy()`. -/
def precomputedWebSocketEventJSON.copy :
    Option precomputedWebSocketEventJSON → Option precomputedWebSocketEventJSON
  | none => none
  | some p => some { Event := p.Event, Data := p.Data, Broadcast := p.Broadcast }

/-- The struct `webSocketEventJSON`, with the payload map and the broadcast
struct its references stand for at the time it is encoded. -/
structure webSocketEventJSON where
  Event : String
  Data : Option AnyMap
  Broadcast : Option WebsocketBroadcast
  Sequence : Int

/-- Encoding of a `webSocketEventJSON` by `json.Marshal`. -/
def marshalWebSocketEventJSON (o : webSocketEventJSON) : Except MarshalError String :=
  match marshalAnyMap o.Data, marshalBroadcast o.Broadcast with
  | .ok d, .ok b =>
    .ok (renderObject [("event", quote o.Event), ("data", d), ("broadcast", b),
      ("seq", formatInt o.Sequence)])
  | .error err, _ => .error err
  | _, .error err => .error err

/-- The bytes of `x, _ := json.Marshal(v)`: nil when the encoder fails. -/
def bytesOrNil : Except MarshalError String → String
  | .ok s => s
  | .error _ => ""

/-- The range of `int64`. -/
def isInt64 (v : Int) : Prop := -(2 ^ 63) ≤ v ∧ v < 2 ^ 63

/-- Width of `int` in bits. -/
def intSize : Nat := 64

/-- Value of an integer truncated to `w` bits, two's complement. -/
def wrapSigned (w : Nat) (v : Int) : Int :=
  (v + 2 ^ (w - 1)) % 2 ^ w - 2 ^ (w - 1)

/-- The conversion `int(v)`. -/
def toInt (v : Int) : Int := wrapSigned intSize v

/-- The function `strconv.Itoa`. -/
def Itoa (i : Int) : String := formatInt i

/-- The method `(ev *WebSocketEvent) Copy()`. -/
def WebSocketEvent.Copy (h : Heap) (ev : Addr) : Option (Addr × Heap) :=
  match h.events[ev]? with
  | none => none
  | some e =>
    some (h.newEvent
      { event := e.event, data := e.data, broadcast := e.broadcast,
        sequence := e.sequence, precomputedJSON := e.precomputedJSON })

/-- The method `(ev *WebSocketEvent) PrecomputeJSON()`. -/
def WebSocketEvent.PrecomputeJSON (h : Heap) (ev : Addr) : Option (Addr × Heap) :=
  match WebSocketEvent.Copy h ev with
  | none => none
  | some (evCopy, h1) =>
    match h1.events[evCopy]? with
    | none => none
    | some c =>
      match h1.getData c.data, h1.getBroadcast c.broadcast with
      | some d, some b =>
        let event := bytesOrNil (.ok (quote c.event))
        let data := bytesOrNil (marshalAnyMap d)
        let broadcast := bytesOrNil (marshalBroadcast b)
        let p : precomputedWebSocketEventJSON :=
          { Event := event, Data := data, Broadcast := broadcast }
        match h1.setEvent evCopy { c with precomputedJSON := some p } with
        | none => none
        | some h2 => some (evCopy, h2)
      | _, _ => none

/-- The function `copyMap`, at `map[string]any`: always a fresh non-nil map. -/
def copyMap (h : Heap) (m : Option Addr) : Option (Addr × Heap) :=
  match h.getData m with
  | none => none
  | some none => some (h.newMap [])
  | some (some kvs) => some (h.newMap (copyEntries kvs))

/-- The method `(ev *WebSocketEvent) DeepCopy()`. -/
def WebSocketEvent.DeepCopy (h : Heap) (ev : Addr) : Option (Addr × Heap) :=
  match h.events[ev]? with
  | none => none
  | some e =>
    match copyMap h e.data with
    | none => none
    | some (d, h1) =>
      match WebsocketBroadcast.copy h1 e.broadcast with
      | none => none
      | some (b, h2) =>
        some (h2.newEvent
          { event := e.event, data := some d, broadcast := b, sequence := e.sequence,
            precomputedJSON := precomputedWebSocketEventJSON.copy e.precomputedJSON })

/-- The method `(ev *WebSocketEvent) RemovePrecomputedJSON()`. -/
def WebSocketEvent.RemovePrecomputedJSON (h : Heap) (ev : Addr) : Option (Addr × Heap) :=
  match WebSocketEvent.DeepCopy h ev with
  | none => none
  | some (evCopy, h1) =>
    match h1.events[evCopy]? with
    | none => none
    | some c =>
      match h1.setEvent evCopy { c with precomputedJSON := none } with
      | none => none
      | some h2 => some (evCopy, h2)

/-- The method `(ev *WebSocketEvent) WithoutBroadcastHooks()`. -/
def WebSocketEvent.WithoutBroadcastHooks (h : Heap) (ev : Addr) :
    Option ((Addr × List String × List (Option AnyMap)) × Heap) :=
  match h.events[ev]? with
  | none => none
  | some e =>
    match h.derefBroadcast e.broadcast with
    | none => none
    | some wb =>
      let hooks := wb.BroadcastHooks
      let hookArgs := wb.BroadcastHookArgs
      if hooks.length = 0 ∧ hookArgs.length = 0 then
        some ((ev, hooks, hookArgs), h)
      else
        match WebSocketEvent.Copy h ev with
        | none => none
        | some (evCopy, h1) =>
          match WebsocketBroadcast.copy h1 e.broadcast with
          | none => none
          | some (bc, h2) =>
            match h2.events[evCopy]? with
            | none => none
            | some c =>
              match h2.setEvent evCopy { c with broadcast := bc } with
              | none => none
              | some h3 =>
                match h3.derefBroadcast bc with
                | none => none
                | some b1 =>
                  match bc.bind (fun a => h3.setBroadcast a { b1 with BroadcastHooks := [] }) with
                  | none => none
                  | some h4 =>
                    match h4.derefBroadcast bc with
                    | none => none
                    | some b2 =>
                      match bc.bind
                          (fun a => h4.setBroadcast a { b2 with BroadcastHookArgs := [] }) with
                      | none => none
                      | some h5 => some ((evCopy, hooks, hookArgs), h5)

/-- The method `(ev *WebSocketEvent) Add(key, value)`; assignment to an entry
of a nil map panics. -/
def WebSocketEvent.Add (h : Heap) (ev : Addr) (key : String) (value : GoAny) : Option Heap :=
  match h.events[ev]? with
  | none => none
  | some e =>
    match e.data with
    | none => none
    | some a =>
      match h.maps[a]? with
      | none => none
      | some m => h.setMap a (mapInsert m key value)

/-- The function `NewWebSocketEvent`. -/
def NewWebSocketEvent (h : Heap) (event teamId channelId userId : String)
    (omitUsers : Option (List (String × Bool))) (omitConnectionId : String) : Addr × Heap :=
  let d := h.newMap []
  let b := d.2.newBroadcast
    { WebsocketBroadcast.zero with
      TeamId := teamId, ChannelId := channelId, UserId := userId,
      OmitUsers := omitUsers, OmitConnectionId := omitConnectionId }
  b.2.newEvent
    { event := event, data := some d.1, broadcast := some b.1, sequence := 0,
      precomputedJSON := none }

/-- The method `(ev *WebSocketEvent) GetData()`. -/
def WebSocketEvent.GetData (h : Heap) (ev : Addr) : Option (Option Addr) :=
  (h.events[ev]?).map (fun e => e.data)

/-- The method `(ev *WebSocketEvent) GetBroadcast()`. -/
def WebSocketEvent.GetBroadcast (h : Heap) (ev : Addr) : Option (Option Addr) :=
  (h.events[ev]?).map (fun e => e.broadcast)

/-- The method `(ev *WebSocketEvent) GetSequence()`. -/
def WebSocketEvent.GetSequence (h : Heap) (ev : Addr) : Option Int :=
  (h.events[ev]?).map (fun e => e.sequence)

/-- The method `(ev *WebSocketEvent) SetEvent(event)`. -/
def WebSocketEvent.SetEvent (h : Heap) (ev : Addr) (event : String) : Option (Addr × Heap) :=
  match WebSocketEvent.Copy h ev with
  | none => none
  | some (evCopy, h1) =>
    match h1.events[evCopy]? with
    | none => none
    | some c =>
      match h1.setEvent evCopy { c with event := event } with
      | none => none
      | some h2 => some (evCopy, h2)

/-- The method `(ev *WebSocketEvent) SetData(data)`. -/
def WebSocketEvent.SetData (h : Heap) (ev : Addr) (data : Option Addr) : Option (Addr × Heap) :=
  match WebSocketEvent.Copy h ev with
  | none => none
  | some (evCopy, h1) =>
    match h1.events[evCopy]? with
    | none => none
    | some c =>
      match h1.setEvent evCopy { c with data := data } with
      | none => none
      | some h2 => some (evCopy, h2)

/-- The method `(ev *WebSocketEvent) SetBroadcast(broadcast)`. -/
def WebSocketEvent.SetBroadcast (h : Heap) (ev : Addr) (broadcast : Option Addr) :
    Option (Addr × Heap) :=
  match WebSocketEvent.Copy h ev with
  | none => none
  | some (evCopy, h1) =>
    match h1.events[evCopy]? with
    | none => none
    | some c =>
      match h1.setEvent evCopy { c with broadcast := broadcast } with
      | none => none
      | some h2 => some (evCopy, h2)

/-- The method `(ev *WebSocketEvent) SetSequence(seq)`. -/
def WebSocketEvent.SetSequence (h : Heap) (ev : Addr) (seq : Int) : Option (Addr × Heap) :=
  match WebSocketEvent.Copy h ev with
  | none => none
  | some (evCopy, h1) =>
    match h1.events[evCopy]? with
    | none => none
    | some c =>
      match h1.setEvent evCopy { c with sequence := seq } with
      | none => none
      | some h2 => some (evCopy, h2)

/-- The method `(ev *WebSocketEvent) IsValid()`. -/
def WebSocketEvent.IsValid (h : Heap) (ev : Addr) : Option Bool :=
  (h.events[ev]?).map (fun e => decide (e.event ≠ ""))

/-- The method `(ev *WebSocketEvent) EventType()`. -/
def WebSocketEvent.EventType (h : Heap) (ev : Addr) : Option String :=
  (h.events[ev]?).map (fun e => e.event)

/-- The method `(ev *WebSocketEvent) precomputedJSONBuf()`, on the struct the
receiver points to; a nil `precomputedJSON` panics. -/
def WebSocketEvent.precomputedJSONBuf (e : WebSocketEvent) : Option String :=
  match e.precomputedJSON with
  | none => none
  | some p =>
    some ("\x7b\"event\": " ++ p.Event ++ ", \"data\": " ++ p.Data ++ ", \"broadcast\": "
      ++ p.Broadcast ++ ", \"seq\": " ++ Itoa (toInt e.sequence) ++ "\x7d")

/-- The method `(ev *WebSocketEvent) ToJSON()`: the outer `none` is a panic,
`.error` is the error result. -/
def WebSocketEvent.ToJSON (h : Heap) (ev : Addr) : Option (Except MarshalError String) :=
  match h.events[ev]? with
  | none => none
  | some e =>
    if e.precomputedJSON.isSome then
      (WebSocketEvent.precomputedJSONBuf e).map Except.ok
    else
      match h.getData e.data, h.getBroadcast e.broadcast with
      | some d, some b =>
        some (marshalWebSocketEventJSON
          { Event := e.event, Data := d, Broadcast := b, Sequence := e.sequence })
      | _, _ => none

/-- The broadcast struct an event points to. -/
def Heap.targetOf (h : Heap) (ev : Addr) : Option WebsocketBroadcast :=
  match h.events[ev]? with
  | none => none
  | some e => h.derefBroadcast e.broadcast

/-- The calls `wb.AddHook(id_1, args_1); ...; wb.AddHook(id_n, args_n)`. -/
def addHooks (h : Heap) (wb : Option Addr) : List (String × Option AnyMap) → Option Heap
  | [] => some h
  | c :: cs =>
    match WebsocketBroadcast.AddHook h wb c.1 c.2 with
    | none => none
    | some h1 => addHooks h1 wb cs

/-! ## Concrete envelopes -/

/-- The heap with no object. -/
def emptyHeap : Heap := { events := [], maps := [], broadcasts := [] }

/-- The heap after `NewWebSocketEvent("posted", "team1", "chan1", "", nil, "")`;
the event is at address 0. -/
def postedHeap : Heap :=
  (NewWebSocketEvent emptyHeap "posted" "team1" "chan1" "" none "").2

/-- An event `posted` at address 0 whose target names connection `conn1`, asks
for the reliable cluster channel and carries the hooks `h1` and `h2`. -/
def hookedHeap : Heap :=
  { events := [{ event := "posted", data := some 0, broadcast := some 0, sequence := 0,
                 precomputedJSON := none }],
    maps := [[]],
    broadcasts := [{ WebsocketBroadcast.zero with
      ConnectionId := "conn1", ReliableClusterSend := true,
      BroadcastHooks := ["h1", "h2"],
      BroadcastHookArgs := [some [("k", GoAny.str "v")], some []] }] }

/-- The same event as in `hookedHeap` with no hook ever attached. -/
def unhookedHeap : Heap :=
  { events := [{ event := "posted", data := some 0, broadcast := some 0, sequence := 0,
                 precomputedJSON := none }],
    maps := [[]],
    broadcasts := [{ WebsocketBroadcast.zero with
      ConnectionId := "conn1", ReliableClusterSend := true }] }

/-- The event struct at address 0 of `postedHeap`. -/
def postedEvent : WebSocketEvent :=
  { event := "posted", data := some 0, broadcast := some 0, sequence := 0,
    precomputedJSON := none }

/-- The broadcast struct at address 0 of `postedHeap`. -/
def postedTarget : WebsocketBroadcast :=
  { WebsocketBroadcast.zero with TeamId := "team1", ChannelId := "chan1" }

/-- A target with one hook that asks for the reliable cluster channel. -/
def hookedTarget : WebsocketBroadcast :=
  { WebsocketBroadcast.zero with
    ReliableClusterSend := true, BroadcastHooks := ["h1"],
    BroadcastHookArgs := [some [("k", GoAny.str "v")]] }

/-- A snapshot of an event `posted` with an empty payload and a nil target. -/
def frozenSnapshot : precomputedWebSocketEventJSON :=
  { Event := "\"posted\"", Data := "\x7b\x7d", Broadcast := "null" }

/-- An event struct that carries `frozenSnapshot`, with sequence 42 and with
other current fields than the frozen ones. -/
def frozenEvent : WebSocketEvent :=
  { event := "typing", data := none, broadcast := some 0, sequence := 42,
    precomputedJSON := some frozenSnapshot }

/-- A heap with `frozenEvent` at address 0. -/
def frozenHeap : Heap :=
  { events := [frozenEvent], maps := [], broadcasts := [postedTarget] }

instance (v : Int) : Decidable (isInt64 v) := by
  unfold isInt64
  infer_instance

/-! ## `Encode` -/

/-- An `io.Writer`: the bytes it has taken so far and whether it refuses
further writes. -/
structure Writer where
  written : String
  broken : Bool

/-- The error result of `Encode`: the encoder's own failure or the failure of
the destination. -/
inductive EncodeError where
  | marshal (e : MarshalError)
  | write

/-- The method `Write` of the destination: all bytes are taken, or none and an
error is returned. -/
def Writer.Write (w : Writer) (p : String) : Option EncodeError × Writer :=
  if w.broken then (some .write, w) else (none, { w with written := w.written ++ p })

/-- The method `(enc *json.Encoder) Encode(v)` of an encoder made by
`json.NewEncoder(w)`, given the outcome of encoding `v`: nothing is written
when the value does not encode, otherwise the encoding followed by a newline
character is written to `w`. -/
def encoderEncode (w : Writer) (v : Except MarshalError String) : Option EncodeError × Writer :=
  match v with
  | .error e => (some (.marshal e), w)
  | .ok s => w.Write (s ++ "\n")

/-- The method `(ev *WebSocketEvent) Encode(enc, buf)`, where `enc` is
`json.NewEncoder(buf)`. -/
def WebSocketEvent.Encode (h : Heap) (ev : Addr) (buf : Writer) :
    Option (Option EncodeError × Writer) :=
  match h.events[ev]? with
  | none => none
  | some e =>
    if e.precomputedJSON.isSome then
      (WebSocketEvent.precomputedJSONBuf e).map (fun bytes => buf.Write bytes)
    else
      match h.getData e.data, h.getBroadcast e.broadcast with
      | some d, some b =>
        some (encoderEncode buf (marshalWebSocketEventJSON
          { Event := e.event, Data := d, Broadcast := b, Sequence := e.sequence }))
      | _, _ => none

/-! ## Response envelope -/

/-- Modelled from the spec: the constant `StatusFail`, declared outside this
file; the failure helper sets `status=FAIL`. -/
def StatusFail : String := "FAIL"

/-- The constant `WebsocketEventResponse`. -/
def WebsocketEventResponse : String := "response"

/-- The struct `WebSocketResponse`; the type `AppError` is declared outside
this file and is a parameter.  `Data` and `Error` are `none` when nil. -/
structure WebSocketResponse (AppError : Type) where
  Status : String
  SeqReply : Int
  Data : Option AnyMap
  Error : Option AppError

/-- The function `NewWebSocketResponse`. -/
def NewWebSocketResponse {AppError : Type} (status : String) (seqReply : Int)
    (data : Option AnyMap) : WebSocketResponse AppError :=
  { Status := status, SeqReply := seqReply, Data := data, Error := none }

/-- The function `NewWebSocketError`. -/
def NewWebSocketError {AppError : Type} (seqReply : Int) (err : Option AppError) :
    WebSocketResponse AppError :=
  { Status := StatusFail, SeqReply := seqReply, Data := none, Error := err }

/-- The method `(m *WebSocketResponse) IsValid()`. -/
def WebSocketResponse.IsValid {AppError : Type} (m : WebSocketResponse AppError) : Bool :=
  decide (m.Status ≠ "")

/-- The method `(m *WebSocketResponse) EventType()`. -/
def WebSocketResponse.EventType {AppError : Type} (_m : WebSocketResponse AppError) : String :=
  WebsocketEventResponse

/-- Whether `omitempty` leaves a `map[string]any` out: nil or no entry. -/
def anyMapIsEmpty : Option AnyMap → Bool
  | none => true
  | some m => m.length == 0

/-- Members of the JSON object the encoder writes for a `WebSocketResponse`,
following the struct tags (`seq_reply`, `data` and `error` are `omitempty`);
`marshalAppError` is the encoding of the absent type `AppError`. -/
def WebSocketResponse.members {AppError : Type}
    (marshalAppError : AppError → Except MarshalError String) (m : WebSocketResponse AppError) :
    Except MarshalError (List (String × String)) :=
  let dataPart : Except MarshalError (List (String × String)) :=
    if anyMapIsEmpty m.Data then .ok []
    else match marshalAnyMap m.Data with
      | .ok d => .ok [("data", d)]
      | .error err => .error err
  let errorPart : Except MarshalError (List (String × String)) :=
    match m.Error with
    | none => .ok []
    | some a =>
      match marshalAppError a with
      | .ok s => .ok [("error", s)]
      | .error err => .error err
  match dataPart, errorPart with
  | .ok d, .ok e =>
    .ok ([("status", quote m.Status)]
      ++ (if m.SeqReply = 0 then [] else [("seq_reply", formatInt m.SeqReply)])
      ++ d ++ e)
  | .error err, _ => .error err
  | _, .error err => .error err

/-- The method `(m *WebSocketResponse) ToJSON()`. -/
def WebSocketResponse.ToJSON {AppError : Type}
    (marshalAppError : AppError → Except MarshalError String) (m : WebSocketResponse AppError) :
    Except MarshalError String :=
  match m.members marshalAppError with
  | .ok ms => .ok (renderObject ms)
  | .error err => .error err

/-! ## Further concrete envelopes -/

/-- A writer that has taken no byte and accepts writes. -/
def emptyWriter : Writer := { written := "", broken := false }

/-- A writer that refuses every write. -/
def brokenWriter : Writer := { written := "", broken := true }

/-- An event `posted` at address 0 whose payload holds a channel under `c`. -/
def chanHeap : Heap :=
  { events := [{ event := "posted", data := some 0, broadcast := some 0, sequence := 0,
                 precomputedJSON := none }],
    maps := [[("c", GoAny.chan)]],
    broadcasts := [WebsocketBroadcast.zero] }

/-- The heap after `NewWebSocketEvent(...)` as in `postedHeap` followed by
`SetBroadcast(nil)`; the new event is at address 1. -/
def nilTargetHeap : Heap :=
  { events := [postedEvent, { postedEvent with broadcast := none }],
    maps := [[]],
    broadcasts := [postedTarget] }

/-- The payload map an event refers to (`none` inside for the nil map). -/
def Heap.payloadOf (h : Heap) (ev : Addr) : Option (Option AnyMap) :=
  match h.events[ev]? with
  | none => none
  | some e => h.getData e.data

/-- Snapshot consistency of an event struct in a heap: a snapshot, when there
is one, holds the encodings of the current event type, payload and target. -/
def Heap.Consistent (h : Heap) (e : WebSocketEvent) : Prop :=
  ∀ p, e.precomputedJSON = some p →
    ∃ d b, h.getData e.data = some d ∧ h.getBroadcast e.broadcast = some b ∧
      p.Event = quote e.event ∧ marshalAnyMap d = .ok p.Data ∧
      marshalBroadcast b = .ok p.Broadcast

/-! ## `encoding/json`: the decoder

The decoder is modelled in two steps: the JSON text is read into a `JVal`, and
the `JVal` is stored into the Go value.  The model answers `unmodelled` where
it does not follow the library: numbers with a fraction or an exponent,
`\u` escapes of surrogates, keys that occur twice for one struct field, keys
outside ASCII that name no field exactly, and `float64` values that are not
whole numbers of magnitude at most `2^53`.  The nesting limit of the scanner
(`maxNestingDepth`) is part of the model. -/

/-- Result of the decoder model: a value, an error returned by the decoder, or
no answer of the model. -/
inductive Outcome (α : Type) where
  | ok (a : α)
  | error
  | unmodelled

/-- Sequencing of decoder steps: the first step that is not `ok` decides. -/
def Outcome.bind {α β : Type} (x : Outcome α) (f : α → Outcome β) : Outcome β :=
  match x with
  | .ok a => f a
  | .error => .error
  | .unmodelled => .unmodelled

/-- A JSON value as read from the text.  A number is kept when its literal is
an integer: `neg` tells whether it starts with a minus sign, `mag` is the value
of its digits. -/
inductive JVal where
  | null
  | bool (b : Bool)
  | num (neg : Bool) (mag : Nat)
  | str (s : String)
  | arr (xs : List JVal)
  | obj (kvs : List (String × JVal))

/-- JSON whitespace: space, tab, line feed, carriage return. -/
def isWs (c : Char) : Bool :=
  c.toNat = 32 ∨ c.toNat = 9 ∨ c.toNat = 10 ∨ c.toNat = 13

/-- Input after leading whitespace. -/
def skipWs : List Char → List Char
  | [] => []
  | c :: cs => if isWs c then skipWs cs else c :: cs

/-- Decimal digits. -/
def isDigit (c : Char) : Bool :=
  48 ≤ c.toNat ∧ c.toNat ≤ 57

/-- The leading run of digits and the input after it. -/
def spanDigits : List Char → List Char × List Char
  | [] => ([], [])
  | c :: cs =>
    if isDigit c then ((c :: (spanDigits cs).1), (spanDigits cs).2) else ([], c :: cs)

/-- Value of a run of digits. -/
def digitsVal (ds : List Char) : Nat :=
  ds.foldl (fun a c => 10 * a + (c.toNat - 48)) 0

/-- A number after its optional minus sign: digits without a leading zero,
not followed by a fraction or an exponent. -/
def parseNumber (neg : Bool) (cs : List Char) : Outcome (JVal × List Char) :=
  match spanDigits cs with
  | ([], _) => .error
  | (d :: ds, rest) =>
    if d.toNat = 48 ∧ ds ≠ [] then .error
    else
      match rest with
      | [] => .ok (.num neg (digitsVal (d :: ds)), [])
      | c :: rest1 =>
        if c.toNat = 46 ∨ c.toNat = 101 ∨ c.toNat = 69 then .unmodelled
        else .ok (.num neg (digitsVal (d :: ds)), c :: rest1)

/-- Value of a hexadecimal digit. -/
def hexVal (c : Char) : Option Nat :=
  let n := c.toNat
  if 48 ≤ n ∧ n ≤ 57 then some (n - 48)
  else if 97 ≤ n ∧ n ≤ 102 then some (n - 87)
  else if 65 ≤ n ∧ n ≤ 70 then some (n - 55)
  else none

/-- The character a one-letter escape stands for. -/
def simpleEscape (e : Char) : Option Char :=
  let n := e.toNat
  if n = 34 ∨ n = 92 ∨ n = 47 then some e
  else if n = 98 then some (Char.ofNat 8)
  else if n = 102 then some (Char.ofNat 12)
  else if n = 110 then some (Char.ofNat 10)
  else if n = 114 then some (Char.ofNat 13)
  else if n = 116 then some (Char.ofNat 9)
  else none

/-- Where the reader of a string literal stands: between characters, after a
reverse solidus, or inside a `\uXXXX` escape with `k` digits read and the value
`acc` so far. -/
inductive StrState where
  | plain
  | escape
  | hex (k : Nat) (acc : Nat)

/-- One more character in front of the characters read. -/
def pushChar (u : Char) : Outcome (List Char × List Char) → Outcome (List Char × List Char)
  | .ok (s, rest) => .ok (u :: s, rest)
  | .error => .error
  | .unmodelled => .unmodelled

/-- Reader of a string literal after its opening quote: the characters the
literal stands for and the input after the closing quote.  Escapes of
surrogates are not modelled. -/
def parseStringFrom : StrState → List Char → Outcome (List Char × List Char)
  | _, [] => .error
  | .plain, c :: cs =>
    if c.toNat = 34 then .ok ([], cs)
    else if c.toNat = 92 then parseStringFrom .escape cs
    else if c.toNat < 32 then .error
    else pushChar c (parseStringFrom .plain cs)
  | .escape, e :: cs =>
    if e.toNat = 117 then parseStringFrom (.hex 0 0) cs
    else
      match simpleEscape e with
      | some u => pushChar u (parseStringFrom .plain cs)
      | none => .error
  | .hex k acc, c :: cs =>
    match hexVal c with
    | none => .error
    | some v =>
      if k = 3 then
        (if 55296 ≤ acc * 16 + v ∧ acc * 16 + v ≤ 57343 then .unmodelled
         else pushChar (Char.ofNat (acc * 16 + v)) (parseStringFrom .plain cs))
      else parseStringFrom (.hex (k + 1) (acc * 16 + v)) cs

/-- A string literal after its opening quote. -/
def parseStringBody (cs : List Char) : Outcome (List Char × List Char) :=
  parseStringFrom .plain cs

/-- The input after the letters `lit`, if it starts with them. -/
def expectChars : List Char → List Char → Option (List Char)
  | [], cs => some cs
  | _ :: _, [] => none
  | l :: ls, c :: cs => if l = c then expectChars ls cs else none

/-- The constant `maxNestingDepth` of the scanner of `encoding/json`: opening
an object or an array inside this many open objects and arrays is the error
`exceeded max depth`. -/
def maxNestingDepth : Nat := 10000

mutual
/-- One JSON value and the input after it.  The first argument bounds the
number of nested calls; one more than the length of the input is enough.
The second argument is the number of objects and arrays that are open around
the value. -/
def parseValue : Nat → Nat → List Char → Outcome (JVal × List Char)
  | 0, _, _ => .unmodelled
  | f + 1, depth, cs =>
    match skipWs cs with
    | [] => .error
    | c :: rest =>
      let n := c.toNat
      if n = 34 then
        match parseStringBody rest with
        | .ok (s, rest1) => .ok (.str (String.mk s), rest1)
        | .error => .error
        | .unmodelled => .unmodelled
      else if n = 123 then
        if depth < maxNestingDepth then
          match skipWs rest with
          | [] => .error
          | c1 :: rest1 =>
            if c1.toNat = 125 then .ok (.obj [], rest1)
            else
              match parseMembers f (depth + 1) (c1 :: rest1) with
              | .ok (ms, rest2) => .ok (.obj ms, rest2)
              | .error => .error
              | .unmodelled => .unmodelled
        else .error
      else if n = 91 then
        if depth < maxNestingDepth then
          match skipWs rest with
          | [] => .error
          | c1 :: rest1 =>
            if c1.toNat = 93 then .ok (.arr [], rest1)
            else
              match parseElems f (depth + 1) (c1 :: rest1) with
              | .ok (xs, rest2) => .ok (.arr xs, rest2)
              | .error => .error
              | .unmodelled => .unmodelled
        else .error
      else if n = 116 then
        match expectChars ['r', 'u', 'e'] rest with
        | some rest1 => .ok (.bool true, rest1)
        | none => .error
      else if n = 102 then
        match expectChars ['a', 'l', 's', 'e'] rest with
        | some rest1 => .ok (.bool false, rest1)
        | none => .error
      else if n = 110 then
        match expectChars ['u', 'l', 'l'] rest with
        | some rest1 => .ok (.null, rest1)
        | none => .error
      else if n = 45 then parseNumber true rest
      else if isDigit c then parseNumber false (c :: rest)
      else .error
/-- The elements of a non-empty array and the input after its closing
bracket; `depth` counts the array itself. -/
def parseElems : Nat → Nat → List Char → Outcome (List JVal × List Char)
  | 0, _, _ => .unmodelled
  | f + 1, depth, cs =>
    match parseValue f depth cs with
    | .ok (v, rest) =>
      match skipWs rest with
      | [] => .error
      | c :: rest1 =>
        if c.toNat = 44 then
          match parseElems f depth rest1 with
          | .ok (vs, rest2) => .ok (v :: vs, rest2)
          | .error => .error
          | .unmodelled => .unmodelled
        else if c.toNat = 93 then .ok ([v], rest1)
        else .error
    | .error => .error
    | .unmodelled => .unmodelled
/-- The members of a non-empty object and the input after its closing brace;
`depth` counts the object itself. -/
def parseMembers : Nat → Nat → List Char → Outcome (List (String × JVal) × List Char)
  | 0, _, _ => .unmodelled
  | f + 1, depth, cs =>
    match skipWs cs with
    | [] => .error
    | q :: rest =>
      if q.toNat = 34 then
        match parseStringBody rest with
        | .ok (k, rest1) =>
          match skipWs rest1 with
          | [] => .error
          | c :: rest2 =>
            if c.toNat = 58 then
              match parseValue f depth rest2 with
              | .ok (v, rest3) =>
                match skipWs rest3 with
                | [] => .error
                | c1 :: rest4 =>
                  if c1.toNat = 44 then
                    match parseMembers f depth rest4 with
                    | .ok (ms, rest5) => .ok ((String.mk k, v) :: ms, rest5)
                    | .error => .error
                    | .unmodelled => .unmodelled
                  else if c1.toNat = 125 then .ok ([(String.mk k, v)], rest4)
                  else .error
              | .error => .error
              | .unmodelled => .unmodelled
            else .error
        | .error => .error
        | .unmodelled => .unmodelled
      else .error
end

/-- The first JSON value of a text, as `(dec *json.Decoder) Decode` reads it
from a fresh decoder. -/
def decodeValue (data : String) : Outcome JVal :=
  match parseValue (data.length + 1) 0 data.data with
  | .ok (v, _) => .ok v
  | .error => .error
  | .unmodelled => .unmodelled

/-- Lookup `m[k]` in a map. -/
def mapLookup {V : Type} : List (String × V) → String → Option V
  | [], _ => none
  | (k0, v0) :: rest, k => if k0 = k then some v0 else mapLookup rest k

/-- The map built by the assignments `m[k] = v` in the order given. -/
def mapOfEntries {V : Type} (kvs : List (String × V)) : List (String × V) :=
  kvs.foldl (fun acc kv => mapInsert acc kv.1 kv.2) []

mutual
/-- Storing a JSON value into an `any`: numbers become `float64`, arrays
`[]any`, objects `map[string]any`. -/
def decodeAny : JVal → Outcome GoAny
  | .null => .ok .null
  | .bool b => .ok (.bool b)
  | .num neg mag =>
    if neg ∧ mag = 0 then .unmodelled
    else if h : (if neg then -(mag : Int) else (mag : Int)).natAbs ≤ 9007199254740992 then
      .ok (.float (if neg then -(mag : Int) else (mag : Int)) h)
    else .unmodelled
  | .str s => .ok (.str s)
  | .arr xs =>
    match decodeAnyElems xs with
    | .ok vs => .ok (.slice vs)
    | .error => .error
    | .unmodelled => .unmodelled
  | .obj kvs =>
    match decodeAnyMembers kvs with
    | .ok m => .ok (.map (mapOfEntries m))
    | .error => .error
    | .unmodelled => .unmodelled
/-- Storing the elements of an array into a `[]any`. -/
def decodeAnyElems : List JVal → Outcome (List GoAny)
  | [] => .ok []
  | x :: xs =>
    match decodeAny x, decodeAnyElems xs with
    | .ok v, .ok vs => .ok (v :: vs)
    | .error, _ => .error
    | .unmodelled, _ => .unmodelled
    | _, .error => .error
    | _, .unmodelled => .unmodelled
/-- The members of an object with their values stored into `any`, in the order
of the text. -/
def decodeAnyMembers : List (String × JVal) → Outcome (List (String × GoAny))
  | [] => .ok []
  | (k, x) :: kvs =>
    match decodeAny x, decodeAnyMembers kvs with
    | .ok v, .ok vs => .ok ((k, v) :: vs)
    | .error, _ => .error
    | .unmodelled, _ => .unmodelled
    | _, .error => .error
    | _, .unmodelled => .unmodelled
end

/-- Storing a JSON value into a `map[string]any`; `null` gives the nil map. -/
def decodeAnyMap : JVal → Outcome (Option AnyMap)
  | .null => .ok none
  | .obj kvs =>
    match decodeAnyMembers kvs with
    | .ok m => .ok (some (mapOfEntries m))
    | .error => .error
    | .unmodelled => .unmodelled
  | _ => .error

/-- Storing a JSON value into a `string`; `null` leaves the zero value. -/
def decodeString : JVal → Outcome String
  | .null => .ok ""
  | .str s => .ok s
  | _ => .error

/-- Storing a JSON value into a `bool`; `null` leaves the zero value. -/
def decodeBool : JVal → Outcome Bool
  | .null => .ok false
  | .bool b => .ok b
  | _ => .error

/-- Storing a JSON value into an `int64`: an integer literal in range; `null`
leaves the zero value. -/
def decodeInt64 : JVal → Outcome Int
  | .null => .ok 0
  | .num neg mag =>
    if neg then (if mag ≤ 9223372036854775808 then .ok (-(mag : Int)) else .error)
    else (if mag < 9223372036854775808 then .ok (mag : Int) else .error)
  | _ => .error

/-- The members of an object with their values stored into `bool`. -/
def decodeBoolMembers : List (String × JVal) → Outcome (List (String × Bool))
  | [] => .ok []
  | (k, x) :: kvs =>
    match decodeBool x, decodeBoolMembers kvs with
    | .ok v, .ok vs => .ok ((k, v) :: vs)
    | .error, _ => .error
    | .unmodelled, _ => .unmodelled
    | _, .error => .error
    | _, .unmodelled => .unmodelled

/-- Storing a JSON value into a `map[string]bool`. -/
def decodeBoolMap : JVal → Outcome (Option (List (String × Bool)))
  | .null => .ok none
  | .obj kvs =>
    match decodeBoolMembers kvs with
    | .ok m => .ok (some (mapOfEntries m))
    | .error => .error
    | .unmodelled => .unmodelled
  | _ => .error

/-- Storing the elements of an array into strings. -/
def decodeStringElems : List JVal → Outcome (List String)
  | [] => .ok []
  | x :: xs =>
    match decodeString x, decodeStringElems xs with
    | .ok v, .ok vs => .ok (v :: vs)
    | .error, _ => .error
    | .unmodelled, _ => .unmodelled
    | _, .error => .error
    | _, .unmodelled => .unmodelled

/-- Storing a JSON value into a `[]string`. -/
def decodeStrings : JVal → Outcome (List String)
  | .null => .ok []
  | .arr xs => decodeStringElems xs
  | _ => .error

/-- Storing the elements of an array into `map[string]any`s. -/
def decodeAnyMapElems : List JVal → Outcome (List (Option AnyMap))
  | [] => .ok []
  | x :: xs =>
    match decodeAnyMap x, decodeAnyMapElems xs with
    | .ok v, .ok vs => .ok (v :: vs)
    | .error, _ => .error
    | .unmodelled, _ => .unmodelled
    | _, .error => .error
    | _, .unmodelled => .unmodelled

/-- Storing a JSON value into a `[]map[string]any`. -/
def decodeAnyMaps : JVal → Outcome (List (Option AnyMap))
  | .null => .ok []
  | .arr xs => decodeAnyMapElems xs
  | _ => .error

/-- Lower case of an ASCII letter. -/
def asciiLower (c : Char) : Char :=
  if 65 ≤ c.toNat ∧ c.toNat ≤ 90 then Char.ofNat (c.toNat + 32) else c

/-- Whether the key `key` of an object selects the struct field whose JSON
name is `name`, among the fields named `names` (all in lower-case ASCII): the
exact name does, and a key that is no field's exact name does when it equals
`name` up to case. -/
def keySelects (names : List String) (name key : String) : Outcome Bool :=
  if key = name then .ok true
  else if names.contains key then .ok false
  else if key.data.all (fun c => decide (c.toNat < 128)) then
    .ok (decide (String.mk (key.data.map asciiLower) = name))
  else .unmodelled

/-- The value an object has for a struct field: none when no key selects the
field. -/
def fieldValue (names : List String) (name : String) :
    List (String × JVal) → Outcome (Option JVal)
  | [] => .ok none
  | (k, v) :: ms =>
    match keySelects names name k, fieldValue names name ms with
    | .ok true, .ok none => .ok (some v)
    | .ok true, .ok (some _) => .unmodelled
    | .ok false, r => r
    | .ok true, .error => .error
    | .ok true, .unmodelled => .unmodelled
    | .error, _ => .error
    | .unmodelled, _ => .unmodelled

/-- Storing the value found for a field, when there is one, with `dec`; the
field keeps `zero` otherwise. -/
def decodeField {α : Type} (dec : JVal → Outcome α) (zero : α) (names : List String)
    (name : String) (ms : List (String × JVal)) : Outcome α :=
  match fieldValue names name ms with
  | .ok none => .ok zero
  | .ok (some v) => dec v
  | .error => .error
  | .unmodelled => .unmodelled

/-- JSON names of the fields of `WebsocketBroadcast`; `ReliableClusterSend` is
tagged `-` and has none. -/
def broadcastFieldNames : List String :=
  ["omit_users", "user_id", "channel_id", "team_id", "connection_id", "omit_connection_id",
   "contains_sanitized_data", "contains_sensitive_data", "broadcast_hooks",
   "broadcast_hook_args"]

/-- Storing a JSON value into a `*WebsocketBroadcast`: `null` gives the nil
pointer, an object a new struct. -/
def decodeBroadcast : JVal → Outcome (Option WebsocketBroadcast)
  | .null => .ok none
  | .obj ms =>
    (decodeField decodeBoolMap none broadcastFieldNames "omit_users" ms).bind fun omitUsers =>
    (decodeField decodeString "" broadcastFieldNames "user_id" ms).bind fun userId =>
    (decodeField decodeString "" broadcastFieldNames "channel_id" ms).bind fun channelId =>
    (decodeField decodeString "" broadcastFieldNames "team_id" ms).bind fun teamId =>
    (decodeField decodeString "" broadcastFieldNames "connection_id" ms).bind fun connectionId =>
    (decodeField decodeString "" broadcastFieldNames "omit_connection_id" ms).bind fun omitConn =>
    (decodeField decodeBool false broadcastFieldNames "contains_sanitized_data" ms).bind
      fun sanitized =>
    (decodeField decodeBool false broadcastFieldNames "contains_sensitive_data" ms).bind
      fun sensitive =>
    (decodeField decodeStrings [] broadcastFieldNames "broadcast_hooks" ms).bind fun hooks =>
    (decodeField decodeAnyMaps [] broadcastFieldNames "broadcast_hook_args" ms).bind fun args =>
    .ok (some
      { OmitUsers := omitUsers, UserId := userId, ChannelId := channelId, TeamId := teamId,
        ConnectionId := connectionId, OmitConnectionId := omitConn,
        ContainsSanitizedData := sanitized, ContainsSensitiveData := sensitive,
        ReliableClusterSend := false, BroadcastHooks := hooks, BroadcastHookArgs := args })
  | _ => .error

/-- JSON names of the fields of `webSocketEventJSON`. -/
def eventFieldNames : List String := ["event", "data", "broadcast", "seq"]

/-- Storing a JSON value into a `webSocketEventJSON` that holds zero values:
`null` changes nothing, an object sets the fields it names. -/
def decodeEvent : JVal → Outcome webSocketEventJSON
  | .null => .ok { Event := "", Data := none, Broadcast := none, Sequence := 0 }
  | .obj ms =>
    (decodeField decodeString "" eventFieldNames "event" ms).bind fun event =>
    (decodeField decodeAnyMap none eventFieldNames "data" ms).bind fun data =>
    (decodeField decodeBroadcast none eventFieldNames "broadcast" ms).bind fun broadcast =>
    (decodeField decodeInt64 0 eventFieldNames "seq" ms).bind fun seq =>
    .ok { Event := event, Data := data, Broadcast := broadcast, Sequence := seq }
  | _ => .error

/-- The envelope built from a decoded `webSocketEventJSON`: `var ev
WebSocketEvent` with the event type, payload map, target and sequence number
assigned from `o`, and its address `&ev`.  The decoder has allocated the map
and the target struct that `o` refers to. -/
def envelopeOf (h : Heap) (o : webSocketEventJSON) : Addr × Heap :=
  let hd : Option Addr × Heap :=
    match o.Data with
    | none => (none, h)
    | some m => (some (h.newMap m).1, (h.newMap m).2)
  let hb : Option Addr × Heap :=
    match o.Broadcast with
    | none => (none, hd.2)
    | some wb => (some (hd.2.newBroadcast wb).1, (hd.2.newBroadcast wb).2)
  hb.2.newEvent
    { event := o.Event, data := hd.1, broadcast := hb.1, sequence := o.Sequence,
      precomputedJSON := none }

/-- The function `WebSocketEventFromJSON`.  The type `User` is declared outside
this file: `rehydrate u` is the dynamic value `&user` got by encoding `u` and
decoding the bytes into a `User`, or the error of these two steps. -/
def WebSocketEventFromJSON (rehydrate : GoAny → Outcome GoAny) (h : Heap) (data : String) :
    Outcome (Addr × Heap) :=
  (decodeValue data).bind fun v =>
  (decodeEvent v).bind fun o =>
  let payload : Outcome (Option AnyMap) :=
    match o.Data with
    | none => .ok none
    | some m =>
      match mapLookup m "user" with
      | none => .ok (some m)
      | some u => (rehydrate u).bind fun user => .ok (some (mapInsert m "user" user))
  payload.bind fun d =>
  .ok (envelopeOf h { o with Data := d })

/-! ## Round trip: what the decoder reads from the encoder's bytes -/

/-- Input that may follow a value inside the encoder's output: nothing, a
comma, a closing bracket or a closing brace. -/
def Delim (rest : List Char) : Prop :=
  rest = [] ∨ ∃ c r, rest = c :: r ∧ (c.toNat = 44 ∨ c.toNat = 93 ∨ c.toNat = 125)

mutual
/-- The number of objects and arrays that are open at the deepest place of a
JSON value. -/
def jdepth : JVal → Nat
  | .arr xs => jdepthElems xs + 1
  | .obj kvs => jdepthMembers kvs + 1
  | _ => 0
/-- The largest `jdepth` among the elements. -/
def jdepthElems : List JVal → Nat
  | [] => 0
  | x :: xs => max (jdepth x) (jdepthElems xs)
/-- The largest `jdepth` among the member values. -/
def jdepthMembers : List (String × JVal) → Nat
  | [] => 0
  | (_, v) :: kvs => max (jdepth v) (jdepthMembers kvs)
end

/-- The text `s` starts with a character that is neither whitespace nor a
closing bracket and, followed by a delimiter, is read as the JSON value `t`
wherever the nesting of `t` stays within the limit. -/
def Parses (s : String) (t : JVal) : Prop :=
  (∃ c cs, s.data = c :: cs ∧ isWs c = false ∧ c.toNat ≠ 93) ∧
  ∀ (f depth : Nat) (rest : List Char), s.length ≤ f → depth + jdepth t ≤ maxNestingDepth →
    Delim rest → parseValue f depth (s.data ++ rest) = .ok (t, rest)

/-- Ordered insertion of an entry by key, as `insertByKey`, for any kind of
value. -/
def insertEntry {V : Type} (kv : String × V) : List (String × V) → List (String × V)
  | [] => [kv]
  | x :: rest =>
    if keyLess kv.1.data x.1.data then kv :: x :: rest else x :: insertEntry kv rest

/-- Entries sorted by key, as `sortByKey`, for any kind of value. -/
def sortEntries {V : Type} : List (String × V) → List (String × V)
  | [] => []
  | kv :: rest => insertEntry kv (sortEntries rest)

mutual
/-- The JSON value that the encoding of a dynamic value is read as. -/
def jsonOfAny : GoAny → JVal
  | .null => .null
  | .bool b => .bool b
  | .int n => .num (decide (n < 0)) n.natAbs
  | .float n _ => .num (decide (n < 0)) n.natAbs
  | .str s => .str s
  | .nilSlice => .null
  | .slice xs => .arr (jsonOfElems xs)
  | .nilMap => .null
  | .map kvs => .obj (sortEntries (jsonOfMembers kvs))
  | .chan => .null
/-- Elementwise `jsonOfAny`. -/
def jsonOfElems : List GoAny → List JVal
  | [] => []
  | x :: xs => jsonOfAny x :: jsonOfElems xs
/-- Memberwise `jsonOfAny`. -/
def jsonOfMembers : List (String × GoAny) → List (String × JVal)
  | [] => []
  | (k, v) :: kvs => (k, jsonOfAny v) :: jsonOfMembers kvs
end

mutual
/-- The dynamic value that comes back when a dynamic value is encoded and the
bytes are decoded into an `any`: integers come back as `float64`, a nil slice
and a nil map come back as the nil interface value, and a map comes back with
the same entries (listed by key here). -/
def canonAny : GoAny → GoAny
  | .null => .null
  | .bool b => .bool b
  | .int n => if h : n.natAbs ≤ 9007199254740992 then .float n h else .int n
  | .float n h => .float n h
  | .str s => .str s
  | .nilSlice => .null
  | .slice xs => .slice (canonElems xs)
  | .nilMap => .null
  | .map kvs => .map (sortEntries (canonMembers kvs))
  | .chan => .chan
/-- Elementwise `canonAny`. -/
def canonElems : List GoAny → List GoAny
  | [] => []
  | x :: xs => canonAny x :: canonElems xs
/-- Memberwise `canonAny`. -/
def canonMembers : List (String × GoAny) → List (String × GoAny)
  | [] => []
  | (k, v) :: kvs => (k, canonAny v) :: canonMembers kvs
end

mutual
/-- Dynamic values for which the round trip is stated: no unsupported kind,
integers of magnitude at most `2^53`, and maps whose entries have distinct
keys. -/
def wfAny : GoAny → Bool
  | .null => true
  | .bool _ => true
  | .int n => decide (n.natAbs ≤ 9007199254740992)
  | .float _ _ => true
  | .str _ => true
  | .nilSlice => true
  | .slice xs => wfElems xs
  | .nilMap => true
  | .map kvs => wfMembers kvs && decide ((kvs.map Prod.fst).Nodup)
  | .chan => false
/-- Elementwise `wfAny`. -/
def wfElems : List GoAny → Bool
  | [] => true
  | x :: xs => wfAny x && wfElems xs
/-- Memberwise `wfAny`. -/
def wfMembers : List (String × GoAny) → Bool
  | [] => true
  | (_, v) :: kvs => wfAny v && wfMembers kvs
end

mutual
/-- The number of slices and maps that are open at the deepest place of a
dynamic value. -/
def depthAny : GoAny → Nat
  | .slice xs => depthElems xs + 1
  | .map kvs => depthMembers kvs + 1
  | _ => 0
/-- The largest `depthAny` among the elements. -/
def depthElems : List GoAny → Nat
  | [] => 0
  | x :: xs => max (depthAny x) (depthElems xs)
/-- The largest `depthAny` among the values of the entries. -/
def depthMembers : List (String × GoAny) → Nat
  | [] => 0
  | (_, v) :: kvs => max (depthAny v) (depthMembers kvs)
end

/-- The nesting of a `map[string]any`: the map itself counts when it is not
nil. -/
def depthAnyMap : Option AnyMap → Nat
  | none => 0
  | some m => depthMembers m + 1

/-- The largest nesting among hook argument bags. -/
def depthHookArgs : List (Option AnyMap) → Nat
  | [] => 0
  | m :: ms => max (depthAnyMap m) (depthHookArgs ms)

/-- The JSON value that the encoding of a `map[string]any` is read as. -/
def jsonOfAnyMap : Option AnyMap → JVal
  | none => .null
  | some m => .obj (sortEntries (jsonOfMembers m))

/-- The `map[string]any` that comes back from the round trip. -/
def canonAnyMap : Option AnyMap → Option AnyMap
  | none => none
  | some m => some (sortEntries (canonMembers m))

/-- The `map[string]any`s for which the round trip is stated. -/
def wfAnyMap : Option AnyMap → Bool
  | none => true
  | some m => wfMembers m && decide ((m.map Prod.fst).Nodup)

/-- The JSON value that the encoding of a `map[string]bool` is read as. -/
def jsonOfBoolMap : Option (List (String × Bool)) → JVal
  | none => .null
  | some m => .obj (sortEntries (m.map (fun kv => (kv.1, JVal.bool kv.2))))

/-- The JSON values that the encodings of the hook argument bags are read
as. -/
def jsonOfHookArgs : List (Option AnyMap) → List JVal
  | [] => []
  | m :: ms => jsonOfAnyMap m :: jsonOfHookArgs ms

/-- The hook argument bags for which the round trip is stated. -/
def wfHookArgs : List (Option AnyMap) → Bool
  | [] => true
  | m :: ms => wfAnyMap m && wfHookArgs ms

/-- The members that the encoding of a target is read as. -/
def jsonOfBroadcastMembers (wb : WebsocketBroadcast) : List (String × JVal) :=
  [("omit_users", jsonOfBoolMap wb.OmitUsers),
   ("user_id", JVal.str wb.UserId),
   ("channel_id", JVal.str wb.ChannelId),
   ("team_id", JVal.str wb.TeamId),
   ("connection_id", JVal.str wb.ConnectionId),
   ("omit_connection_id", JVal.str wb.OmitConnectionId)]
    ++ (if wb.ContainsSanitizedData then [("contains_sanitized_data", JVal.bool true)] else [])
    ++ (if wb.ContainsSensitiveData then [("contains_sensitive_data", JVal.bool true)] else [])
    ++ (if wb.BroadcastHooks.length = 0 then []
        else [("broadcast_hooks", JVal.arr (wb.BroadcastHooks.map JVal.str))])
    ++ (if wb.BroadcastHookArgs.length = 0 then []
        else [("broadcast_hook_args", JVal.arr (jsonOfHookArgs wb.BroadcastHookArgs))])

/-- The JSON value that the encoding of a `*WebsocketBroadcast` is read as. -/
def jsonOfBroadcast : Option WebsocketBroadcast → JVal
  | none => .null
  | some wb => .obj (jsonOfBroadcastMembers wb)

/-- The target that comes back from the round trip: `ReliableClusterSend` is
false, the other fields are the ones encoded. -/
def canonBroadcast (wb : WebsocketBroadcast) : WebsocketBroadcast :=
  { wb with
    OmitUsers := wb.OmitUsers.map sortEntries,
    ReliableClusterSend := false,
    BroadcastHookArgs := wb.BroadcastHookArgs.map canonAnyMap }

/-- The targets for which the round trip is stated: well-formed hook argument
bags and distinct keys in `OmitUsers`. -/
def wfBroadcast (wb : WebsocketBroadcast) : Bool :=
  wfHookArgs wb.BroadcastHookArgs &&
    (match wb.OmitUsers with
     | none => true
     | some kvs => decide ((kvs.map Prod.fst).Nodup))

/-- The members that the encoding of a `webSocketEventJSON` is read as. -/
def jsonOfEventMembers (o : webSocketEventJSON) : List (String × JVal) :=
  [("event", JVal.str o.Event), ("data", jsonOfAnyMap o.Data),
   ("broadcast", jsonOfBroadcast o.Broadcast),
   ("seq", JVal.num (decide (o.Sequence < 0)) o.Sequence.natAbs)]

/-- The `webSocketEventJSON` that comes back from the round trip. -/
def canonEvent (o : webSocketEventJSON) : webSocketEventJSON :=
  { Event := o.Event, Data := canonAnyMap o.Data, Broadcast := o.Broadcast.map canonBroadcast,
    Sequence := o.Sequence }

/-- The text of `k + 1` arrays nested in one another, the innermost one
empty: `[]`, `[[]]`, `[[[]]]`, ... -/
def nestedArrays : Nat → String
  | 0 => renderArray []
  | k + 1 => renderArray [nestedArrays k]

/-- The JSON value of `nestedArrays k`. -/
def nestedArraysValue : Nat → JVal
  | 0 => .arr []
  | k + 1 => .arr [nestedArraysValue k]

/-! ## Envelopes for the round trip -/

/-- A target that names connection `conn1` and asks for the reliable cluster
channel. -/
def reliableTarget : WebsocketBroadcast :=
  { WebsocketBroadcast.zero with ConnectionId := "conn1", ReliableClusterSend := true }

/-- An event `posted` at address 0 with sequence number 7, whose payload holds
the `int` 1 under `n` and a nil `[]any` under `s`, and whose target is
`reliableTarget`. -/
def reliableHeap : Heap :=
  { events := [{ event := "posted", data := some 0, broadcast := some 0, sequence := 7,
                 precomputedJSON := none }],
    maps := [[("n", GoAny.int 1), ("s", GoAny.nilSlice)]],
    broadcasts := [reliableTarget] }

/-- The heap that holds the envelope decoded from the encoding of the envelope
of `reliableHeap`. -/
def decodedHeap : Heap :=
  { events := [{ event := "posted", data := some 0, broadcast := some 0, sequence := 7,
                 precomputedJSON := none }],
    maps := [[("n", GoAny.float 1 (by decide)), ("s", GoAny.null)]],
    broadcasts := [{ reliableTarget with ReliableClusterSend := false }] }

/-- A payload with a string that needs escaping, an integer, a nested map with
a slice, an empty slice and a nil map. -/
def richPayload : AnyMap :=
  [("text", GoAny.str "a<b \"c\""), ("count", GoAny.int (-42)),
   ("props", GoAny.map [("k", GoAny.slice [GoAny.bool true, GoAny.null])]),
   ("empty", GoAny.slice []), ("none", GoAny.nilMap)]

/-- A target with an omit list, two hooks and their argument bags. -/
def richTarget : WebsocketBroadcast :=
  { WebsocketBroadcast.zero with
    OmitUsers := some [("u2", true), ("u1", false)], ChannelId := "chan1",
    ConnectionId := "conn1", ContainsSensitiveData := true,
    BroadcastHooks := ["h1", "h2"],
    BroadcastHookArgs := [some [("k", GoAny.str "v")], none] }

/-- An event struct `posted` with sequence number -3 and no snapshot. -/
def richEvent : WebSocketEvent :=
  { event := "posted", data := some 0, broadcast := some 0, sequence := -3,
    precomputedJSON := none }

/-- The event struct `richEvent` at address 0 with payload `richPayload` and
target `richTarget`. -/
def richHeap : Heap :=
  { events := [richEvent], maps := [richPayload], broadcasts := [richTarget] }

/-! ## Heap lemmas -/

theorem getElem?_snoc_self {α : Type} (l : List α) (a : α) :
    (l ++ [a])[l.length]? = some a := by
  simp

theorem lt_length_of_getElem? {α : Type} (l : List α) (x : α) (i : Nat)
    (h : l[i]? = some x) : i < l.length := by
  by_contra hc
  rw [List.getElem?_eq_none (by omega)] at h
  cases h

theorem getElem?_snoc_of_some {α : Type} (l : List α) (a x : α) (i : Nat)
    (h : l[i]? = some x) : (l ++ [a])[i]? = some x := by
  rw [List.getElem?_append_left (lt_length_of_getElem? l x i h)]
  exact h

theorem set_snoc_self {α : Type} (l : List α) (a b : α) :
    (l ++ [a]).set l.length b = l ++ [b] := by
  induction l with
  | nil => rfl
  | cons x xs ih => simp [List.set, ih]

theorem toInt_of_isInt64 (v : Int) (hv : isInt64 v) : toInt v = v := by
  unfold isInt64 at hv
  unfold toInt wrapSigned intSize
  norm_num at hv ⊢
  omega

/-! ## Closed forms of the operations -/

theorem Copy_eq (h : Heap) (ev : Addr) (e : WebSocketEvent) (hev : h.events[ev]? = some e) :
    WebSocketEvent.Copy h ev = some (h.events.length, { h with events := h.events ++ [e] }) := by
  simp [WebSocketEvent.Copy, hev, Heap.newEvent]

theorem SetEvent_eq (h : Heap) (ev : Addr) (e : WebSocketEvent) (t : String)
    (hev : h.events[ev]? = some e) :
    WebSocketEvent.SetEvent h ev t =
      some (h.events.length, { h with events := h.events ++ [{ e with event := t }] }) := by
  simp [WebSocketEvent.SetEvent, Copy_eq h ev e hev, Heap.setEvent, set_snoc_self]

theorem SetData_eq (h : Heap) (ev : Addr) (e : WebSocketEvent) (d : Option Addr)
    (hev : h.events[ev]? = some e) :
    WebSocketEvent.SetData h ev d =
      some (h.events.length, { h with events := h.events ++ [{ e with data := d }] }) := by
  simp [WebSocketEvent.SetData, Copy_eq h ev e hev, Heap.setEvent, set_snoc_self]

theorem SetBroadcast_eq (h : Heap) (ev : Addr) (e : WebSocketEvent) (b : Option Addr)
    (hev : h.events[ev]? = some e) :
    WebSocketEvent.SetBroadcast h ev b =
      some (h.events.length, { h with events := h.events ++ [{ e with broadcast := b }] }) := by
  simp [WebSocketEvent.SetBroadcast, Copy_eq h ev e hev, Heap.setEvent, set_snoc_self]

theorem SetSequence_eq (h : Heap) (ev : Addr) (e : WebSocketEvent) (s : Int)
    (hev : h.events[ev]? = some e) :
    WebSocketEvent.SetSequence h ev s =
      some (h.events.length, { h with events := h.events ++ [{ e with sequence := s }] }) := by
  simp [WebSocketEvent.SetSequence, Copy_eq h ev e hev, Heap.setEvent, set_snoc_self]

theorem PrecomputeJSON_eq (h : Heap) (ev : Addr) (e : WebSocketEvent) (d : Option AnyMap)
    (b : Option WebsocketBroadcast)
    (hev : h.events[ev]? = some e) (hd : h.getData e.data = some d)
    (hb : h.getBroadcast e.broadcast = some b) :
    WebSocketEvent.PrecomputeJSON h ev =
      some (h.events.length,
        { h with events := h.events ++
            [{ e with precomputedJSON := some ⟨quote e.event, bytesOrNil (marshalAnyMap d),
                bytesOrNil (marshalBroadcast b)⟩ }] }) := by
  have hd1 : Heap.getData { h with events := h.events ++ [e] } e.data = some d := hd
  have hb1 : Heap.getBroadcast { h with events := h.events ++ [e] } e.broadcast = some b := hb
  simp [WebSocketEvent.PrecomputeJSON, Copy_eq h ev e hev, hd1, hb1, Heap.setEvent,
    set_snoc_self, bytesOrNil]

theorem AddHook_eq (h : Heap) (a : Addr) (wb : WebsocketBroadcast) (hookID : String)
    (hookArgs : Option AnyMap) (hwb : h.broadcasts[a]? = some wb) :
    WebsocketBroadcast.AddHook h (some a) hookID hookArgs =
      some { h with broadcasts := h.broadcasts.set a { wb with
        BroadcastHooks := wb.BroadcastHooks ++ [hookID],
        BroadcastHookArgs := wb.BroadcastHookArgs ++ [hookArgs] } } := by
  simp [WebsocketBroadcast.AddHook, hwb, Heap.setBroadcast, lt_length_of_getElem? _ _ _ hwb]

/-- A run of `AddHook` calls on one target, in closed form. -/
theorem addHooks_eq (calls : List (String × Option AnyMap)) :
    ∀ (h : Heap) (a : Addr) (wb : WebsocketBroadcast), h.broadcasts[a]? = some wb →
    ∃ h1, addHooks h (some a) calls = some h1 ∧
      h1.events = h.events ∧ h1.maps = h.maps ∧
      h1.broadcasts.length = h.broadcasts.length ∧
      (∀ j, j ≠ a → h1.broadcasts[j]? = h.broadcasts[j]?) ∧
      h1.broadcasts[a]? = some
        { wb with BroadcastHooks := wb.BroadcastHooks ++ calls.map Prod.fst,
                  BroadcastHookArgs := wb.BroadcastHookArgs ++ calls.map Prod.snd } := by
  induction calls with
  | nil =>
    intro h a wb hwb
    exact ⟨h, rfl, rfl, rfl, rfl, fun _ _ => rfl, by simpa using hwb⟩
  | cons c cs ih =>
    intro h a wb hwb
    have hlt := lt_length_of_getElem? _ _ _ hwb
    have hstep := AddHook_eq h a wb c.1 c.2 hwb
    obtain ⟨h1, hrun, hev, hmaps, hlen, hother, hat⟩ := ih
      { h with broadcasts := h.broadcasts.set a { wb with
        BroadcastHooks := wb.BroadcastHooks ++ [c.1],
        BroadcastHookArgs := wb.BroadcastHookArgs ++ [c.2] } } a
      { wb with
        BroadcastHooks := wb.BroadcastHooks ++ [c.1],
        BroadcastHookArgs := wb.BroadcastHookArgs ++ [c.2] }
      (by simp [hlt])
    refine ⟨h1, ?_, hev, hmaps, ?_, ?_, ?_⟩
    · simp only [addHooks, hstep, hrun]
    · simpa using hlen
    · intro j hj
      rw [hother j hj]
      simp [List.getElem?_set, Ne.symm hj]
    · simpa using hat

/-- The copy branch of `WithoutBroadcastHooks`, in closed form: one new event
struct and one new broadcast struct are allocated, nothing else is written. -/
theorem WithoutBroadcastHooks_copy_branch (h : Heap) (ev b : Addr) (e : WebSocketEvent)
    (wb : WebsocketBroadcast)
    (hev : h.events[ev]? = some e) (hb : e.broadcast = some b)
    (hwb : h.broadcasts[b]? = some wb)
    (hhooks : wb.BroadcastHooks ≠ [] ∨ wb.BroadcastHookArgs ≠ []) :
    WebSocketEvent.WithoutBroadcastHooks h ev =
      some ((h.events.length, wb.BroadcastHooks, wb.BroadcastHookArgs),
        { events := h.events ++ [{ e with broadcast := some h.broadcasts.length }],
          maps := h.maps,
          broadcasts := h.broadcasts ++
            [{ OmitUsers := wb.OmitUsers.map copyEntries, UserId := wb.UserId,
               ChannelId := wb.ChannelId, TeamId := wb.TeamId, ConnectionId := "",
               OmitConnectionId := wb.OmitConnectionId,
               ContainsSanitizedData := wb.ContainsSanitizedData,
               ContainsSensitiveData := wb.ContainsSensitiveData,
               ReliableClusterSend := false, BroadcastHooks := [],
               BroadcastHookArgs := [] }] }) := by
  have hcond : ¬ (wb.BroadcastHooks.length = 0 ∧ wb.BroadcastHookArgs.length = 0) := by
    rintro ⟨h1, h2⟩
    rcases hhooks with hh | hh
    · exact hh (List.length_eq_zero.mp h1)
    · exact hh (List.length_eq_zero.mp h2)
  unfold WebSocketEvent.WithoutBroadcastHooks
  simp only [hev, hb, Heap.derefBroadcast, hwb, hcond, if_false, Copy_eq h ev e hev,
    WebsocketBroadcast.copy, Heap.newBroadcast, getElem?_snoc_self, Heap.setEvent,
    List.length_append, List.length_singleton, Nat.lt_succ_self, if_true, set_snoc_self,
    Option.bind, Heap.setBroadcast]
  cases hou : wb.OmitUsers <;> simp [WebsocketBroadcast.zero, set_snoc_self]

/-- The branch of `WithoutBroadcastHooks` without hooks: the receiver is
returned and the heap is not touched. -/
theorem WithoutBroadcastHooks_same_branch (h : Heap) (ev b : Addr) (e : WebSocketEvent)
    (wb : WebsocketBroadcast)
    (hev : h.events[ev]? = some e) (hb : e.broadcast = some b)
    (hwb : h.broadcasts[b]? = some wb)
    (h1 : wb.BroadcastHooks = []) (h2 : wb.BroadcastHookArgs = []) :
    WebSocketEvent.WithoutBroadcastHooks h ev = some ((ev, [], []), h) := by
  simp [WebSocketEvent.WithoutBroadcastHooks, hev, hb, Heap.derefBroadcast, hwb, h1, h2]

/-- The bytes `ToJSON` returns for an event struct that carries a snapshot. -/
theorem ToJSON_of_snapshot (h : Heap) (ev : Addr) (e : WebSocketEvent)
    (p : precomputedWebSocketEventJSON)
    (hev : h.events[ev]? = some e) (hp : e.precomputedJSON = some p)
    (hseq : isInt64 e.sequence) :
    WebSocketEvent.ToJSON h ev =
      some (.ok ("\x7b\"event\": " ++ p.Event ++ ", \"data\": " ++ p.Data ++ ", \"broadcast\": "
        ++ p.Broadcast ++ ", \"seq\": " ++ formatInt e.sequence ++ "\x7d")) := by
  simp [WebSocketEvent.ToJSON, hev, hp, WebSocketEvent.precomputedJSONBuf, Itoa,
    toInt_of_isInt64 _ hseq]

/-- The object the encoder writes for `webSocketEventJSON`, spelled out. -/
theorem renderObject_event (e d b s : String) :
    renderObject [("event", e), ("data", d), ("broadcast", b), ("seq", s)] =
      "\x7b\"event\":" ++ e ++ ",\"data\":" ++ d ++ ",\"broadcast\":" ++ b
        ++ ",\"seq\":" ++ s ++ "\x7d" := by
  have h1 : quote "event" = "\"event\"" := by decide
  have h2 : quote "data" = "\"data\"" := by decide
  have h3 : quote "broadcast" = "\"broadcast\"" := by decide
  have h4 : quote "seq" = "\"seq\"" := by decide
  simp only [renderObject, List.map, joinComma, h1, h2, h3, h4]
  simp only [String.append_assoc]
  rfl

/-- A target without hooks always encodes. -/
theorem marshalBroadcast_ok_of_no_hooks (b : Option WebsocketBroadcast)
    (hb : ∀ wb, b = some wb → wb.BroadcastHooks = [] ∧ wb.BroadcastHookArgs = []) :
    ∃ bj, marshalBroadcast b = .ok bj := by
  cases b with
  | none => exact ⟨_, rfl⟩
  | some wb =>
    obtain ⟨_, h2⟩ := hb wb rfl
    simp [marshalBroadcast, WebsocketBroadcast.members, h2, marshalHookArgs]

/-! ## The claims -/

/-- Claim C1. When the target of an envelope carries at least one hook id or
hook argument bag, `WithoutBroadcastHooks` returns an envelope whose target has
both hook sequences empty, together with the source target's `BroadcastHooks`
and `BroadcastHookArgs` (same elements, same order); afterwards the source
envelope and its target, hook sequences included, are as they were. -/
theorem WithoutBroadcastHooks_extracts_hooks (h : Heap) (ev b : Addr) (e : WebSocketEvent)
    (wb : WebsocketBroadcast)
    (hev : h.events[ev]? = some e) (hb : e.broadcast = some b)
    (hwb : h.broadcasts[b]? = some wb)
    (hhooks : wb.BroadcastHooks ≠ [] ∨ wb.BroadcastHookArgs ≠ []) :
    ∃ (r : Addr) (h1 : Heap) (wb1 : WebsocketBroadcast),
      WebSocketEvent.WithoutBroadcastHooks h ev =
        some ((r, wb.BroadcastHooks, wb.BroadcastHookArgs), h1) ∧
      h1.targetOf r = some wb1 ∧
      wb1.BroadcastHooks = [] ∧ wb1.BroadcastHookArgs = [] ∧
      h1.events[ev]? = some e ∧ h1.broadcasts[b]? = some wb ∧
      h1.targetOf ev = some wb := by
  refine ⟨_, _,
    ⟨wb.OmitUsers.map copyEntries, wb.UserId, wb.ChannelId, wb.TeamId, "", wb.OmitConnectionId,
      wb.ContainsSanitizedData, wb.ContainsSensitiveData, false, [], []⟩,
    WithoutBroadcastHooks_copy_branch h ev b e wb hev hb hwb hhooks, ?_, rfl, rfl, ?_, ?_, ?_⟩
  · simp [Heap.targetOf, Heap.derefBroadcast]
  · exact getElem?_snoc_of_some _ _ _ _ hev
  · exact getElem?_snoc_of_some _ _ _ _ hwb
  · simp only [Heap.targetOf, getElem?_snoc_of_some _ _ _ _ hev, hb, Heap.derefBroadcast,
      getElem?_snoc_of_some _ _ _ _ hwb]

/-- Scenario B: hooks `h1`, `h2` with their two argument bags. -/
theorem WithoutBroadcastHooks_extracts_hooks_witness :
    ∃ (r : Addr) (h1 : Heap) (wb1 : WebsocketBroadcast),
      WebSocketEvent.WithoutBroadcastHooks hookedHeap 0 =
        some ((r, ["h1", "h2"], [some [("k", GoAny.str "v")], some []]), h1) ∧
      h1.targetOf r = some wb1 ∧
      wb1.BroadcastHooks = [] ∧ wb1.BroadcastHookArgs = [] ∧
      h1.events[0]? = hookedHeap.events[0]? ∧
      h1.broadcasts[0]? = hookedHeap.broadcasts[0]? ∧
      h1.targetOf 0 = hookedHeap.targetOf 0 :=
  WithoutBroadcastHooks_extracts_hooks hookedHeap 0 0 _ _ rfl rfl rfl (Or.inl (by decide))

/-- Claim C2. At an envelope whose target names connection `conn1` and asks for
the reliable cluster channel, the envelope returned by `WithoutBroadcastHooks`
has a target with an empty `ConnectionId` and `ReliableClusterSend` false:
`copy()` assigns neither field. -/
theorem WithoutBroadcastHooks_drops_connection :
    (hookedHeap.targetOf 0).map (fun wb => (wb.ConnectionId, wb.ReliableClusterSend))
      = some ("conn1", true) ∧
    (WebSocketEvent.WithoutBroadcastHooks hookedHeap 0).bind
      (fun r => (r.2.targetOf r.1.1).map
        (fun wb => (wb.ConnectionId, wb.ReliableClusterSend)))
      = some ("", false) :=
  ⟨rfl, rfl⟩

set_option maxRecDepth 100000 in
/-- Claim C3. At the envelope of `hookedHeap` frozen by `PrecomputeJSON`, the
bytes `ToJSON` returns for the result of `WithoutBroadcastHooks` still hold the
keys `broadcast_hooks` and `broadcast_hook_args` with the hook ids and argument
bags; and without a snapshot the bytes differ from those of the same envelope
with no hook ever attached (`connection_id` is lost). -/
theorem WithoutBroadcastHooks_snapshot_keeps_hooks :
    ((WebSocketEvent.PrecomputeJSON hookedHeap 0).bind
        (fun p => WebSocketEvent.WithoutBroadcastHooks p.2 p.1)).bind
        (fun r => WebSocketEvent.ToJSON r.2 r.1.1)
      = some (.ok ("\x7b\"event\": \"posted\", \"data\": \x7b\x7d, \"broadcast\": \x7b\"omit_users\":null,\"user_"
          ++ "id\":\"\",\"channel_id\":\"\",\"team_id\":\"\",\"connection_id\":\"conn1\",\"omit_conn"
          ++ "ection_id\":\"\",\"broadcast_hooks\":[\"h1\",\"h2\"],\"broadcast_hook_args\":[\x7b\"k"
          ++ "\":\"v\"\x7d,\x7b\x7d]\x7d, \"seq\": 0\x7d")) ∧
    (WebSocketEvent.WithoutBroadcastHooks hookedHeap 0).bind
        (fun r => WebSocketEvent.ToJSON r.2 r.1.1)
      = some (.ok ("\x7b\"event\":\"posted\",\"data\":\x7b\x7d,\"broadcast\":\x7b\"omit_users\":null,\"user_id\":\""
          ++ "\",\"channel_id\":\"\",\"team_id\":\"\",\"connection_id\":\"\",\"omit_connection_id\""
          ++ ":\"\"\x7d,\"seq\":0\x7d")) ∧
    WebSocketEvent.ToJSON unhookedHeap 0
      = some (.ok ("\x7b\"event\":\"posted\",\"data\":\x7b\x7d,\"broadcast\":\x7b\"omit_users\":null,\"user_id\":\""
          ++ "\",\"channel_id\":\"\",\"team_id\":\"\",\"connection_id\":\"conn1\",\"omit_connectio"
          ++ "n_id\":\"\"\x7d,\"seq\":0\x7d")) := by
  refine ⟨?_, ?_, ?_⟩ <;> rfl

set_option maxRecDepth 100000 in
/-- Counterexample to claim C4 as stated: the object the encoder writes for a
target with one hook has the members `broadcast_hooks` and
`broadcast_hook_args`, holding the hook id and the argument bag. -/
theorem marshalBroadcast_writes_hooks :
    hookedTarget.members = .ok
      [("omit_users", "null"), ("user_id", "\"\""), ("channel_id", "\"\""), ("team_id", "\"\""),
       ("connection_id", "\"\""), ("omit_connection_id", "\"\""),
       ("broadcast_hooks", "[\"h1\"]"), ("broadcast_hook_args", "[\x7b\"k\":\"v\"\x7d]")] ∧
    marshalBroadcast (some hookedTarget) = .ok
      ("\x7b\"omit_users\":null,\"user_id\":\"\",\"channel_id\":\"\",\"team_id\":\"\",\"connecti"
        ++ "on_id\":\"\",\"omit_connection_id\":\"\",\"broadcast_hooks\":[\"h1\"],\"broadcast_"
        ++ "hook_args\":[\x7b\"k\":\"v\"\x7d]\x7d") :=
  ⟨rfl, rfl⟩

/-- Claim C4, amended. The object the encoder writes for a target has the keys
`omit_users`, `user_id`, `channel_id`, `team_id`, `connection_id`,
`omit_connection_id`, then `contains_sanitized_data` and
`contains_sensitive_data` when set, then `broadcast_hooks` exactly when the
hook-id sequence is non-empty and `broadcast_hook_args` exactly when the
hook-argument sequence is non-empty, holding the encoded ids and bags.
`ReliableClusterSend` is under no key and the bytes do not depend on it. -/
theorem marshalBroadcast_members (wb : WebsocketBroadcast) (ms : List (String × String))
    (hms : wb.members = .ok ms) :
    ms.map Prod.fst =
      ["omit_users", "user_id", "channel_id", "team_id", "connection_id", "omit_connection_id"]
        ++ (if wb.ContainsSanitizedData then ["contains_sanitized_data"] else [])
        ++ (if wb.ContainsSensitiveData then ["contains_sensitive_data"] else [])
        ++ (if wb.BroadcastHooks.isEmpty then [] else ["broadcast_hooks"])
        ++ (if wb.BroadcastHookArgs.isEmpty then [] else ["broadcast_hook_args"]) ∧
    (∀ r : Bool, marshalBroadcast (some { wb with ReliableClusterSend := r })
        = marshalBroadcast (some wb)) ∧
    (wb.BroadcastHooks ≠ [] →
      ("broadcast_hooks", renderArray (wb.BroadcastHooks.map quote)) ∈ ms) ∧
    (wb.BroadcastHookArgs ≠ [] → ∃ args, marshalHookArgs wb.BroadcastHookArgs = .ok args ∧
      ("broadcast_hook_args", renderArray args) ∈ ms) := by
  unfold WebsocketBroadcast.members at hms
  cases hargs : marshalHookArgs wb.BroadcastHookArgs with
  | error err => rw [hargs] at hms; cases hms
  | ok args =>
    rw [hargs] at hms
    simp only [Except.ok.injEq] at hms
    subst hms
    refine ⟨?_, ?_, ?_, ?_⟩
    · cases wb.ContainsSanitizedData <;> cases wb.ContainsSensitiveData <;>
        cases wb.BroadcastHooks <;> cases wb.BroadcastHookArgs <;> simp
    · intro r
      rfl
    · intro hne
      simp [List.length_eq_zero, hne]
    · intro hne
      exact ⟨args, rfl, by simp [List.length_eq_zero, hne]⟩

/-- Claim C4, amended, at `hookedTarget`: the members end with the two hook
keys, no key stands for `ReliableClusterSend`, and the bytes are the same for
either value of it. -/
theorem marshalBroadcast_members_witness :
    ∃ ms, hookedTarget.members = .ok ms ∧
      ms.map Prod.fst =
        ["omit_users", "user_id", "channel_id", "team_id", "connection_id",
         "omit_connection_id", "broadcast_hooks", "broadcast_hook_args"] ∧
      (∀ r : Bool, marshalBroadcast (some { hookedTarget with ReliableClusterSend := r })
          = marshalBroadcast (some hookedTarget)) ∧
      ("broadcast_hooks", "[\"h1\"]") ∈ ms :=
  ⟨_, rfl, (marshalBroadcast_members hookedTarget _ rfl).1,
    (marshalBroadcast_members hookedTarget _ rfl).2.1,
    (marshalBroadcast_members hookedTarget _ rfl).2.2.1 (by decide)⟩

set_option maxRecDepth 100000 in
/-- Counterexample to claim C5 as stated: for the envelope of `postedHeap`
(no hooks) and sequence 7 the bytes of the precomputed path and the bytes of
the generic encode are different byte strings. -/
theorem PrecomputeJSON_bytes_differ :
    ((WebSocketEvent.PrecomputeJSON postedHeap 0).bind
        (fun p => WebSocketEvent.SetSequence p.2 p.1 7)).bind
        (fun q => WebSocketEvent.ToJSON q.2 q.1)
      = some (.ok ("\x7b\"event\": \"posted\", \"data\": \x7b\x7d, \"broadcast\": \x7b\"omit_users\":null,\"user_"
          ++ "id\":\"\",\"channel_id\":\"chan1\",\"team_id\":\"team1\",\"connection_id\":\"\",\"omit"
          ++ "_connection_id\":\"\"\x7d, \"seq\": 7\x7d")) ∧
    (WebSocketEvent.SetSequence postedHeap 0 7).bind (fun q => WebSocketEvent.ToJSON q.2 q.1)
      = some (.ok ("\x7b\"event\":\"posted\",\"data\":\x7b\x7d,\"broadcast\":\x7b\"omit_users\":null,\"user_id\":\""
          ++ "\",\"channel_id\":\"chan1\",\"team_id\":\"team1\",\"connection_id\":\"\",\"omit_conn"
          ++ "ection_id\":\"\"\x7d,\"seq\":7\x7d")) ∧
    ("\x7b\"event\": \"posted\", \"data\": \x7b\x7d, \"broadcast\": \x7b\"omit_users\":null,\"user_"
          ++ "id\":\"\",\"channel_id\":\"chan1\",\"team_id\":\"team1\",\"connection_id\":\"\",\"omit"
          ++ "_connection_id\":\"\"\x7d, \"seq\": 7\x7d") ≠
      ("\x7b\"event\":\"posted\",\"data\":\x7b\x7d,\"broadcast\":\x7b\"omit_users\":null,\"user_id\":\""
          ++ "\",\"channel_id\":\"chan1\",\"team_id\":\"team1\",\"connection_id\":\"\",\"omit_conn"
          ++ "ection_id\":\"\"\x7d,\"seq\":7\x7d") :=
  ⟨rfl, rfl, by decide⟩

/-- Claim C5, amended. For an envelope without hooks whose payload encodes
without error and a 64-bit sequence `s`, the generic encode of
`(event, data, broadcast, s)` is
`{"event":E,"data":D,"broadcast":B,"seq":S}` and
`PrecomputeJSON().SetSequence(s).ToJSON()` returns
`{"event": E, "data": D, "broadcast": B, "seq": S}` with the same four
encodings `E`, `D`, `B`, `S`: the two differ exactly in the single space after
each of the four colons and three commas of the outer object. -/
theorem PrecomputeJSON_matches_generic (h : Heap) (ev : Addr) (e : WebSocketEvent)
    (d : Option AnyMap) (b : Option WebsocketBroadcast) (s : Int) (dj : String)
    (hev : h.events[ev]? = some e) (hd : h.getData e.data = some d)
    (hb : h.getBroadcast e.broadcast = some b)
    (hnohooks : ∀ wb, b = some wb → wb.BroadcastHooks = [] ∧ wb.BroadcastHookArgs = [])
    (hs : isInt64 s) (hdj : marshalAnyMap d = .ok dj) :
    ∃ bj, marshalBroadcast b = .ok bj ∧
      marshalWebSocketEventJSON
          { Event := e.event, Data := d, Broadcast := b, Sequence := s } =
        .ok ("\x7b\"event\":" ++ quote e.event ++ ",\"data\":" ++ dj ++ ",\"broadcast\":" ++ bj
          ++ ",\"seq\":" ++ formatInt s ++ "\x7d") ∧
      (e.precomputedJSON = none →
        (WebSocketEvent.SetSequence h ev s).bind (fun q => WebSocketEvent.ToJSON q.2 q.1) =
          some (marshalWebSocketEventJSON
            { Event := e.event, Data := d, Broadcast := b, Sequence := s })) ∧
      ((WebSocketEvent.PrecomputeJSON h ev).bind
          (fun p => WebSocketEvent.SetSequence p.2 p.1 s)).bind
          (fun q => WebSocketEvent.ToJSON q.2 q.1) =
        some (.ok ("\x7b\"event\": " ++ quote e.event ++ ", \"data\": " ++ dj
          ++ ", \"broadcast\": " ++ bj ++ ", \"seq\": " ++ formatInt s ++ "\x7d")) := by
  obtain ⟨bj, hbj⟩ := marshalBroadcast_ok_of_no_hooks b hnohooks
  refine ⟨bj, hbj, ?_, ?_, ?_⟩
  · simp only [marshalWebSocketEventJSON, hdj, hbj, renderObject_event]
  · intro hnone
    rw [SetSequence_eq h ev e s hev]
    have hd1 : ∀ es, Heap.getData ⟨es, h.maps, h.broadcasts⟩ e.data = some d := fun _ => hd
    have hb1 : ∀ es, Heap.getBroadcast ⟨es, h.maps, h.broadcasts⟩ e.broadcast = some b :=
      fun _ => hb
    simp [WebSocketEvent.ToJSON, hnone, hd1, hb1]
  · rw [PrecomputeJSON_eq h ev e d b hev hd hb]
    simp only [Option.bind]
    rw [SetSequence_eq _ _ _ s (getElem?_snoc_self _ _)]
    simp only [Option.bind]
    rw [ToJSON_of_snapshot _ _ _ _ (getElem?_snoc_self _ _) rfl hs, hdj, hbj]
    rfl

set_option maxRecDepth 100000 in
/-- The amended claim C5 at the envelope of `postedHeap` and sequence 7. -/
theorem PrecomputeJSON_matches_generic_witness :
    isInt64 7 ∧ marshalAnyMap (some []) = .ok "\x7b\x7d" ∧
    ∃ bj, marshalBroadcast (some postedTarget) = .ok bj ∧
      marshalWebSocketEventJSON
          { Event := "posted", Data := some [], Broadcast := some postedTarget, Sequence := 7 } =
        .ok ("\x7b\"event\":" ++ quote "posted" ++ ",\"data\":" ++ "\x7b\x7d" ++ ",\"broadcast\":"
          ++ bj ++ ",\"seq\":" ++ formatInt 7 ++ "\x7d") ∧
      ((WebSocketEvent.PrecomputeJSON postedHeap 0).bind
          (fun p => WebSocketEvent.SetSequence p.2 p.1 7)).bind
          (fun q => WebSocketEvent.ToJSON q.2 q.1) =
        some (.ok ("\x7b\"event\": " ++ quote "posted" ++ ", \"data\": " ++ "\x7b\x7d"
          ++ ", \"broadcast\": " ++ bj ++ ", \"seq\": " ++ formatInt 7 ++ "\x7d")) := by
  refine ⟨by decide, rfl, ?_⟩
  obtain ⟨bj, h1, h2, _, h4⟩ := PrecomputeJSON_matches_generic postedHeap 0 postedEvent
    (some []) (some postedTarget) 7 "\x7b\x7d" rfl rfl rfl
    (by intro wb hwb; cases hwb; exact ⟨rfl, rfl⟩) (by decide) rfl
  exact ⟨bj, h1, h2, h4⟩

/-- Claim C6. For an envelope that carries a frozen snapshot and whose sequence
is a 64-bit value, `ToJSON` returns no error and exactly the bytes
`{"event": ` Event `, "data": ` Data `, "broadcast": ` Broadcast `, "seq": `
decimal sequence `}`; any other envelope with the same snapshot and sequence,
whatever its event type, payload and target, gives the same result. -/
theorem ToJSON_snapshot (h : Heap) (ev : Addr) (e : WebSocketEvent)
    (p : precomputedWebSocketEventJSON)
    (hev : h.events[ev]? = some e) (hp : e.precomputedJSON = some p)
    (hseq : isInt64 e.sequence) :
    WebSocketEvent.ToJSON h ev =
      some (.ok ("\x7b\"event\": " ++ p.Event ++ ", \"data\": " ++ p.Data ++ ", \"broadcast\": "
        ++ p.Broadcast ++ ", \"seq\": " ++ formatInt e.sequence ++ "\x7d")) ∧
    ∀ (h2 : Heap) (ev2 : Addr) (e2 : WebSocketEvent), h2.events[ev2]? = some e2 →
      e2.precomputedJSON = some p → e2.sequence = e.sequence →
      WebSocketEvent.ToJSON h2 ev2 = WebSocketEvent.ToJSON h ev := by
  refine ⟨ToJSON_of_snapshot h ev e p hev hp hseq, ?_⟩
  intro h2 ev2 e2 hev2 hp2 hs2
  rw [ToJSON_of_snapshot h2 ev2 e2 p hev2 hp2 (hs2 ▸ hseq),
    ToJSON_of_snapshot h ev e p hev hp hseq, hs2]

/-- Claim C6 at `frozenHeap`: the bytes come from the snapshot (`posted`, nil
target) and the sequence 42, not from the current fields (`typing`). -/
theorem ToJSON_snapshot_witness :
    frozenHeap.events[0]? = some frozenEvent ∧
    frozenEvent.precomputedJSON = some frozenSnapshot ∧ isInt64 frozenEvent.sequence ∧
    WebSocketEvent.ToJSON frozenHeap 0 = some (.ok ("\x7b\"event\": \"posted\", \"data\": \x7b\x7d, \"broadcast\": null, \"seq\": 42\x7d")) :=
  ⟨rfl, rfl, by decide, (ToJSON_snapshot frozenHeap 0 frozenEvent frozenSnapshot rfl rfl
    (by decide)).1⟩

/-- Claim C7. From a target whose hook-id and hook-argument sequences have
equal length, any run `AddHook(id_1, args_1) ... AddHook(id_n, args_n)`
succeeds and leaves the two sequences with equal length, each grown by `n`
(by one per call); the earlier entries are unchanged and the `i`-th appended
id and the `i`-th appended argument bag sit at the same index. -/
theorem AddHook_keeps_hooks_parallel (h : Heap) (a : Addr) (wb : WebsocketBroadcast)
    (calls : List (String × Option AnyMap))
    (hwb : h.broadcasts[a]? = some wb)
    (hlen : wb.BroadcastHooks.length = wb.BroadcastHookArgs.length) :
    ∃ (h1 : Heap) (wb1 : WebsocketBroadcast),
      addHooks h (some a) calls = some h1 ∧ h1.broadcasts[a]? = some wb1 ∧
      wb1.BroadcastHooks.length = wb1.BroadcastHookArgs.length ∧
      wb1.BroadcastHooks.length = wb.BroadcastHooks.length + calls.length ∧
      wb1.BroadcastHookArgs.length = wb.BroadcastHookArgs.length + calls.length ∧
      wb1.BroadcastHooks = wb.BroadcastHooks ++ calls.map Prod.fst ∧
      wb1.BroadcastHookArgs = wb.BroadcastHookArgs ++ calls.map Prod.snd ∧
      (∀ i, i < wb.BroadcastHooks.length →
        wb1.BroadcastHooks[i]? = wb.BroadcastHooks[i]? ∧
        wb1.BroadcastHookArgs[i]? = wb.BroadcastHookArgs[i]?) ∧
      (∀ i c, calls[i]? = some c →
        wb1.BroadcastHooks[wb.BroadcastHooks.length + i]? = some c.1 ∧
        wb1.BroadcastHookArgs[wb.BroadcastHooks.length + i]? = some c.2) := by
  obtain ⟨h1, hrun, -, -, -, -, hat⟩ := addHooks_eq calls h a wb hwb
  refine ⟨h1, _, hrun, hat, ?_, ?_, ?_, rfl, rfl, ?_, ?_⟩
  · simp [hlen]
  · simp
  · simp
  · intro i hi
    constructor
    · exact List.getElem?_append_left hi
    · exact List.getElem?_append_left (hlen ▸ hi)
  · intro i c hc
    have hi := lt_length_of_getElem? _ _ _ hc
    constructor
    · show (wb.BroadcastHooks ++ calls.map Prod.fst)[wb.BroadcastHooks.length + i]? = some c.1
      rw [List.getElem?_append_right (Nat.le_add_right _ _)]
      simp [hc]
    · show (wb.BroadcastHookArgs ++ calls.map Prod.snd)[wb.BroadcastHooks.length + i]? = some c.2
      rw [hlen, List.getElem?_append_right (Nat.le_add_right _ _)]
      simp [hc]

/-- Claim C7 on the target built by `NewWebSocketEvent`, with two calls. -/
theorem AddHook_keeps_hooks_parallel_witness :
    postedHeap.broadcasts[0]? = some postedTarget ∧
    postedTarget.BroadcastHooks.length = postedTarget.BroadcastHookArgs.length ∧
    ∃ (h1 : Heap) (wb1 : WebsocketBroadcast),
      addHooks postedHeap (some 0) [("h1", some [("k", GoAny.str "v")]), ("h2", none)]
        = some h1 ∧
      h1.broadcasts[0]? = some wb1 ∧
      wb1.BroadcastHooks.length = wb1.BroadcastHookArgs.length ∧
      wb1.BroadcastHooks = ["h1", "h2"] ∧
      wb1.BroadcastHookArgs = [some [("k", GoAny.str "v")], none] := by
  refine ⟨rfl, rfl, ?_⟩
  obtain ⟨h1, wb1, hrun, hat, hlen, _, _, hhooks, hargs, _, _⟩ :=
    AddHook_keeps_hooks_parallel postedHeap 0 postedTarget
      [("h1", some [("k", GoAny.str "v")]), ("h2", none)] rfl rfl
  exact ⟨h1, wb1, hrun, hat, hlen, hhooks, hargs⟩

/-- Claim C8. For an envelope with a present target, when both hook sequences
are empty `WithoutBroadcastHooks` returns the receiver itself with two empty
lists and leaves the heap as it is; the returned pointer is the receiver, and
the heap is unchanged, if and only if both sequences are empty, and it is a
freshly allocated event if and only if one of them is non-empty. -/
theorem WithoutBroadcastHooks_no_hooks (h : Heap) (ev b : Addr) (e : WebSocketEvent)
    (wb : WebsocketBroadcast)
    (hev : h.events[ev]? = some e) (hb : e.broadcast = some b)
    (hwb : h.broadcasts[b]? = some wb) :
    (wb.BroadcastHooks = [] → wb.BroadcastHookArgs = [] →
      WebSocketEvent.WithoutBroadcastHooks h ev = some ((ev, [], []), h)) ∧
    ∃ (r : Addr) (h1 : Heap),
      WebSocketEvent.WithoutBroadcastHooks h ev =
        some ((r, wb.BroadcastHooks, wb.BroadcastHookArgs), h1) ∧
      (r = ev ↔ (wb.BroadcastHooks = [] ∧ wb.BroadcastHookArgs = [])) ∧
      (h1 = h ↔ (wb.BroadcastHooks = [] ∧ wb.BroadcastHookArgs = [])) ∧
      (r = h.events.length ↔ (wb.BroadcastHooks ≠ [] ∨ wb.BroadcastHookArgs ≠ [])) := by
  have hlt := lt_length_of_getElem? _ _ _ hev
  have hempty := WithoutBroadcastHooks_same_branch h ev b e wb hev hb hwb
  refine ⟨hempty, ?_⟩
  by_cases hc : wb.BroadcastHooks = [] ∧ wb.BroadcastHookArgs = []
  · refine ⟨ev, h, ?_, ?_, ?_, ?_⟩
    · rw [hempty hc.1 hc.2, hc.1, hc.2]
    · simp [hc]
    · simp [hc]
    · simp only [hc.1, hc.2]
      constructor
      · intro hx; exact absurd hx (Nat.ne_of_lt hlt)
      · rintro (hx | hx) <;> exact absurd rfl hx
  · have hne : wb.BroadcastHooks ≠ [] ∨ wb.BroadcastHookArgs ≠ [] := by
      by_contra hx
      push_neg at hx
      exact hc hx
    refine ⟨_, _, WithoutBroadcastHooks_copy_branch h ev b e wb hev hb hwb hne, ?_, ?_, ?_⟩
    · constructor
      · intro hx; exact absurd hx.symm (Nat.ne_of_lt hlt)
      · intro hx; exact absurd hx hc
    · constructor
      · intro hx
        have := congrArg (fun x => x.events.length) hx
        simp at this
      · intro hx; exact absurd hx hc
    · simp [hne]

/-- Claim C8 at the envelope of `postedHeap`, which has no hooks: the same
pointer and the same heap come back. -/
theorem WithoutBroadcastHooks_no_hooks_witness :
    postedHeap.events[0]? = some postedEvent ∧ postedEvent.broadcast = some 0 ∧
    postedHeap.broadcasts[0]? = some postedTarget ∧
    WebSocketEvent.WithoutBroadcastHooks postedHeap 0 = some ((0, [], []), postedHeap) :=
  ⟨rfl, rfl, rfl,
    (WithoutBroadcastHooks_no_hooks postedHeap 0 0 postedEvent postedTarget rfl rfl rfl).1
      rfl rfl⟩

/-- Claim C9. Each of `SetEvent`, `SetData`, `SetBroadcast` and `SetSequence`
returns a new envelope in which the named field is the argument and every
other field, the frozen snapshot included, is the receiver's; the receiver
struct, the payload maps and the targets are left as they were. -/
theorem Set_returns_copy_with_one_field (h : Heap) (ev : Addr) (e : WebSocketEvent)
    (hev : h.events[ev]? = some e) :
    (∀ t : String, ∃ (r : Addr) (h1 : Heap),
      WebSocketEvent.SetEvent h ev t = some (r, h1) ∧
      h1.events[r]? = some { e with event := t } ∧
      h1.events[ev]? = some e ∧ h1.maps = h.maps ∧ h1.broadcasts = h.broadcasts) ∧
    (∀ d : Option Addr, ∃ (r : Addr) (h1 : Heap),
      WebSocketEvent.SetData h ev d = some (r, h1) ∧
      h1.events[r]? = some { e with data := d } ∧
      h1.events[ev]? = some e ∧ h1.maps = h.maps ∧ h1.broadcasts = h.broadcasts) ∧
    (∀ b : Option Addr, ∃ (r : Addr) (h1 : Heap),
      WebSocketEvent.SetBroadcast h ev b = some (r, h1) ∧
      h1.events[r]? = some { e with broadcast := b } ∧
      h1.events[ev]? = some e ∧ h1.maps = h.maps ∧ h1.broadcasts = h.broadcasts) ∧
    (∀ s : Int, ∃ (r : Addr) (h1 : Heap),
      WebSocketEvent.SetSequence h ev s = some (r, h1) ∧
      h1.events[r]? = some { e with sequence := s } ∧
      h1.events[ev]? = some e ∧ h1.maps = h.maps ∧ h1.broadcasts = h.broadcasts) := by
  refine ⟨fun t => ?_, fun d => ?_, fun b => ?_, fun s => ?_⟩
  · exact ⟨_, _, SetEvent_eq h ev e t hev, getElem?_snoc_self _ _,
      getElem?_snoc_of_some _ _ _ _ hev, rfl, rfl⟩
  · exact ⟨_, _, SetData_eq h ev e d hev, getElem?_snoc_self _ _,
      getElem?_snoc_of_some _ _ _ _ hev, rfl, rfl⟩
  · exact ⟨_, _, SetBroadcast_eq h ev e b hev, getElem?_snoc_self _ _,
      getElem?_snoc_of_some _ _ _ _ hev, rfl, rfl⟩
  · exact ⟨_, _, SetSequence_eq h ev e s hev, getElem?_snoc_self _ _,
      getElem?_snoc_of_some _ _ _ _ hev, rfl, rfl⟩

/-- Claim C9 at the frozen envelope of `frozenHeap`: `SetSequence(5)` gives an
envelope with sequence 5 that still carries the snapshot, and the receiver is
as before. -/
theorem Set_returns_copy_with_one_field_witness :
    frozenHeap.events[0]? = some frozenEvent ∧
    ∃ (r : Addr) (h1 : Heap),
      WebSocketEvent.SetSequence frozenHeap 0 5 = some (r, h1) ∧
      h1.events[r]? = some { event := "typing", data := none, broadcast := some 0,
                             sequence := 5, precomputedJSON := some frozenSnapshot } ∧
      h1.events[0]? = some frozenEvent ∧ h1.maps = frozenHeap.maps ∧
      h1.broadcasts = frozenHeap.broadcasts :=
  ⟨rfl, (Set_returns_copy_with_one_field frozenHeap 0 frozenEvent rfl).2.2.2 5⟩

/-- Claim C10. `NewWebSocketEvent` returns a pointer to an envelope whose event
type is `event`, whose payload is a present, empty map, whose sequence is 0,
which has no frozen snapshot, and whose target is present with `TeamId`,
`ChannelId`, `UserId`, `OmitUsers` and `OmitConnectionId` equal to the
arguments and every other target field at its zero value. -/
theorem NewWebSocketEvent_fields (h : Heap) (event teamId channelId userId : String)
    (omitUsers : Option (List (String × Bool))) (omitConnectionId : String) :
    ∃ (d b : Addr),
      (NewWebSocketEvent h event teamId channelId userId omitUsers omitConnectionId).2.events[
          (NewWebSocketEvent h event teamId channelId userId omitUsers omitConnectionId).1]? =
        some { event := event, data := some d, broadcast := some b, sequence := 0,
               precomputedJSON := none } ∧
      (NewWebSocketEvent h event teamId channelId userId omitUsers omitConnectionId).2.maps[d]? =
        some [] ∧
      (NewWebSocketEvent h event teamId channelId userId omitUsers
          omitConnectionId).2.broadcasts[b]? =
        some { OmitUsers := omitUsers, UserId := userId, ChannelId := channelId,
               TeamId := teamId, ConnectionId := "", OmitConnectionId := omitConnectionId,
               ContainsSanitizedData := false, ContainsSensitiveData := false,
               ReliableClusterSend := false, BroadcastHooks := [], BroadcastHookArgs := [] } := by
  refine ⟨h.maps.length, h.broadcasts.length, ?_, ?_, ?_⟩ <;>
    simp [NewWebSocketEvent, Heap.newMap, Heap.newBroadcast, Heap.newEvent,
      WebsocketBroadcast.zero]

/-! ## Closed forms for `DeepCopy` and `Encode` -/

/-- The generic branch of `ToJSON`. -/
theorem ToJSON_generic (h : Heap) (ev : Addr) (e : WebSocketEvent)
    (hev : h.events[ev]? = some e) (hp : e.precomputedJSON = none) :
    WebSocketEvent.ToJSON h ev =
      match h.getData e.data, h.getBroadcast e.broadcast with
      | some d, some b =>
        some (marshalWebSocketEventJSON
          { Event := e.event, Data := d, Broadcast := b, Sequence := e.sequence })
      | _, _ => none := by
  simp [WebSocketEvent.ToJSON, hev, hp]

/-- The generic branch of `Encode`. -/
theorem Encode_generic (h : Heap) (ev : Addr) (e : WebSocketEvent) (w : Writer)
    (hev : h.events[ev]? = some e) (hp : e.precomputedJSON = none) :
    WebSocketEvent.Encode h ev w =
      match h.getData e.data, h.getBroadcast e.broadcast with
      | some d, some b =>
        some (encoderEncode w (marshalWebSocketEventJSON
          { Event := e.event, Data := d, Broadcast := b, Sequence := e.sequence }))
      | _, _ => none := by
  simp [WebSocketEvent.Encode, hev, hp]

/-! ## The claims, continued -/

set_option maxRecDepth 100000 in
/-- Counterexample to claim C11 as stated: for the envelope of `postedHeap`,
which has no snapshot, `Encode` writes the bytes of `ToJSON` followed by a
newline character; and into a destination that refuses the write `Encode`
reports an error for the frozen envelope of `frozenHeap` while `ToJSON`
reports none. -/
theorem Encode_appends_newline :
    WebSocketEvent.ToJSON postedHeap 0 = some (.ok ("\x7b\"event\":\"posted\",\"data\":\x7b\x7d,\"broadcast\":\x7b\"omit_users\":null,\"user_id\":\""
          ++ "\",\"channel_id\":\"chan1\",\"team_id\":\"team1\",\"connection_id\":\"\",\"omit_conn"
          ++ "ection_id\":\"\"\x7d,\"seq\":0\x7d")) ∧
    (WebSocketEvent.Encode postedHeap 0 emptyWriter).map (fun r => (r.1.isSome, r.2.written))
      = some (false, "\x7b\"event\":\"posted\",\"data\":\x7b\x7d,\"broadcast\":\x7b\"omit_users\":null,\"user_id\":\""
          ++ "\",\"channel_id\":\"chan1\",\"team_id\":\"team1\",\"connection_id\":\"\",\"omit_conn"
          ++ "ection_id\":\"\"\x7d,\"seq\":0\x7d\n") ∧
    ("\x7b\"event\":\"posted\",\"data\":\x7b\x7d,\"broadcast\":\x7b\"omit_users\":null,\"user_id\":\""
          ++ "\",\"channel_id\":\"chan1\",\"team_id\":\"team1\",\"connection_id\":\"\",\"omit_conn"
          ++ "ection_id\":\"\"\x7d,\"seq\":0\x7d\n") ≠
      ("\x7b\"event\":\"posted\",\"data\":\x7b\x7d,\"broadcast\":\x7b\"omit_users\":null,\"user_id\":\""
          ++ "\",\"channel_id\":\"chan1\",\"team_id\":\"team1\",\"connection_id\":\"\",\"omit_conn"
          ++ "ection_id\":\"\"\x7d,\"seq\":0\x7d") ∧
    (WebSocketEvent.ToJSON frozenHeap 0).map (fun r => r.toBool) = some true ∧
    (WebSocketEvent.Encode frozenHeap 0 brokenWriter).map (fun r => r.1.isSome) = some true :=
  ⟨rfl, rfl, by decide, rfl, rfl⟩

/-- Claim C11, amended. With a frozen snapshot `ToJSON` returns bytes, and
`Encode` hands exactly these bytes to the destination: a destination that
accepts the write has them appended and no error is reported, a destination
that refuses the write is left as it was and its error is reported.  Without a
snapshot, when `ToJSON` returns bytes `Encode` hands these bytes followed by
one newline character to the destination, with the same two outcomes; and when
`ToJSON` returns an error `Encode` reports that error and writes nothing,
whether the destination accepts writes or not. -/
theorem Encode_matches_ToJSON (h : Heap) (ev : Addr) (e : WebSocketEvent) (w : Writer)
    (hev : h.events[ev]? = some e) :
    (∀ p, e.precomputedJSON = some p →
      ∃ bytes, WebSocketEvent.ToJSON h ev = some (.ok bytes) ∧
        (w.broken = false → WebSocketEvent.Encode h ev w =
          some (none, { w with written := w.written ++ bytes })) ∧
        (w.broken = true → WebSocketEvent.Encode h ev w = some (some .write, w))) ∧
    (e.precomputedJSON = none →
      (∀ bytes, WebSocketEvent.ToJSON h ev = some (.ok bytes) →
        (w.broken = false → WebSocketEvent.Encode h ev w =
          some (none, { w with written := w.written ++ (bytes ++ "\n") })) ∧
        (w.broken = true → WebSocketEvent.Encode h ev w = some (some .write, w))) ∧
      (∀ err, WebSocketEvent.ToJSON h ev = some (.error err) →
        WebSocketEvent.Encode h ev w = some (some (.marshal err), w))) := by
  constructor
  · intro p hp
    refine ⟨"\x7b\"event\": " ++ p.Event ++ ", \"data\": " ++ p.Data ++ ", \"broadcast\": "
      ++ p.Broadcast ++ ", \"seq\": " ++ Itoa (toInt e.sequence) ++ "\x7d", ?_, ?_, ?_⟩
    · simp [WebSocketEvent.ToJSON, hev, hp, WebSocketEvent.precomputedJSONBuf]
    · intro hw
      simp [WebSocketEvent.Encode, hev, hp, WebSocketEvent.precomputedJSONBuf, Writer.Write, hw]
    · intro hw
      simp [WebSocketEvent.Encode, hev, hp, WebSocketEvent.precomputedJSONBuf, Writer.Write, hw]
  · intro hp
    rw [ToJSON_generic h ev e hev hp, Encode_generic h ev e w hev hp]
    cases hd : h.getData e.data with
    | none => simp
    | some d =>
      cases hb : h.getBroadcast e.broadcast with
      | none => simp
      | some b =>
        constructor
        · intro bytes hbytes
          simp only [Option.some.injEq] at hbytes
          constructor
          · intro hw
            simp [hbytes, encoderEncode, Writer.Write, hw]
          · intro hw
            simp [hbytes, encoderEncode, Writer.Write, hw]
        · intro err herr
          simp only [Option.some.injEq] at herr
          simp [herr, encoderEncode]

set_option maxRecDepth 100000 in
/-- Claim C11, amended, at `frozenHeap` (snapshot: same bytes into a
destination that accepts the write, the write error from one that refuses it),
at `postedHeap` (no snapshot: one more newline, or the write error) and at
`chanHeap` (the payload does not encode: the encoder's error, also from a
destination that refuses writes). -/
theorem Encode_matches_ToJSON_witness :
    (∃ bytes, WebSocketEvent.ToJSON frozenHeap 0 = some (.ok bytes) ∧
      (emptyWriter.broken = false → WebSocketEvent.Encode frozenHeap 0 emptyWriter =
        some (none, { emptyWriter with written := emptyWriter.written ++ bytes })) ∧
      (emptyWriter.broken = true →
        WebSocketEvent.Encode frozenHeap 0 emptyWriter = some (some .write, emptyWriter))) ∧
    (∃ bytes, WebSocketEvent.ToJSON frozenHeap 0 = some (.ok bytes) ∧
      (brokenWriter.broken = false → WebSocketEvent.Encode frozenHeap 0 brokenWriter =
        some (none, { brokenWriter with written := brokenWriter.written ++ bytes })) ∧
      (brokenWriter.broken = true →
        WebSocketEvent.Encode frozenHeap 0 brokenWriter = some (some .write, brokenWriter))) ∧
    WebSocketEvent.Encode postedHeap 0 emptyWriter =
      some (none, { emptyWriter with written := emptyWriter.written ++
        (("\x7b\"event\":\"posted\",\"data\":\x7b\x7d,\"broadcast\":\x7b\"omit_users\":null,\"user_id\":\""
          ++ "\",\"channel_id\":\"chan1\",\"team_id\":\"team1\",\"connection_id\":\"\",\"omit_conn"
          ++ "ection_id\":\"\"\x7d,\"seq\":0\x7d") ++ "\n") }) ∧
    WebSocketEvent.Encode postedHeap 0 brokenWriter = some (some .write, brokenWriter) ∧
    WebSocketEvent.Encode chanHeap 0 brokenWriter =
      some (some (.marshal .unsupportedType), brokenWriter) :=
  ⟨(Encode_matches_ToJSON frozenHeap 0 frozenEvent emptyWriter rfl).1 frozenSnapshot rfl,
    (Encode_matches_ToJSON frozenHeap 0 frozenEvent brokenWriter rfl).1 frozenSnapshot rfl,
    (((Encode_matches_ToJSON postedHeap 0 postedEvent emptyWriter rfl).2 rfl).1 _ rfl).1 rfl,
    (((Encode_matches_ToJSON postedHeap 0 postedEvent brokenWriter rfl).2 rfl).1 _ rfl).2 rfl,
    ((Encode_matches_ToJSON chanHeap 0 _ brokenWriter rfl).2 rfl).2 _ rfl⟩

/-- `Add` through one of two event structs that refer to the same payload map
is seen through both. -/
theorem Add_shared (h1 : Heap) (p ev : Addr) (e1 e : WebSocketEvent) (a : Addr) (m : AnyMap)
    (k : String) (v : GoAny)
    (hp : h1.events[p]? = some e1) (hev : h1.events[ev]? = some e)
    (hd1 : e1.data = some a) (hd : e.data = some a) (hm : h1.maps[a]? = some m) :
    ∃ h2, WebSocketEvent.Add h1 p k v = some h2 ∧
      h2.payloadOf ev = some (some (mapInsert m k v)) ∧
      h2.payloadOf p = some (some (mapInsert m k v)) ∧ h2.events = h1.events := by
  have halt := lt_length_of_getElem? _ _ _ hm
  refine ⟨{ h1 with maps := h1.maps.set a (mapInsert m k v) }, ?_, ?_, ?_, rfl⟩
  · simp [WebSocketEvent.Add, hp, hd1, hm, Heap.setMap, halt]
  · simp [Heap.payloadOf, hev, hd, Heap.getData, halt]
  · simp [Heap.payloadOf, hp, hd1, Heap.getData, halt]

/-- `AddHook` on a target that two event structs point to is seen through
both. -/
theorem AddHook_shared (h1 : Heap) (ev p : Addr) (e e1 : WebSocketEvent) (t : Addr)
    (wb : WebsocketBroadcast) (hookID : String) (hookArgs : Option AnyMap)
    (hev : h1.events[ev]? = some e) (hp : h1.events[p]? = some e1)
    (ht : e.broadcast = some t) (ht1 : e1.broadcast = some t)
    (hwb : h1.broadcasts[t]? = some wb) :
    ∃ h2, WebsocketBroadcast.AddHook h1 (some t) hookID hookArgs = some h2 ∧
      h2.targetOf ev = some { wb with
        BroadcastHooks := wb.BroadcastHooks ++ [hookID],
        BroadcastHookArgs := wb.BroadcastHookArgs ++ [hookArgs] } ∧
      h2.targetOf p = h2.targetOf ev ∧ h2.events = h1.events := by
  have htlt := lt_length_of_getElem? _ _ _ hwb
  refine ⟨_, AddHook_eq h1 t wb hookID hookArgs hwb, ?_, ?_, rfl⟩
  · simp [Heap.targetOf, hev, ht, Heap.derefBroadcast, htlt]
  · simp [Heap.targetOf, hev, hp, ht, ht1, Heap.derefBroadcast]

/-- Counterexample to claim C12 as stated: after `P := E.PrecomputeJSON()` on
the envelope `E` of `postedHeap`, `P.Add("k", "v")` adds the entry to the
payload of `E`, and `AddHook` on the target of `P` adds the hook to the target
of `E`. -/
theorem PrecomputeJSON_shares_payload :
    postedHeap.payloadOf 0 = some (some []) ∧
    ((WebSocketEvent.PrecomputeJSON postedHeap 0).bind
        (fun p => WebSocketEvent.Add p.2 p.1 "k" (GoAny.str "v"))).bind
        (fun h2 => h2.payloadOf 0)
      = some (some [("k", GoAny.str "v")]) ∧
    (postedHeap.targetOf 0).map (fun wb => wb.BroadcastHooks) = some [] ∧
    (((WebSocketEvent.PrecomputeJSON postedHeap 0).bind
        (fun p => (WebSocketEvent.GetBroadcast p.2 p.1).bind
          (fun t => WebsocketBroadcast.AddHook p.2 t "h1" none))).bind
        (fun h2 => h2.targetOf 0)).map (fun wb => wb.BroadcastHooks)
      = some ["h1"] :=
  ⟨rfl, rfl, rfl, rfl⟩

/-- Claim C12, amended. `PrecomputeJSON` returns a shallow copy: a new event
struct with the receiver's fields and a snapshot, which refers to the same
payload map and the same target as the receiver; the receiver struct is not
written.  `Add` through either envelope changes the payload seen through the
other, and `AddHook` on the shared target is seen through both; the event
structs, the snapshot included, are not changed by these calls. -/
theorem PrecomputeJSON_shallow (h : Heap) (ev a t : Addr) (e : WebSocketEvent) (m : AnyMap)
    (wb : WebsocketBroadcast)
    (hev : h.events[ev]? = some e) (hdata : e.data = some a) (hm : h.maps[a]? = some m)
    (ht : e.broadcast = some t) (hwb : h.broadcasts[t]? = some wb) :
    ∃ (p : Addr) (h1 : Heap) (snap : precomputedWebSocketEventJSON),
      WebSocketEvent.PrecomputeJSON h ev = some (p, h1) ∧ p ≠ ev ∧
      h1.events[p]? = some { e with precomputedJSON := some snap } ∧
      h1.events[ev]? = some e ∧ h1.maps = h.maps ∧ h1.broadcasts = h.broadcasts ∧
      (∀ (k : String) (v : GoAny), ∃ h2, WebSocketEvent.Add h1 p k v = some h2 ∧
        h2.payloadOf ev = some (some (mapInsert m k v)) ∧
        h2.payloadOf p = some (some (mapInsert m k v)) ∧ h2.events = h1.events) ∧
      (∀ (k : String) (v : GoAny), ∃ h2, WebSocketEvent.Add h1 ev k v = some h2 ∧
        h2.payloadOf p = some (some (mapInsert m k v)) ∧
        h2.payloadOf ev = some (some (mapInsert m k v)) ∧ h2.events = h1.events) ∧
      (∀ (hookID : String) (hookArgs : Option AnyMap), ∃ h2,
        WebsocketBroadcast.AddHook h1 (some t) hookID hookArgs = some h2 ∧
        h2.targetOf ev = some { wb with
          BroadcastHooks := wb.BroadcastHooks ++ [hookID],
          BroadcastHookArgs := wb.BroadcastHookArgs ++ [hookArgs] } ∧
        h2.targetOf p = h2.targetOf ev ∧ h2.events = h1.events) := by
  have hd : h.getData e.data = some (some m) := by simp [Heap.getData, hdata, hm]
  have hb : h.getBroadcast e.broadcast = some (some wb) := by simp [Heap.getBroadcast, ht, hwb]
  have hlt := lt_length_of_getElem? _ _ _ hev
  refine ⟨_, _, _, PrecomputeJSON_eq h ev e _ _ hev hd hb, ?_, getElem?_snoc_self _ _,
    getElem?_snoc_of_some _ _ _ _ hev, rfl, rfl, ?_, ?_, ?_⟩
  · exact fun hx => absurd hx.symm (Nat.ne_of_lt hlt)
  · intro k v
    exact Add_shared _ _ ev _ e a m k v (getElem?_snoc_self _ _)
      (getElem?_snoc_of_some _ _ _ _ hev) hdata hdata hm
  · intro k v
    exact Add_shared _ ev _ e _ a m k v (getElem?_snoc_of_some _ _ _ _ hev)
      (getElem?_snoc_self _ _) hdata hdata hm
  · intro hookID hookArgs
    exact AddHook_shared _ ev _ e _ t wb hookID hookArgs (getElem?_snoc_of_some _ _ _ _ hev)
      (getElem?_snoc_self _ _) ht ht hwb

/-- Claim C12, amended, at the envelope of `postedHeap`. -/
theorem PrecomputeJSON_shallow_witness :
    postedHeap.events[0]? = some postedEvent ∧ postedHeap.maps[0]? = some [] ∧
    postedHeap.broadcasts[0]? = some postedTarget ∧
    ∃ (p : Addr) (h1 : Heap),
      WebSocketEvent.PrecomputeJSON postedHeap 0 = some (p, h1) ∧ p ≠ 0 ∧
      h1.events[0]? = some postedEvent ∧
      ∃ h2, WebSocketEvent.Add h1 p "k" (GoAny.str "v") = some h2 ∧
        h2.payloadOf 0 = some (some [("k", GoAny.str "v")]) := by
  refine ⟨rfl, rfl, rfl, ?_⟩
  obtain ⟨p, h1, _, hrun, hne, _, hsrc, _, _, hadd, _, _⟩ :=
    PrecomputeJSON_shallow postedHeap 0 0 0 postedEvent [] postedTarget rfl rfl rfl rfl rfl
  obtain ⟨h2, hrun2, hpay, _, _⟩ := hadd "k" (GoAny.str "v")
  exact ⟨p, h1, hrun, hne, hsrc, h2, hrun2, hpay⟩

set_option maxRecDepth 100000 in
/-- Claim C13. At the envelope of `chanHeap`, whose payload holds a channel,
the generic `ToJSON` returns an error, while `PrecomputeJSON` followed by
`ToJSON` returns no error and bytes in which the payload is missing. -/
theorem PrecomputeJSON_hides_failure :
    WebSocketEvent.ToJSON chanHeap 0 = some (.error .unsupportedType) ∧
    (WebSocketEvent.PrecomputeJSON chanHeap 0).bind (fun p => WebSocketEvent.ToJSON p.2 p.1)
      = some (.ok ("\x7b\"event\": \"posted\", \"data\": , \"broadcast\": \x7b\"omit_users\":null,\"user_id"
          ++ "\":\"\",\"channel_id\":\"\",\"team_id\":\"\",\"connection_id\":\"\",\"omit_connection_"
          ++ "id\":\"\"\x7d, \"seq\": 0\x7d")) :=
  ⟨rfl, rfl⟩

/-- Claim C15. `IsValid` returns true if and only if the event type is not
the empty string, whatever the payload, target, sequence and snapshot are, and
`EventType` returns the event type: the one given to `NewWebSocketEvent`, or
the one given to the last `SetEvent`. -/
theorem IsValid_iff_event_nonempty (h : Heap) (ev : Addr) (e : WebSocketEvent)
    (hev : h.events[ev]? = some e) :
    (∃ v, WebSocketEvent.IsValid h ev = some v ∧ (v = true ↔ e.event ≠ "")) ∧
    WebSocketEvent.EventType h ev = some e.event ∧
    (∀ (h2 : Heap) (ev2 : Addr) (e2 : WebSocketEvent), h2.events[ev2]? = some e2 →
      e2.event = e.event → WebSocketEvent.IsValid h2 ev2 = WebSocketEvent.IsValid h ev) ∧
    (∀ t : String, ∃ (r : Addr) (h1 : Heap), WebSocketEvent.SetEvent h ev t = some (r, h1) ∧
      WebSocketEvent.EventType h1 r = some t ∧
      (WebSocketEvent.IsValid h1 r = some true ↔ t ≠ "")) ∧
    (∀ (event teamId channelId userId : String) (omitUsers : Option (List (String × Bool)))
        (omitConnectionId : String),
      WebSocketEvent.EventType
          (NewWebSocketEvent h event teamId channelId userId omitUsers omitConnectionId).2
          (NewWebSocketEvent h event teamId channelId userId omitUsers omitConnectionId).1
        = some event ∧
      (WebSocketEvent.IsValid
          (NewWebSocketEvent h event teamId channelId userId omitUsers omitConnectionId).2
          (NewWebSocketEvent h event teamId channelId userId omitUsers omitConnectionId).1
        = some true ↔ event ≠ "")) := by
  refine ⟨⟨decide (e.event ≠ ""), by simp [WebSocketEvent.IsValid, hev], by simp⟩,
    by simp [WebSocketEvent.EventType, hev], ?_, ?_, ?_⟩
  · intro h2 ev2 e2 hev2 heq
    simp [WebSocketEvent.IsValid, hev, hev2, heq]
  · intro t
    refine ⟨_, _, SetEvent_eq h ev e t hev, ?_, ?_⟩
    · simp [WebSocketEvent.EventType]
    · simp [WebSocketEvent.IsValid]
  · intro event teamId channelId userId omitUsers omitConnectionId
    constructor
    · simp [WebSocketEvent.EventType, NewWebSocketEvent, Heap.newEvent, Heap.newBroadcast,
        Heap.newMap]
    · simp [WebSocketEvent.IsValid, NewWebSocketEvent, Heap.newEvent, Heap.newBroadcast,
        Heap.newMap]

/-- Claim C15 at the frozen envelope of `frozenHeap`, whose event type is
`typing`. -/
theorem IsValid_iff_event_nonempty_witness :
    frozenHeap.events[0]? = some frozenEvent ∧
    WebSocketEvent.IsValid frozenHeap 0 = some true ∧
    WebSocketEvent.EventType frozenHeap 0 = some "typing" ∧
    ∃ (r : Addr) (h1 : Heap), WebSocketEvent.SetEvent frozenHeap 0 "" = some (r, h1) ∧
      WebSocketEvent.EventType h1 r = some "" ∧
      (WebSocketEvent.IsValid h1 r = some true ↔ "" ≠ "") :=
  ⟨rfl, rfl, (IsValid_iff_event_nonempty frozenHeap 0 frozenEvent rfl).2.1,
    (IsValid_iff_event_nonempty frozenHeap 0 frozenEvent rfl).2.2.2.1 ""⟩

/-- Claim C16. The response built by `NewWebSocketError(n, e)` has status
`FAIL`, `SeqReply` equal to `n`, `Error` equal to `e` and a nil `Data`, so the
object written for it has no member `data`; it is valid and its event type is
`response`. -/
theorem NewWebSocketError_fields {AppError : Type} (n : Int) (err : Option AppError) :
    (NewWebSocketError n err).Status = "FAIL" ∧
    (NewWebSocketError n err).SeqReply = n ∧
    (NewWebSocketError n err).Error = err ∧
    (NewWebSocketError n err).Data = none ∧
    (NewWebSocketError n err).IsValid = true ∧
    (NewWebSocketError n err).EventType = "response" ∧
    (∀ (marshalAppError : AppError → Except MarshalError String) (ms : List (String × String)),
      (NewWebSocketError n err).members marshalAppError = .ok ms →
      "data" ∉ ms.map Prod.fst ∧ ("status", "\"FAIL\"") ∈ ms) := by
  refine ⟨rfl, rfl, rfl, rfl, by simp [WebSocketResponse.IsValid, NewWebSocketError, StatusFail],
    rfl, ?_⟩
  intro marshalAppError ms hms
  have hq : quote "FAIL" = "\"FAIL\"" := by decide
  cases err with
  | none =>
    simp only [NewWebSocketError, WebSocketResponse.members, anyMapIsEmpty, if_true,
      StatusFail, hq] at hms
    injection hms with hms
    subst hms
    by_cases hn : n = 0 <;> simp [hn]
  | some a =>
    simp only [NewWebSocketError, WebSocketResponse.members, anyMapIsEmpty, if_true,
      StatusFail, hq] at hms
    cases hm : marshalAppError a with
    | error x => rw [hm] at hms; cases hms
    | ok s =>
      rw [hm] at hms
      injection hms with hms
      subst hms
      by_cases hn : n = 0 <;> simp [hn]

/-- Claim C16 at sequence 3 with an error whose encoding is `E`. -/
theorem NewWebSocketError_fields_witness :
    (NewWebSocketError 3 (some ())).members (fun _ => .ok "E")
      = .ok [("status", "\"FAIL\""), ("seq_reply", "3"), ("error", "E")] ∧
    "data" ∉ [("status", "\"FAIL\""), ("seq_reply", "3"), ("error", "E")].map Prod.fst ∧
    ("status", "\"FAIL\"") ∈ [("status", "\"FAIL\""), ("seq_reply", "3"), ("error", "E")] :=
  ⟨rfl, (NewWebSocketError_fields 3 (some ())).2.2.2.2.2.2 (fun _ => .ok "E") _ rfl⟩

/-- The function `copyMap` allocates one map and writes nothing else. -/
theorem copyMap_frame (h : Heap) (a : Option Addr) (d : Option AnyMap)
    (hd : h.getData a = some d) :
    ∃ (r : Addr) (h1 : Heap), copyMap h a = some (r, h1) ∧ h1.events = h.events ∧
      h1.broadcasts = h.broadcasts ∧
      h1.maps[r]? = some (match d with
        | none => []
        | some m => copyEntries m) := by
  cases d with
  | none =>
    exact ⟨h.maps.length, { h with maps := h.maps ++ [[]] },
      by simp [copyMap, hd, Heap.newMap], rfl, rfl, by simp⟩
  | some m =>
    exact ⟨h.maps.length, { h with maps := h.maps ++ [copyEntries m] },
      by simp [copyMap, hd, Heap.newMap], rfl, rfl, by simp⟩

/-- The method `copy()` of a target allocates at most one target and writes
nothing else. -/
theorem copy_frame (h : Heap) (t : Option Addr) (b : Option WebsocketBroadcast)
    (hb : h.getBroadcast t = some b) :
    ∃ (r : Option Addr) (h1 : Heap), WebsocketBroadcast.copy h t = some (r, h1) ∧
      h1.events = h.events ∧ h1.maps = h.maps := by
  cases t with
  | none => exact ⟨none, h, rfl, rfl, rfl⟩
  | some a =>
    cases hwb : h.broadcasts[a]? with
    | none => simp [Heap.getBroadcast, hwb] at hb
    | some wb =>
      simp only [WebsocketBroadcast.copy, hwb, Heap.newBroadcast]
      exact ⟨_, _, rfl, rfl, rfl⟩

/-- What `DeepCopy` returns, as far as the event struct goes: a new struct with
the receiver's event type, sequence and snapshot bytes; the structs already in
the heap are not written. -/
theorem DeepCopy_event (h : Heap) (ev : Addr) (e : WebSocketEvent) (d : Option AnyMap)
    (b : Option WebsocketBroadcast)
    (hev : h.events[ev]? = some e) (hd : h.getData e.data = some d)
    (hb : h.getBroadcast e.broadcast = some b) :
    ∃ (h1 : Heap) (e1 : WebSocketEvent),
      WebSocketEvent.DeepCopy h ev = some (h.events.length, h1) ∧
      h1.events = h.events ++ [e1] ∧
      e1.event = e.event ∧ e1.sequence = e.sequence ∧
      e1.precomputedJSON = e.precomputedJSON := by
  have hsnap : precomputedWebSocketEventJSON.copy e.precomputedJSON = e.precomputedJSON := by
    cases e.precomputedJSON <;> rfl
  obtain ⟨r, h1, hrun1, hev1, hbc1, -⟩ := copyMap_frame h e.data d hd
  have hb1 : h1.getBroadcast e.broadcast = some b := by
    cases hx : e.broadcast with
    | none => rw [hx] at hb; exact hb
    | some t => rw [hx] at hb; simpa [Heap.getBroadcast, hbc1] using hb
  obtain ⟨t1, h2, hrun2, hev2, -⟩ := copy_frame h1 e.broadcast b hb1
  refine ⟨{ h2 with events := h2.events ++
      [⟨e.event, some r, t1, e.sequence,
        precomputedWebSocketEventJSON.copy e.precomputedJSON⟩] },
    ⟨e.event, some r, t1, e.sequence, precomputedWebSocketEventJSON.copy e.precomputedJSON⟩,
    ?_, ?_, rfl, rfl, hsnap⟩
  · simp only [WebSocketEvent.DeepCopy, hev, hrun1, hrun2, Heap.newEvent, hev2, hev1]
  · simp only [hev2, hev1]

/-- Consistency only looks at the maps and targets of the heap. -/
theorem Consistent_of_same_objects (h h1 : Heap) (e e1 : WebSocketEvent)
    (hm : h1.maps = h.maps) (hb : h1.broadcasts = h.broadcasts)
    (hevent : e1.event = e.event) (hdata : e1.data = e.data)
    (hbc : e1.broadcast = e.broadcast) (hsnap : e1.precomputedJSON = e.precomputedJSON)
    (hc : h.Consistent e) : h1.Consistent e1 := by
  intro p hp
  rw [hsnap] at hp
  obtain ⟨d, b, h1d, h1b, h2, h3, h4⟩ := hc p hp
  refine ⟨d, b, ?_, ?_, by rw [hevent]; exact h2, h3, h4⟩
  · rw [hdata, ← h1d]
    cases e.data <;> simp [Heap.getData, hm]
  · rw [hbc, ← h1b]
    cases e.broadcast <;> simp [Heap.getBroadcast, hb]

/-- What `RemovePrecomputedJSON` returns, as far as the event struct goes. -/
theorem RemovePrecomputedJSON_event (h : Heap) (ev : Addr) (e : WebSocketEvent)
    (d : Option AnyMap) (b : Option WebsocketBroadcast)
    (hev : h.events[ev]? = some e) (hd : h.getData e.data = some d)
    (hb : h.getBroadcast e.broadcast = some b) :
    ∃ (h1 : Heap) (e1 : WebSocketEvent),
      WebSocketEvent.RemovePrecomputedJSON h ev = some (h.events.length, h1) ∧
      h1.events = h.events ++ [e1] ∧
      e1.event = e.event ∧ e1.sequence = e.sequence ∧ e1.precomputedJSON = none := by
  obtain ⟨h1, e1, hrun, hevs, h2, h3, -⟩ := DeepCopy_event h ev e d b hev hd hb
  refine ⟨{ h1 with events := h.events ++ [{ e1 with precomputedJSON := none }] },
    { e1 with precomputedJSON := none }, ?_, rfl, h2, h3, rfl⟩
  simp only [WebSocketEvent.RemovePrecomputedJSON, hrun, hevs, getElem?_snoc_self,
    Heap.setEvent, List.length_append, List.length_singleton, Nat.lt_succ_self, if_true,
    set_snoc_self]

set_option maxRecDepth 100000 in
/-- Counterexample to claim C17 as stated: for the envelope `E` of
`postedHeap`, `E.PrecomputeJSON().SetEvent("typing")` has event type `typing`
and `ToJSON` on it still reports the event type `posted`. -/
theorem SetEvent_keeps_stale_snapshot :
    ((WebSocketEvent.PrecomputeJSON postedHeap 0).bind
        (fun p => WebSocketEvent.SetEvent p.2 p.1 "typing")).bind
        (fun q => WebSocketEvent.EventType q.2 q.1)
      = some "typing" ∧
    ((WebSocketEvent.PrecomputeJSON postedHeap 0).bind
        (fun p => WebSocketEvent.SetEvent p.2 p.1 "typing")).bind
        (fun q => WebSocketEvent.ToJSON q.2 q.1)
      = some (.ok ("\x7b\"event\": \"posted\", \"data\": \x7b\x7d, \"broadcast\": \x7b\"omit_users\":null,\"user_"
          ++ "id\":\"\",\"channel_id\":\"chan1\",\"team_id\":\"team1\",\"connection_id\":\"\",\"omit"
          ++ "_connection_id\":\"\"\x7d, \"seq\": 0\x7d")) :=
  ⟨rfl, rfl⟩

/-- Claim C17, amended. A snapshot is computed by `PrecomputeJSON` only: right
after it the snapshot holds the encodings of the envelope's event type,
payload and target (when these encode).  `SetSequence` and `Copy` carry the
snapshot over and preserve consistency.  `SetEvent`, `SetData` and
`SetBroadcast` carry the snapshot over unchanged as well, whatever value they
store in the field, `DeepCopy` copies the snapshot unchanged, and
`RemovePrecomputedJSON` returns an envelope without a snapshot and leaves the
receiver as it was. -/
theorem snapshot_carried_over (h : Heap) (ev : Addr) (e : WebSocketEvent)
    (d : Option AnyMap) (b : Option WebsocketBroadcast)
    (hev : h.events[ev]? = some e) (hd : h.getData e.data = some d)
    (hb : h.getBroadcast e.broadcast = some b) :
    (∀ dj bj, marshalAnyMap d = .ok dj → marshalBroadcast b = .ok bj →
      ∃ (p : Addr) (h1 : Heap) (e1 : WebSocketEvent),
        WebSocketEvent.PrecomputeJSON h ev = some (p, h1) ∧ h1.events[p]? = some e1 ∧
        e1.precomputedJSON = some ⟨quote e.event, dj, bj⟩ ∧ h1.Consistent e1) ∧
    (∀ s : Int, ∃ (r : Addr) (h1 : Heap) (e1 : WebSocketEvent),
      WebSocketEvent.SetSequence h ev s = some (r, h1) ∧ h1.events[r]? = some e1 ∧
      e1.sequence = s ∧ e1.precomputedJSON = e.precomputedJSON ∧
      (h.Consistent e → h1.Consistent e1)) ∧
    (∃ (r : Addr) (h1 : Heap) (e1 : WebSocketEvent),
      WebSocketEvent.Copy h ev = some (r, h1) ∧ h1.events[r]? = some e1 ∧
      e1.precomputedJSON = e.precomputedJSON ∧ (h.Consistent e → h1.Consistent e1)) ∧
    (∀ t : String, ∃ (r : Addr) (h1 : Heap) (e1 : WebSocketEvent),
      WebSocketEvent.SetEvent h ev t = some (r, h1) ∧ h1.events[r]? = some e1 ∧
      e1.event = t ∧ e1.precomputedJSON = e.precomputedJSON) ∧
    (∀ x : Option Addr, ∃ (r : Addr) (h1 : Heap) (e1 : WebSocketEvent),
      WebSocketEvent.SetData h ev x = some (r, h1) ∧ h1.events[r]? = some e1 ∧
      e1.data = x ∧ e1.precomputedJSON = e.precomputedJSON) ∧
    (∀ x : Option Addr, ∃ (r : Addr) (h1 : Heap) (e1 : WebSocketEvent),
      WebSocketEvent.SetBroadcast h ev x = some (r, h1) ∧ h1.events[r]? = some e1 ∧
      e1.broadcast = x ∧ e1.precomputedJSON = e.precomputedJSON) ∧
    (∃ (r : Addr) (h1 : Heap) (e1 : WebSocketEvent),
      WebSocketEvent.DeepCopy h ev = some (r, h1) ∧ h1.events[r]? = some e1 ∧
      e1.precomputedJSON = e.precomputedJSON) ∧
    (∃ (r : Addr) (h1 : Heap) (e1 : WebSocketEvent),
      WebSocketEvent.RemovePrecomputedJSON h ev = some (r, h1) ∧ h1.events[r]? = some e1 ∧
      e1.precomputedJSON = none ∧ h1.Consistent e1 ∧ h1.events[ev]? = some e) := by
  refine ⟨?_, ?_, ?_, ?_, ?_, ?_, ?_, ?_⟩
  · intro dj bj hdj hbj
    refine ⟨_, _, _, PrecomputeJSON_eq h ev e d b hev hd hb, getElem?_snoc_self _ _, ?_, ?_⟩
    · simp [hdj, hbj, bytesOrNil]
    · intro p hp
      simp only [Option.some.injEq] at hp
      subst hp
      exact ⟨d, b, hd, hb, rfl, by simp [hdj, bytesOrNil], by simp [hbj, bytesOrNil]⟩
  · intro s
    exact ⟨_, _, _, SetSequence_eq h ev e s hev, getElem?_snoc_self _ _, rfl, rfl,
      Consistent_of_same_objects h _ e _ rfl rfl rfl rfl rfl rfl⟩
  · exact ⟨_, _, _, Copy_eq h ev e hev, getElem?_snoc_self _ _, rfl,
      Consistent_of_same_objects h _ e _ rfl rfl rfl rfl rfl rfl⟩
  · intro t
    exact ⟨_, _, _, SetEvent_eq h ev e t hev, getElem?_snoc_self _ _, rfl, rfl⟩
  · intro x
    exact ⟨_, _, _, SetData_eq h ev e x hev, getElem?_snoc_self _ _, rfl, rfl⟩
  · intro x
    exact ⟨_, _, _, SetBroadcast_eq h ev e x hev, getElem?_snoc_self _ _, rfl, rfl⟩
  · obtain ⟨h1, e1, hrun, hevs, -, -, hsnap⟩ := DeepCopy_event h ev e d b hev hd hb
    exact ⟨_, h1, e1, hrun, by rw [hevs]; exact getElem?_snoc_self _ _, hsnap⟩
  · obtain ⟨h1, e1, hrun, hevs, -, -, hsnap⟩ := RemovePrecomputedJSON_event h ev e d b hev hd hb
    refine ⟨_, h1, e1, hrun, by rw [hevs]; exact getElem?_snoc_self _ _, hsnap, ?_, ?_⟩
    · intro p hp
      rw [hsnap] at hp
      cases hp
    · rw [hevs]
      exact getElem?_snoc_of_some _ _ _ _ hev

/-- Claim C17, amended, at the envelope of `postedHeap` (consistency right
after `PrecomputeJSON`) and at the frozen envelope of `frozenHeap` (`SetEvent`
keeps the snapshot). -/
theorem snapshot_carried_over_witness :
    postedHeap.events[0]? = some postedEvent ∧
    postedHeap.getData postedEvent.data = some (some []) ∧
    postedHeap.getBroadcast postedEvent.broadcast = some (some postedTarget) ∧
    (∃ (p : Addr) (h1 : Heap) (e1 : WebSocketEvent),
      WebSocketEvent.PrecomputeJSON postedHeap 0 = some (p, h1) ∧ h1.events[p]? = some e1 ∧
      e1.precomputedJSON = some ⟨quote "posted", "\x7b\x7d", renderObject
        [("omit_users", "null"), ("user_id", "\"\""), ("channel_id", "\"chan1\""),
         ("team_id", "\"team1\""), ("connection_id", "\"\""), ("omit_connection_id", "\"\"")]⟩ ∧
      h1.Consistent e1) ∧
    (∃ (r : Addr) (h1 : Heap) (e1 : WebSocketEvent),
      WebSocketEvent.SetEvent frozenHeap 0 "posted" = some (r, h1) ∧
      h1.events[r]? = some e1 ∧ e1.event = "posted" ∧
      e1.precomputedJSON = some frozenSnapshot) :=
  ⟨rfl, rfl, rfl,
    (snapshot_carried_over postedHeap 0 postedEvent (some []) (some postedTarget)
      rfl rfl rfl).1 _ _ rfl rfl,
    (snapshot_carried_over frozenHeap 0 frozenEvent none (some postedTarget)
      rfl rfl rfl).2.2.2.1 "posted"⟩

/-- Claim C18. At the envelope of `hookedHeap`, whose target names connection
`conn1` and asks for the reliable cluster channel, the targets of the
envelopes returned by `DeepCopy` and by `RemovePrecomputedJSON` have an empty
`ConnectionId` and `ReliableClusterSend` false. -/
theorem DeepCopy_drops_connection :
    (hookedHeap.targetOf 0).map (fun wb => (wb.ConnectionId, wb.ReliableClusterSend))
      = some ("conn1", true) ∧
    (WebSocketEvent.DeepCopy hookedHeap 0).bind
      (fun r => (r.2.targetOf r.1).map (fun wb => (wb.ConnectionId, wb.ReliableClusterSend)))
      = some ("", false) ∧
    (WebSocketEvent.RemovePrecomputedJSON hookedHeap 0).bind
      (fun r => (r.2.targetOf r.1).map (fun wb => (wb.ConnectionId, wb.ReliableClusterSend)))
      = some ("", false) :=
  ⟨rfl, rfl, rfl⟩

/-- A nil target makes `WithoutBroadcastHooks` panic. -/
theorem WithoutBroadcastHooks_nil_target (h : Heap) (ev : Addr) (e : WebSocketEvent)
    (hev : h.events[ev]? = some e) (hb : e.broadcast = none) :
    WebSocketEvent.WithoutBroadcastHooks h ev = none := by
  simp [WebSocketEvent.WithoutBroadcastHooks, hev, hb, Heap.derefBroadcast]

/-- Claim C19. `SetBroadcast(nil)` on the envelope of `postedHeap` returns an
envelope (at address 1) whose target is nil, and `WithoutBroadcastHooks` on
that envelope does not return: it dereferences the nil target. -/
theorem WithoutBroadcastHooks_nil_target_panics :
    (WebSocketEvent.SetBroadcast postedHeap 0 none).map
        (fun r => (r.1, (r.2.events[r.1]?).map (fun e => e.broadcast)))
      = some (1, some none) ∧
    (WebSocketEvent.SetBroadcast postedHeap 0 none).bind
        (fun r => WebSocketEvent.WithoutBroadcastHooks r.2 r.1)
      = none ∧
    WebSocketEvent.WithoutBroadcastHooks nilTargetHeap 1 = none :=
  ⟨rfl, rfl, rfl⟩

/-! ## Decoder lemmas: tokens -/

theorem skipWs_of_not_ws (c : Char) (cs : List Char) (h : isWs c = false) :
    skipWs (c :: cs) = c :: cs := by
  simp [skipWs, h]

theorem skipWs_of_delim (rest : List Char) (h : Delim rest) : skipWs rest = rest := by
  rcases h with h | ⟨c, r, h, hc⟩
  · subst h; rfl
  · subst h
    apply skipWs_of_not_ws
    simp only [isWs]
    rcases hc with hc | hc | hc <;> simp [hc]

theorem Delim_comma (r : List Char) : Delim (Char.ofNat 44 :: r) :=
  Or.inr ⟨_, _, rfl, Or.inl rfl⟩

theorem Delim_bracket (r : List Char) : Delim (Char.ofNat 93 :: r) :=
  Or.inr ⟨_, _, rfl, Or.inr (Or.inl rfl)⟩

theorem Delim_brace (r : List Char) : Delim (Char.ofNat 125 :: r) :=
  Or.inr ⟨_, _, rfl, Or.inr (Or.inr rfl)⟩

theorem parses_null : Parses "null" .null := by
  refine ⟨⟨'n', _, rfl, rfl, by decide⟩, ?_⟩
  intro f depth rest hf _ _
  obtain ⟨f, rfl⟩ : ∃ g, f = g + 1 := ⟨f - 1, by simp [String.length] at hf; omega⟩
  rfl

theorem parses_true : Parses "true" (.bool true) := by
  refine ⟨⟨'t', _, rfl, rfl, by decide⟩, ?_⟩
  intro f depth rest hf _ _
  obtain ⟨f, rfl⟩ : ∃ g, f = g + 1 := ⟨f - 1, by simp [String.length] at hf; omega⟩
  rfl

theorem parses_false : Parses "false" (.bool false) := by
  refine ⟨⟨'f', _, rfl, rfl, by decide⟩, ?_⟩
  intro f depth rest hf _ _
  obtain ⟨f, rfl⟩ : ∃ g, f = g + 1 := ⟨f - 1, by simp [String.length] at hf; omega⟩
  rfl

/-! ## Decoder lemmas: numbers -/

theorem digitChar_toNat (k : Nat) (hk : k < 10) : (Nat.digitChar k).toNat = 48 + k := by
  interval_cases k <;> rfl

theorem isDigit_iff (c : Char) : isDigit c = true ↔ 48 ≤ c.toNat ∧ c.toNat ≤ 57 := by
  simp [isDigit]

theorem isDigit_digitChar (k : Nat) (hk : k < 10) : isDigit (Nat.digitChar k) = true := by
  rw [isDigit_iff, digitChar_toNat k hk]
  omega

theorem toDigitsCore_digits (fuel : Nat) : ∀ (n : Nat) (ds : List Char),
    (∀ c ∈ ds, isDigit c = true) → ∀ c ∈ Nat.toDigitsCore 10 fuel n ds, isDigit c = true := by
  induction fuel with
  | zero => intro n ds hds c hc; exact hds c (by simpa [Nat.toDigitsCore] using hc)
  | succ fuel ih =>
    intro n ds hds c hc
    have hd : isDigit (Nat.digitChar (n % 10)) = true :=
      isDigit_digitChar _ (Nat.mod_lt _ (by decide))
    have hds1 : ∀ c ∈ Nat.digitChar (n % 10) :: ds, isDigit c = true := by
      intro c hc
      rcases List.mem_cons.mp hc with h | h
      · rw [h]; exact hd
      · exact hds c h
    simp only [Nat.toDigitsCore] at hc
    split at hc
    · exact hds1 c hc
    · exact ih _ _ hds1 c hc

/-- Value of a run of digits read after the value `a`. -/
theorem digitsVal_foldl (l : List Char) (a : Nat) :
    l.foldl (fun a c => 10 * a + (c.toNat - 48)) a
      = a * 10 ^ l.length + digitsVal l := by
  induction l generalizing a with
  | nil => simp [digitsVal]
  | cons c cs ih =>
    simp only [List.foldl_cons, digitsVal, List.length_cons]
    rw [ih, ih (10 * 0 + (c.toNat - 48))]
    simp only [digitsVal]
    ring

theorem toDigitsCore_val (fuel : Nat) : ∀ (n : Nat) (ds : List Char), n < fuel →
    (Nat.toDigitsCore 10 fuel n ds).foldl (fun a c => 10 * a + (c.toNat - 48)) 0
      = ds.foldl (fun a c => 10 * a + (c.toNat - 48)) n := by
  induction fuel with
  | zero => intro n ds h; omega
  | succ fuel ih =>
    intro n ds h
    have hd : (Nat.digitChar (n % 10)).toNat - 48 = n % 10 := by
      rw [digitChar_toNat _ (Nat.mod_lt _ (by decide))]; omega
    simp only [Nat.toDigitsCore]
    split
    · rename_i h0
      simp only [List.foldl_cons, hd, Nat.mul_zero, Nat.zero_add]
      have : n % 10 = n := Nat.mod_eq_of_lt (by omega)
      rw [this]
    · rename_i h0
      rw [ih _ _ (by omega)]
      simp only [List.foldl_cons, hd]
      have : 10 * (n / 10) + n % 10 = n := Nat.div_add_mod n 10
      rw [this]

theorem toDigitsCore_head (fuel : Nat) : ∀ (n : Nat) (ds : List Char), n < fuel → 0 < n →
    ∃ d t, Nat.toDigitsCore 10 fuel n ds = d :: t ∧ d.toNat ≠ 48 ∧ isDigit d = true := by
  induction fuel with
  | zero => intro n ds h; omega
  | succ fuel ih =>
    intro n ds h hpos
    simp only [Nat.toDigitsCore]
    split
    · rename_i h0
      refine ⟨_, _, rfl, ?_, isDigit_digitChar _ (Nat.mod_lt _ (by decide))⟩
      rw [digitChar_toNat _ (Nat.mod_lt _ (by decide))]
      have : n % 10 = n := Nat.mod_eq_of_lt (by omega)
      omega
    · rename_i h0
      exact ih _ _ (by omega) (by omega)

theorem spanDigits_append (l rest : List Char) (hl : ∀ c ∈ l, isDigit c = true)
    (hrest : Delim rest) : spanDigits (l ++ rest) = (l, rest) := by
  induction l with
  | nil =>
    rcases hrest with h | ⟨c, r, h, hc⟩
    · subst h; rfl
    · subst h
      have : isDigit c = false := by
        simp only [isDigit]
        rcases hc with hc | hc | hc <;> simp [hc]
      simp [spanDigits, this]
  | cons c cs ih =>
    have hc := hl c (List.mem_cons_self _ _)
    have ih1 := ih (fun x hx => hl x (List.mem_cons_of_mem _ hx))
    simp [spanDigits, hc, ih1]

/-- The digits written for a natural number are read back as that number. -/
theorem parseNumber_toDigits (neg : Bool) (n : Nat) (rest : List Char) (hrest : Delim rest) :
    parseNumber neg (Nat.toDigits 10 n ++ rest) = .ok (.num neg n, rest) := by
  have hall : ∀ c ∈ Nat.toDigits 10 n, isDigit c = true :=
    toDigitsCore_digits _ _ _ (by simp)
  have hval : digitsVal (Nat.toDigits 10 n) = n := by
    have := toDigitsCore_val (n + 1) n [] (by omega)
    simpa [digitsVal, Nat.toDigits] using this
  have hnotdot : ∀ c r, rest = c :: r → ¬ (c.toNat = 46 ∨ c.toNat = 101 ∨ c.toNat = 69) := by
    intro c r h
    rcases hrest with h0 | ⟨c1, r1, h1, hc⟩
    · rw [h0] at h; cases h
    · rw [h1] at h
      cases h
      rcases hc with hc | hc | hc <;> omega
  unfold parseNumber
  rw [spanDigits_append _ _ hall hrest]
  by_cases hn : n = 0
  · subst hn
    have : Nat.toDigits 10 0 = ['0'] := rfl
    rw [this]
    cases rest with
    | nil => rfl
    | cons c r =>
      have := hnotdot c r rfl
      simp [this, digitsVal]
  · obtain ⟨d, t, hdt, hd48, -⟩ := toDigitsCore_head (n + 1) n [] (by omega) (by omega)
    have hdt1 : Nat.toDigits 10 n = d :: t := hdt
    rw [hdt1] at hval ⊢
    cases rest with
    | nil => simp [hd48, hval]
    | cons c r =>
      have := hnotdot c r rfl
      simp [hd48, this, hval]

theorem parseValue_digit (f depth : Nat) (d : Char) (cs : List Char)
    (hdig : isDigit d = true) :
    parseValue (f + 1) depth (d :: cs) = parseNumber false (d :: cs) := by
  have hr := (isDigit_iff d).mp hdig
  have hws : isWs d = false := by
    simp only [isWs]
    have h1 : d.toNat ≠ 32 := by omega
    have h2 : d.toNat ≠ 9 := by omega
    have h3 : d.toNat ≠ 10 := by omega
    have h4 : d.toNat ≠ 13 := by omega
    simp [h1, h2, h3, h4]
  have e1 : d.toNat ≠ 34 := by omega
  have e2 : d.toNat ≠ 123 := by omega
  have e3 : d.toNat ≠ 91 := by omega
  have e4 : d.toNat ≠ 116 := by omega
  have e5 : d.toNat ≠ 102 := by omega
  have e6 : d.toNat ≠ 110 := by omega
  have e7 : d.toNat ≠ 45 := by omega
  simp [parseValue, skipWs, hws, e1, e2, e3, e4, e5, e6, e7, hdig]

theorem formatInt_data (v : Int) :
    (formatInt v).data =
      if v < 0 then Char.ofNat 45 :: Nat.toDigits 10 v.natAbs else Nat.toDigits 10 v.natAbs := by
  unfold formatInt
  split <;> simp [Nat.repr, List.asString]

theorem formatInt_length_pos (v : Int) : 0 < (formatInt v).length := by
  have h := formatInt_data v
  show 0 < (formatInt v).data.length
  by_cases hv : v < 0
  · rw [h]; simp [hv]
  · rw [h]; simp only [hv, if_false]
    by_cases hn : v.natAbs = 0
    · rw [hn]; decide
    · obtain ⟨d, t, hdt, -, -⟩ :=
        toDigitsCore_head (v.natAbs + 1) v.natAbs [] (by omega) (by omega)
      have hdt1 : Nat.toDigits 10 v.natAbs = d :: t := hdt
      rw [hdt1]; simp

theorem isWs_of_isDigit (d : Char) (hdig : isDigit d = true) : isWs d = false := by
  have hr := (isDigit_iff d).mp hdig
  simp only [isWs]
  have h1 : d.toNat ≠ 32 := by omega
  have h2 : d.toNat ≠ 9 := by omega
  have h3 : d.toNat ≠ 10 := by omega
  have h4 : d.toNat ≠ 13 := by omega
  simp [h1, h2, h3, h4]

theorem toDigits_head (n : Nat) :
    ∃ d t, Nat.toDigits 10 n = d :: t ∧ isDigit d = true := by
  by_cases hn : n = 0
  · rw [hn]; exact ⟨'0', [], rfl, rfl⟩
  · obtain ⟨d, t, hdt, -, hdig⟩ := toDigitsCore_head (n + 1) n [] (by omega) (by omega)
    exact ⟨d, t, hdt, hdig⟩

/-- The decimal rendering of an integer is read back as its sign and
magnitude. -/
theorem parses_formatInt (v : Int) : Parses (formatInt v) (.num (decide (v < 0)) v.natAbs) := by
  obtain ⟨d, t, hdt, hdig⟩ := toDigits_head v.natAbs
  constructor
  · rw [formatInt_data]
    by_cases hv : v < 0
    · simp only [hv, if_true]
      exact ⟨_, _, rfl, rfl, by decide⟩
    · simp only [hv, if_false]
      exact ⟨d, t, hdt, isWs_of_isDigit d hdig, by have := (isDigit_iff d).mp hdig; omega⟩
  intro f depth rest hf _ hrest
  obtain ⟨f, rfl⟩ : ∃ g, f = g + 1 := ⟨f - 1, by have := formatInt_length_pos v; omega⟩
  rw [formatInt_data]
  by_cases hv : v < 0
  · simp only [hv, if_true, decide_True]
    have : parseValue (f + 1) depth (Char.ofNat 45 :: (Nat.toDigits 10 v.natAbs ++ rest))
        = parseNumber true (Nat.toDigits 10 v.natAbs ++ rest) := rfl
    rw [List.cons_append, this, parseNumber_toDigits _ _ _ hrest]
  · simp only [hv, if_false, decide_False]
    have hrun := parseNumber_toDigits false v.natAbs rest hrest
    rw [hdt] at hrun ⊢
    rw [List.cons_append] at hrun ⊢
    rw [parseValue_digit f depth d _ hdig]
    exact hrun

/-! ## Decoder lemmas: strings -/

theorem char_eq_ofNat (c : Char) (n : Nat) (h : c.toNat = n) : c = Char.ofNat n := by
  rw [← h, Char.ofNat_toNat]

theorem parseString_low (n : Nat) (hn : n < 64) (tail : List Char) :
    parseStringFrom .plain
        (Char.ofNat 92 :: 'u' :: '0' :: '0' :: hexDigit (n / 16) :: hexDigit (n % 16) :: tail)
      = pushChar (Char.ofNat n) (parseStringFrom .plain tail) := by
  interval_cases n <;> rfl

theorem parseString_simple (c e : Char) (tail : List Char) (h : simpleEscape e = some c)
    (hu : e.toNat ≠ 117) :
    parseStringFrom .plain (Char.ofNat 92 :: e :: tail)
      = pushChar c (parseStringFrom .plain tail) := by
  simp [parseStringFrom, hu, h]

/-- One escaped character followed by the rest of a string body. -/
theorem parseString_escapeRune (c : Char) (tail : List Char) :
    parseStringFrom .plain (escapeRune c ++ tail) = pushChar c (parseStringFrom .plain tail) := by
  by_cases h1 : c.toNat = 34 ∨ c.toNat = 92
  · have hs : simpleEscape c = some c := by
      rcases h1 with h | h <;> simp [simpleEscape, h]
    have hu : c.toNat ≠ 117 := by rcases h1 with h | h <;> omega
    simp only [escapeRune, h1, if_true, List.cons_append, List.nil_append, backslash]
    exact parseString_simple c c tail hs hu
  by_cases h2 : c.toNat = 8
  · have hc := char_eq_ofNat c 8 h2
    subst hc
    exact parseString_simple _ 'b' tail rfl (by decide)
  by_cases h3 : c.toNat = 12
  · have hc := char_eq_ofNat c 12 h3
    subst hc
    exact parseString_simple _ 'f' tail rfl (by decide)
  by_cases h4 : c.toNat = 10
  · have hc := char_eq_ofNat c 10 h4
    subst hc
    exact parseString_simple _ 'n' tail rfl (by decide)
  by_cases h5 : c.toNat = 13
  · have hc := char_eq_ofNat c 13 h5
    subst hc
    exact parseString_simple _ 'r' tail rfl (by decide)
  by_cases h6 : c.toNat = 9
  · have hc := char_eq_ofNat c 9 h6
    subst hc
    exact parseString_simple _ 't' tail rfl (by decide)
  by_cases h7 : c.toNat < 32 ∨ c.toNat = 60 ∨ c.toNat = 62 ∨ c.toNat = 38
  · have hlt : c.toNat < 64 := by omega
    have hu := parseString_low c.toNat hlt tail
    rw [Char.ofNat_toNat] at hu
    simp only [escapeRune, h1, h2, h3, h4, h5, h6, h7, if_true, if_false, List.cons_append,
      List.nil_append, backslash]
    exact hu
  by_cases h8 : c.toNat = 8232 ∨ c.toNat = 8233
  · simp only [escapeRune, h1, h2, h3, h4, h5, h6, h7, h8, if_true, if_false, List.cons_append,
      List.nil_append, backslash]
    rcases h8 with h | h
    · have hc := char_eq_ofNat c _ h; subst hc; rfl
    · have hc := char_eq_ofNat c _ h; subst hc; rfl
  · have e1 : c.toNat ≠ 34 := fun h => h1 (Or.inl h)
    have e2 : c.toNat ≠ 92 := fun h => h1 (Or.inr h)
    have e3 : ¬ c.toNat < 32 := fun h => h7 (Or.inl h)
    simp only [escapeRune, h1, h2, h3, h4, h5, h6, h7, h8, if_false, List.cons_append,
      List.nil_append]
    simp only [parseStringFrom, e1, e2, e3, if_false]

/-- The body of the literal written for a string is read back as the string. -/
theorem parseStringBody_escaped (l rest : List Char) :
    parseStringBody (l.flatMap escapeRune ++ Char.ofNat 34 :: rest) = .ok (l, rest) := by
  unfold parseStringBody
  induction l with
  | nil => rfl
  | cons c cs ih =>
    rw [List.flatMap_cons, List.append_assoc, parseString_escapeRune, ih]
    rfl

theorem quote_data (s : String) :
    (quote s).data = Char.ofNat 34 :: (s.data.flatMap escapeRune ++ [Char.ofNat 34]) := by
  simp [quote]

theorem quote_length (s : String) : 2 ≤ (quote s).length := by
  have : (quote s).length = (quote s).data.length := rfl
  rw [this, quote_data]
  simp

/-- The literal written for a string is read back as the string. -/
theorem parses_quote (s : String) : Parses (quote s) (.str s) := by
  refine ⟨⟨_, _, quote_data s, rfl, by decide⟩, ?_⟩
  intro f depth rest hf _ _
  obtain ⟨f, rfl⟩ : ∃ g, f = g + 1 := ⟨f - 1, by have := quote_length s; omega⟩
  rw [quote_data]
  have : parseValue (f + 1) depth
      (Char.ofNat 34 :: (s.data.flatMap escapeRune ++ [Char.ofNat 34]) ++ rest)
      = match parseStringBody (s.data.flatMap escapeRune ++ Char.ofNat 34 :: rest) with
        | .ok (s, rest1) => .ok (.str (String.mk s), rest1)
        | .error => .error
        | .unmodelled => .unmodelled := by
    simp [parseValue, skipWs, isWs]
  rw [this, parseStringBody_escaped]

/-! ## Decoder lemmas: arrays and objects -/

theorem joinComma_cons_cons (x y : String) (r : List String) :
    joinComma (x :: y :: r) = x ++ "," ++ joinComma (y :: r) := rfl

theorem joinComma_data (x y : String) (r : List String) :
    (joinComma (x :: y :: r)).data = x.data ++ Char.ofNat 44 :: (joinComma (y :: r)).data := by
  rw [joinComma_cons_cons]
  simp [String.data_append]

theorem joinComma_length (x y : String) (r : List String) :
    (joinComma (x :: y :: r)).length = x.length + 1 + (joinComma (y :: r)).length := by
  have h := joinComma_data x y r
  have e1 : (joinComma (x :: y :: r)).length = (joinComma (x :: y :: r)).data.length := rfl
  have e2 : x.length = x.data.length := rfl
  have e3 : (joinComma (y :: r)).length = (joinComma (y :: r)).data.length := rfl
  rw [e1, h, e2, e3, List.length_append, List.length_cons]
  omega

/-- The elements written for a non-empty array, up to the closing bracket. -/
theorem parseElems_joinComma (es : List String) (ts : List JVal)
    (h : List.Forall₂ Parses es ts) (hne : es ≠ []) :
    ∀ (f depth : Nat) (rest : List Char), (joinComma es).length + 1 ≤ f →
      depth + jdepthElems ts ≤ maxNestingDepth →
      parseElems f depth ((joinComma es).data ++ Char.ofNat 93 :: rest) = .ok (ts, rest) := by
  induction h with
  | nil => exact absurd rfl hne
  | @cons e t es1 ts1 het hrest ih =>
    intro f depth rest hf hd
    obtain ⟨f, rfl⟩ : ∃ g, f = g + 1 := ⟨f - 1, by omega⟩
    simp only [jdepthElems] at hd
    have hd1 : depth + jdepth t ≤ maxNestingDepth := by omega
    have hd2 : depth + jdepthElems ts1 ≤ maxNestingDepth := by omega
    cases es1 with
    | nil =>
      cases hrest
      have hlen : e.length ≤ f := by
        have : (joinComma [e]).length = e.length := rfl
        omega
      have hv := het.2 f depth (Char.ofNat 93 :: rest) hlen hd1 (Delim_bracket rest)
      have hj : (joinComma [e]).data = e.data := rfl
      simp only [hj, parseElems, hv, skipWs_of_delim _ (Delim_bracket rest)]
      rfl
    | cons e2 es2 =>
      have hl := joinComma_length e e2 es2
      have hv := het.2 f depth
        (Char.ofNat 44 :: ((joinComma (e2 :: es2)).data ++ Char.ofNat 93 :: rest))
        (by omega) hd1 (Delim_comma _)
      have ih1 := ih (by simp) f depth rest (by omega) hd2
      rw [joinComma_data, List.append_assoc, List.cons_append]
      simp only [parseElems, hv, skipWs_of_delim _ (Delim_comma _)]
      simp only [show (Char.ofNat 44).toNat = 44 from rfl, if_true, ih1]

theorem renderArray_data (es : List String) :
    (renderArray es).data = Char.ofNat 91 :: ((joinComma es).data ++ [Char.ofNat 93]) := by
  simp [renderArray, String.data_append]

theorem renderArray_length (es : List String) :
    (renderArray es).length = (joinComma es).length + 2 := by
  have e1 : (renderArray es).length = (renderArray es).data.length := rfl
  have e2 : (joinComma es).length = (joinComma es).data.length := rfl
  rw [e1, renderArray_data, e2, List.length_cons, List.length_append, List.length_singleton]

/-- The array written from elements that are read as `ts` is read as the array
of `ts`. -/
theorem parses_array (es : List String) (ts : List JVal) (h : List.Forall₂ Parses es ts) :
    Parses (renderArray es) (.arr ts) := by
  refine ⟨⟨_, _, renderArray_data es, rfl, by decide⟩, ?_⟩
  intro f depth rest hf hd _
  rw [renderArray_length] at hf
  obtain ⟨f, rfl⟩ : ∃ g, f = g + 1 := ⟨f - 1, by omega⟩
  rw [renderArray_data, List.cons_append, List.append_assoc, List.singleton_append]
  simp only [jdepth] at hd
  have hlt : depth < maxNestingDepth := by omega
  cases h with
  | nil =>
    simp only [parseValue, show isWs (Char.ofNat 91) = false from rfl, skipWs,
      Bool.false_eq_true, if_false, show (Char.ofNat 91).toNat = 91 from rfl,
      show ¬ (91 = 34) by decide, show ¬ (91 = 123) by decide, if_true, hlt]
    rfl
  | @cons e t es1 ts1 het hrest =>
    have hrun := parseElems_joinComma (e :: es1) (t :: ts1) (List.Forall₂.cons het hrest)
      (by simp) f (depth + 1) rest (by omega) (by omega)
    obtain ⟨c, cs, hc, hws, h93⟩ : ∃ c cs, (joinComma (e :: es1)).data = c :: cs ∧
        isWs c = false ∧ c.toNat ≠ 93 := by
      obtain ⟨c, cs, hc, hws, h93⟩ := het.1
      cases es1 with
      | nil => exact ⟨c, cs, hc, hws, h93⟩
      | cons e2 es2 =>
        rw [joinComma_data, hc]
        exact ⟨c, _, rfl, hws, h93⟩
    rw [hc] at hrun ⊢
    rw [List.cons_append] at hrun ⊢
    simp only [parseValue, show isWs (Char.ofNat 91) = false from rfl, skipWs, Bool.false_eq_true,
      if_false, show (Char.ofNat 91).toNat = 91 from rfl, show ¬ (91 = 34) by decide,
      show ¬ (91 = 123) by decide, if_true, hws, h93, hrun, hlt]

theorem member_data (k v : String) :
    (quote k ++ ":" ++ v).data =
      Char.ofNat 34 :: (k.data.flatMap escapeRune ++ Char.ofNat 34 :: Char.ofNat 58 :: v.data) := by
  simp [String.data_append, quote_data]

theorem member_length (k v : String) : v.length + 3 ≤ (quote k ++ ":" ++ v).length := by
  have e1 : (quote k ++ ":" ++ v).length = (quote k ++ ":" ++ v).data.length := rfl
  have e2 : v.length = v.data.length := rfl
  rw [e1, member_data, e2]
  simp only [List.length_cons, List.length_append]
  omega

/-- One member `"key":value` at the head of the input of `parseMembers`. -/
theorem parseMembers_member (f depth : Nat) (k v : String) (t : JVal) (tail : List Char)
    (hv : Parses v t) (hlen : v.length ≤ f) (hd : depth + jdepth t ≤ maxNestingDepth)
    (htail : Delim tail) :
    parseMembers (f + 1) depth ((quote k ++ ":" ++ v).data ++ tail) =
      match skipWs tail with
      | [] => .error
      | c1 :: rest4 =>
        if c1.toNat = 44 then
          match parseMembers f depth rest4 with
          | .ok (ms, rest5) => .ok ((k, t) :: ms, rest5)
          | .error => .error
          | .unmodelled => .unmodelled
        else if c1.toNat = 125 then .ok ([(k, t)], rest4)
        else .error := by
  have hval := hv.2 f depth tail hlen hd htail
  rw [member_data, List.cons_append, List.append_assoc, List.cons_append, List.cons_append]
  simp only [parseMembers, skipWs, show isWs (Char.ofNat 34) = false from rfl,
    Bool.false_eq_true, if_false, show (Char.ofNat 34).toNat = 34 from rfl, if_true,
    parseStringBody_escaped, show isWs (Char.ofNat 58) = false from rfl,
    show (Char.ofNat 58).toNat = 58 from rfl, hval]

/-- The members written for a non-empty object, up to the closing brace. -/
theorem parseMembers_joinComma (txts : List String) (ts : List (String × JVal))
    (h : List.Forall₂ (fun txt t => ∃ v, txt = quote t.1 ++ ":" ++ v ∧ Parses v t.2) txts ts)
    (hne : txts ≠ []) :
    ∀ (f depth : Nat) (rest : List Char), (joinComma txts).length + 1 ≤ f →
      depth + jdepthMembers ts ≤ maxNestingDepth →
      parseMembers f depth ((joinComma txts).data ++ Char.ofNat 125 :: rest) = .ok (ts, rest) := by
  induction h with
  | nil => exact absurd rfl hne
  | @cons e t es1 ts1 het hrest ih =>
    intro f depth rest hf hd
    obtain ⟨f, rfl⟩ : ∃ g, f = g + 1 := ⟨f - 1, by omega⟩
    have hdm : jdepthMembers (t :: ts1) = max (jdepth t.2) (jdepthMembers ts1) := by
      cases t; rfl
    rw [hdm] at hd
    have hd1 : depth + jdepth t.2 ≤ maxNestingDepth := by omega
    have hd2 : depth + jdepthMembers ts1 ≤ maxNestingDepth := by omega
    obtain ⟨v, he, hv⟩ := het
    subst he
    have hml := member_length t.1 v
    cases es1 with
    | nil =>
      cases hrest
      have hlen : v.length ≤ f := by
        have : (joinComma [quote t.1 ++ ":" ++ v]).length = (quote t.1 ++ ":" ++ v).length := rfl
        omega
      have hj : (joinComma [quote t.1 ++ ":" ++ v]).data = (quote t.1 ++ ":" ++ v).data := rfl
      rw [hj, parseMembers_member f depth t.1 v t.2 _ hv hlen hd1 (Delim_brace rest),
        skipWs_of_delim _ (Delim_brace rest)]
      rfl
    | cons e2 es2 =>
      have hl := joinComma_length (quote t.1 ++ ":" ++ v) e2 es2
      have ih1 := ih (by simp) f depth rest (by omega) hd2
      rw [joinComma_data, List.append_assoc, List.cons_append,
        parseMembers_member f depth t.1 v t.2 _ hv (by omega) hd1 (Delim_comma _),
        skipWs_of_delim _ (Delim_comma _)]
      simp only [show (Char.ofNat 44).toNat = 44 from rfl, if_true, ih1]

theorem renderObject_data (ms : List (String × String)) :
    (renderObject ms).data =
      Char.ofNat 123 ::
        ((joinComma (ms.map (fun kv => quote kv.1 ++ ":" ++ kv.2))).data ++ [Char.ofNat 125]) := by
  simp [renderObject, String.data_append]

theorem renderObject_length (ms : List (String × String)) :
    (renderObject ms).length
      = (joinComma (ms.map (fun kv => quote kv.1 ++ ":" ++ kv.2))).length + 2 := by
  have e1 : (renderObject ms).length = (renderObject ms).data.length := rfl
  have e2 : (joinComma (ms.map (fun kv => quote kv.1 ++ ":" ++ kv.2))).length
      = (joinComma (ms.map (fun kv => quote kv.1 ++ ":" ++ kv.2))).data.length := rfl
  rw [e1, renderObject_data, e2, List.length_cons, List.length_append, List.length_singleton]

/-- The object written from members whose values are read as the values of
`ts` is read as the object with the members `ts`. -/
theorem parses_object (ms : List (String × String)) (ts : List (String × JVal))
    (h : List.Forall₂ (fun m t => m.1 = t.1 ∧ Parses m.2 t.2) ms ts) :
    Parses (renderObject ms) (.obj ts) := by
  refine ⟨⟨_, _, renderObject_data ms, rfl, by decide⟩, ?_⟩
  intro f depth rest hf hd _
  rw [renderObject_length] at hf
  obtain ⟨f, rfl⟩ : ∃ g, f = g + 1 := ⟨f - 1, by omega⟩
  rw [renderObject_data, List.cons_append, List.append_assoc, List.singleton_append]
  simp only [jdepth] at hd
  have hlt : depth < maxNestingDepth := by omega
  cases h with
  | nil =>
    simp only [parseValue, show isWs (Char.ofNat 123) = false from rfl, skipWs,
      Bool.false_eq_true, if_false, show (Char.ofNat 123).toNat = 123 from rfl,
      show ¬ (123 = 34) by decide, if_true, hlt]
    rfl
  | @cons m t ms1 ts1 hmt hrest =>
    have hall : List.Forall₂ (fun txt t => ∃ v, txt = quote t.1 ++ ":" ++ v ∧ Parses v t.2)
        ((m :: ms1).map (fun kv => quote kv.1 ++ ":" ++ kv.2)) (t :: ts1) := by
      rw [List.forall₂_map_left_iff]
      refine List.Forall₂.imp ?_ (List.Forall₂.cons hmt hrest)
      intro a b hab
      exact ⟨a.2, by rw [hab.1], hab.2⟩
    have hrun := parseMembers_joinComma _ _ hall (by simp) f (depth + 1) rest (by omega)
      (by omega)
    obtain ⟨cs, hc⟩ : ∃ cs, (joinComma ((m :: ms1).map
        (fun kv => quote kv.1 ++ ":" ++ kv.2))).data = Char.ofNat 34 :: cs := by
      cases ms1 with
      | nil => exact ⟨_, member_data m.1 m.2⟩
      | cons m2 ms2 =>
        simp only [List.map_cons]
        rw [joinComma_data, member_data]
        exact ⟨_, rfl⟩
    rw [hc] at hrun ⊢
    rw [List.cons_append] at hrun ⊢
    simp only [parseValue, show isWs (Char.ofNat 123) = false from rfl, skipWs,
      Bool.false_eq_true, if_false, show (Char.ofNat 123).toNat = 123 from rfl,
      show ¬ (123 = 34) by decide, if_true, show isWs (Char.ofNat 34) = false from rfl,
      show (Char.ofNat 34).toNat = 34 from rfl, show ¬ (34 = 125) by decide, hrun, hlt]

/-! ## Sorting by key -/

theorem insertByKey_eq (kv : String × String) (l : List (String × String)) :
    insertByKey kv l = insertEntry kv l := by
  induction l with
  | nil => rfl
  | cons x rest ih => simp [insertByKey, insertEntry, ih]

theorem sortByKey_eq (l : List (String × String)) : sortByKey l = sortEntries l := by
  induction l with
  | nil => rfl
  | cons x rest ih => simp [sortByKey, sortEntries, ih, insertByKey_eq]

theorem forall2_insertEntry {A B : Type} (R : String × A → String × B → Prop)
    (hR : ∀ a b, R a b → a.1 = b.1) (a : String × A) (b : String × B) (hab : R a b)
    (l1 : List (String × A)) (l2 : List (String × B)) (h : List.Forall₂ R l1 l2) :
    List.Forall₂ R (insertEntry a l1) (insertEntry b l2) := by
  induction h with
  | nil => exact List.Forall₂.cons hab List.Forall₂.nil
  | @cons x y xs ys hxy hrest ih =>
    simp only [insertEntry, hR a b hab, hR x y hxy]
    split
    · exact List.Forall₂.cons hab (List.Forall₂.cons hxy hrest)
    · exact List.Forall₂.cons hxy ih

theorem forall2_sortEntries {A B : Type} (R : String × A → String × B → Prop)
    (hR : ∀ a b, R a b → a.1 = b.1)
    (l1 : List (String × A)) (l2 : List (String × B)) (h : List.Forall₂ R l1 l2) :
    List.Forall₂ R (sortEntries l1) (sortEntries l2) := by
  induction h with
  | nil => exact List.Forall₂.nil
  | @cons x y xs ys hxy hrest ih =>
    exact forall2_insertEntry R hR x y hxy _ _ ih

theorem insertEntry_perm {V : Type} (kv : String × V) (l : List (String × V)) :
    (insertEntry kv l).Perm (kv :: l) := by
  induction l with
  | nil => exact List.Perm.refl _
  | cons x rest ih =>
    simp only [insertEntry]
    split
    · exact List.Perm.refl _
    · exact (List.Perm.cons x ih).trans (List.Perm.swap kv x rest)

theorem sortEntries_perm {V : Type} (l : List (String × V)) : (sortEntries l).Perm l := by
  induction l with
  | nil => exact List.Perm.refl _
  | cons x rest ih => exact (insertEntry_perm x _).trans (List.Perm.cons x ih)

theorem sortEntries_keys_nodup {V : Type} (l : List (String × V))
    (h : (l.map Prod.fst).Nodup) : ((sortEntries l).map Prod.fst).Nodup :=
  ((sortEntries_perm l).map Prod.fst).nodup_iff.mpr h

/-! ## Maps built entry by entry -/

theorem mapInsert_of_not_mem {V : Type} (acc : List (String × V)) (k : String) (v : V)
    (h : k ∉ acc.map Prod.fst) : mapInsert acc k v = acc ++ [(k, v)] := by
  induction acc with
  | nil => rfl
  | cons x rest ih =>
    obtain ⟨k0, v0⟩ := x
    have hne : k0 ≠ k := fun hx => h (by simp [hx])
    have hrest : k ∉ rest.map Prod.fst := fun hx => h (by simp [hx])
    simp [mapInsert, hne, ih hrest]

theorem foldl_mapInsert {V : Type} (l acc : List (String × V))
    (h : ((acc ++ l).map Prod.fst).Nodup) :
    l.foldl (fun acc kv => mapInsert acc kv.1 kv.2) acc = acc ++ l := by
  induction l generalizing acc with
  | nil => simp
  | cons x rest ih =>
    have hx : x.1 ∉ acc.map Prod.fst := by
      intro hmem
      rw [List.map_append, List.nodup_append] at h
      exact h.2.2 hmem (by simp)
    rw [List.foldl_cons, mapInsert_of_not_mem acc x.1 x.2 hx, ih]
    · simp
    · simpa using h

theorem mapOfEntries_of_nodup {V : Type} (l : List (String × V))
    (h : (l.map Prod.fst).Nodup) : mapOfEntries l = l := by
  unfold mapOfEntries
  rw [foldl_mapInsert l [] (by simpa using h)]
  rfl

theorem mapLookup_eq_none {V : Type} (l : List (String × V)) (k : String)
    (h : k ∉ l.map Prod.fst) : mapLookup l k = none := by
  induction l with
  | nil => rfl
  | cons x rest ih =>
    obtain ⟨k0, v0⟩ := x
    have hne : k0 ≠ k := fun hx => h (by simp [hx])
    have hrest : k ∉ rest.map Prod.fst := fun hx => h (by simp [hx])
    simp [mapLookup, hne, ih hrest]

/-! ## Round trip of dynamic values -/

mutual
/-- A well-formed dynamic value encodes, and its bytes are read as
`jsonOfAny`. -/
theorem marshalAny_parses : ∀ (v : GoAny), wfAny v = true →
    ∃ s, marshalAny v = .ok s ∧ Parses s (jsonOfAny v)
  | .null, _ => ⟨_, rfl, parses_null⟩
  | .bool true, _ => ⟨_, rfl, parses_true⟩
  | .bool false, _ => ⟨_, rfl, parses_false⟩
  | .int n, _ => ⟨_, rfl, parses_formatInt n⟩
  | .float n _, _ => ⟨_, rfl, parses_formatInt n⟩
  | .str s, _ => ⟨_, rfl, parses_quote s⟩
  | .nilSlice, _ => ⟨_, rfl, parses_null⟩
  | .nilMap, _ => ⟨_, rfl, parses_null⟩
  | .slice xs, h => by
    obtain ⟨es, h1, h2⟩ := marshalElems_parses xs (by simpa [wfAny] using h)
    exact ⟨renderArray es, by simp [marshalAny, h1], by
      simp only [jsonOfAny]; exact parses_array es _ h2⟩
  | .map kvs, h => by
    have hw : wfMembers kvs = true := by
      simp only [wfAny, Bool.and_eq_true] at h; exact h.1
    obtain ⟨ms, h1, h2⟩ := marshalMembers_parses kvs hw
    refine ⟨renderMap ms, by simp [marshalAny, h1], ?_⟩
    simp only [jsonOfAny, renderMap, sortByKey_eq]
    exact parses_object _ _ (forall2_sortEntries _ (fun a b hab => hab.1) _ _ h2)
  | .chan, h => by simp [wfAny] at h
/-- Elementwise `marshalAny_parses`. -/
theorem marshalElems_parses : ∀ (xs : List GoAny), wfElems xs = true →
    ∃ es, marshalElems xs = .ok es ∧ List.Forall₂ Parses es (jsonOfElems xs)
  | [], _ => ⟨[], rfl, List.Forall₂.nil⟩
  | x :: xs, h => by
    have hw : wfAny x = true ∧ wfElems xs = true := by
      simpa [wfElems] using h
    obtain ⟨s, h1, h2⟩ := marshalAny_parses x hw.1
    obtain ⟨es, h3, h4⟩ := marshalElems_parses xs hw.2
    exact ⟨s :: es, by simp [marshalElems, h1, h3], by
      simp only [jsonOfElems]; exact List.Forall₂.cons h2 h4⟩
/-- Memberwise `marshalAny_parses`. -/
theorem marshalMembers_parses : ∀ (kvs : List (String × GoAny)), wfMembers kvs = true →
    ∃ ms, marshalMembers kvs = .ok ms ∧
      List.Forall₂ (fun (m : String × String) (t : String × JVal) =>
        m.1 = t.1 ∧ Parses m.2 t.2) ms (jsonOfMembers kvs)
  | [], _ => ⟨[], rfl, List.Forall₂.nil⟩
  | (k, v) :: kvs, h => by
    have hw : wfAny v = true ∧ wfMembers kvs = true := by
      simpa [wfMembers] using h
    obtain ⟨s, h1, h2⟩ := marshalAny_parses v hw.1
    obtain ⟨ms, h3, h4⟩ := marshalMembers_parses kvs hw.2
    exact ⟨(k, s) :: ms, by simp [marshalMembers, h1, h3], by
      simp only [jsonOfMembers]; exact List.Forall₂.cons ⟨rfl, h2⟩ h4⟩
end

theorem canonMembers_keys (kvs : List (String × GoAny)) :
    (canonMembers kvs).map Prod.fst = kvs.map Prod.fst := by
  induction kvs with
  | nil => rfl
  | cons x rest ih =>
    obtain ⟨k, v⟩ := x
    simp [canonMembers, ih]

theorem decodeAny_num (n : Int) (hn : n.natAbs ≤ 9007199254740992) :
    decodeAny (.num (decide (n < 0)) n.natAbs) = .ok (.float n hn) := by
  have hval : (if decide (n < 0) = true then -(n.natAbs : Int) else (n.natAbs : Int)) = n := by
    by_cases h : n < 0
    · simp only [h, decide_True, if_true]; omega
    · simp only [h, decide_False, Bool.false_eq_true, if_false]; omega
  have hzero : ¬ (decide (n < 0) = true ∧ n.natAbs = 0) := by
    rintro ⟨h1, h2⟩
    have : n < 0 := by simpa using h1
    omega
  unfold decodeAny
  simp only [hzero, if_false]
  generalize hm : (if decide (n < 0) = true then -(n.natAbs : Int) else (n.natAbs : Int)) = m
  rw [hval] at hm
  subst hm
  simp [hn]

theorem decodeAnyElems_of_forall2 (js : List JVal) (gs : List GoAny)
    (h : List.Forall₂ (fun j g => decodeAny j = .ok g) js gs) :
    decodeAnyElems js = .ok gs := by
  induction h with
  | nil => rfl
  | @cons j g js1 gs1 hjg _ ih => simp [decodeAnyElems, hjg, ih]

theorem decodeAnyMembers_of_forall2 (js : List (String × JVal)) (gs : List (String × GoAny))
    (h : List.Forall₂ (fun (j : String × JVal) (g : String × GoAny) =>
      j.1 = g.1 ∧ decodeAny j.2 = .ok g.2) js gs) :
    decodeAnyMembers js = .ok gs := by
  induction h with
  | nil => rfl
  | @cons j g js1 gs1 hjg _ ih =>
    obtain ⟨k, x⟩ := j
    obtain ⟨k1, y⟩ := g
    obtain ⟨hk, hx⟩ := hjg
    simp only at hk hx
    subst hk
    simp [decodeAnyMembers, hx, ih]

mutual
/-- Decoding what a well-formed dynamic value is read as gives `canonAny`. -/
theorem decodeAny_jsonOf : ∀ (v : GoAny), wfAny v = true →
    decodeAny (jsonOfAny v) = .ok (canonAny v)
  | .null, _ => rfl
  | .bool _, _ => rfl
  | .int n, h => by
    have hn : n.natAbs ≤ 9007199254740992 := by simpa [wfAny] using h
    simp only [jsonOfAny, canonAny, hn, dite_true]
    exact decodeAny_num n hn
  | .float n hn, _ => by
    simp only [jsonOfAny, canonAny]
    exact decodeAny_num n hn
  | .str _, _ => rfl
  | .nilSlice, _ => rfl
  | .nilMap, _ => rfl
  | .slice xs, h => by
    have h1 := decodeElems_jsonOf xs (by simpa [wfAny] using h)
    simp [jsonOfAny, canonAny, decodeAny, decodeAnyElems_of_forall2 _ _ h1]
  | .map kvs, h => by
    have hw : wfMembers kvs = true ∧ (kvs.map Prod.fst).Nodup := by
      simpa [wfAny] using h
    have h1 := decodeMembers_jsonOf kvs hw.1
    have h2 := forall2_sortEntries _ (fun a b hab => hab.1) _ _ h1
    have h3 : ((sortEntries (canonMembers kvs)).map Prod.fst).Nodup :=
      sortEntries_keys_nodup _ (by rw [canonMembers_keys]; exact hw.2)
    simp [jsonOfAny, canonAny, decodeAny, decodeAnyMembers_of_forall2 _ _ h2,
      mapOfEntries_of_nodup _ h3]
  | .chan, h => by simp [wfAny] at h
/-- Elementwise `decodeAny_jsonOf`. -/
theorem decodeElems_jsonOf : ∀ (xs : List GoAny), wfElems xs = true →
    List.Forall₂ (fun j g => decodeAny j = .ok g) (jsonOfElems xs) (canonElems xs)
  | [], _ => List.Forall₂.nil
  | x :: xs, h => by
    have hw : wfAny x = true ∧ wfElems xs = true := by
      simpa [wfElems] using h
    simp only [jsonOfElems, canonElems]
    exact List.Forall₂.cons (decodeAny_jsonOf x hw.1) (decodeElems_jsonOf xs hw.2)
/-- Memberwise `decodeAny_jsonOf`. -/
theorem decodeMembers_jsonOf : ∀ (kvs : List (String × GoAny)), wfMembers kvs = true →
    List.Forall₂ (fun (j : String × JVal) (g : String × GoAny) =>
      j.1 = g.1 ∧ decodeAny j.2 = .ok g.2) (jsonOfMembers kvs) (canonMembers kvs)
  | [], _ => List.Forall₂.nil
  | (k, v) :: kvs, h => by
    have hw : wfAny v = true ∧ wfMembers kvs = true := by
      simpa [wfMembers] using h
    simp only [jsonOfMembers, canonMembers]
    exact List.Forall₂.cons ⟨rfl, decodeAny_jsonOf v hw.1⟩ (decodeMembers_jsonOf kvs hw.2)
end

/-! ## Round trip of maps and slices -/

theorem marshalAnyMap_parses (d : Option AnyMap) (h : wfAnyMap d = true) :
    ∃ s, marshalAnyMap d = .ok s ∧ Parses s (jsonOfAnyMap d) := by
  cases d with
  | none => exact ⟨_, rfl, parses_null⟩
  | some m =>
    have hw : wfMembers m = true := by
      simp only [wfAnyMap, Bool.and_eq_true] at h; exact h.1
    obtain ⟨ms, h1, h2⟩ := marshalMembers_parses m hw
    refine ⟨renderMap ms, by simp [marshalAnyMap, h1], ?_⟩
    simp only [jsonOfAnyMap, renderMap, sortByKey_eq]
    exact parses_object _ _ (forall2_sortEntries _ (fun a b hab => hab.1) _ _ h2)

theorem decodeAnyMap_jsonOf (d : Option AnyMap) (h : wfAnyMap d = true) :
    decodeAnyMap (jsonOfAnyMap d) = .ok (canonAnyMap d) := by
  cases d with
  | none => rfl
  | some m =>
    have hw : wfMembers m = true ∧ (m.map Prod.fst).Nodup := by
      simpa [wfAnyMap] using h
    have h1 := decodeMembers_jsonOf m hw.1
    have h2 := forall2_sortEntries _ (fun a b hab => hab.1) _ _ h1
    have h3 : ((sortEntries (canonMembers m)).map Prod.fst).Nodup :=
      sortEntries_keys_nodup _ (by rw [canonMembers_keys]; exact hw.2)
    simp [jsonOfAnyMap, canonAnyMap, decodeAnyMap, decodeAnyMembers_of_forall2 _ _ h2,
      mapOfEntries_of_nodup _ h3]

theorem marshalBoolMap_parses (m : Option (List (String × Bool))) :
    Parses (marshalBoolMap m) (jsonOfBoolMap m) := by
  cases m with
  | none => exact parses_null
  | some kvs =>
    simp only [marshalBoolMap, jsonOfBoolMap, renderMap, sortByKey_eq]
    refine parses_object _ _ (forall2_sortEntries _ (fun a b hab => hab.1) _ _ ?_)
    rw [List.forall₂_map_left_iff, List.forall₂_map_right_iff]
    refine List.forall₂_same.mpr ?_
    intro kv _
    refine ⟨rfl, ?_⟩
    cases kv.2
    · exact parses_false
    · exact parses_true

theorem decodeBoolMembers_map (kvs : List (String × Bool)) :
    decodeBoolMembers (kvs.map (fun kv => (kv.1, JVal.bool kv.2))) = .ok kvs := by
  induction kvs with
  | nil => rfl
  | cons x rest ih =>
    obtain ⟨k, b⟩ := x
    simp [decodeBoolMembers, decodeBool, ih]

theorem sortEntries_map {A B : Type} (g : A → B) (l : List (String × A)) :
    sortEntries (l.map (fun kv => (kv.1, g kv.2)))
      = (sortEntries l).map (fun kv => (kv.1, g kv.2)) := by
  have hins : ∀ (kv : String × A) (l : List (String × A)),
      insertEntry (kv.1, g kv.2) (l.map (fun kv => (kv.1, g kv.2)))
        = (insertEntry kv l).map (fun kv => (kv.1, g kv.2)) := by
    intro kv l
    induction l with
    | nil => rfl
    | cons x rest ih =>
      simp only [List.map_cons, insertEntry]
      split
      · rfl
      · simp [ih]
  induction l with
  | nil => rfl
  | cons x rest ih =>
    simp only [List.map_cons, sortEntries, ih, hins]

theorem decodeBoolMap_jsonOf (m : Option (List (String × Bool)))
    (h : ∀ kvs, m = some kvs → (kvs.map Prod.fst).Nodup) :
    decodeBoolMap (jsonOfBoolMap m) = .ok (m.map sortEntries) := by
  cases m with
  | none => rfl
  | some kvs =>
    have h3 : ((sortEntries kvs).map Prod.fst).Nodup :=
      sortEntries_keys_nodup _ (h kvs rfl)
    simp [jsonOfBoolMap, decodeBoolMap, sortEntries_map, decodeBoolMembers_map,
      mapOfEntries_of_nodup _ h3]

theorem hooks_parses (hooks : List String) :
    Parses (renderArray (hooks.map quote)) (.arr (hooks.map JVal.str)) := by
  refine parses_array _ _ ?_
  rw [List.forall₂_map_left_iff, List.forall₂_map_right_iff]
  exact List.forall₂_same.mpr (fun s _ => parses_quote s)

theorem decodeStringElems_map (hooks : List String) :
    decodeStringElems (hooks.map JVal.str) = .ok hooks := by
  induction hooks with
  | nil => rfl
  | cons x rest ih => simp [decodeStringElems, decodeString, ih]

theorem marshalHookArgs_parses (args : List (Option AnyMap)) (h : wfHookArgs args = true) :
    ∃ ss, marshalHookArgs args = .ok ss ∧ List.Forall₂ Parses ss (jsonOfHookArgs args) := by
  induction args with
  | nil => exact ⟨[], rfl, List.Forall₂.nil⟩
  | cons m ms ih =>
    have hw : wfAnyMap m = true ∧ wfHookArgs ms = true := by
      simpa [wfHookArgs] using h
    obtain ⟨s, h1, h2⟩ := marshalAnyMap_parses m hw.1
    obtain ⟨ss, h3, h4⟩ := ih hw.2
    exact ⟨s :: ss, by simp [marshalHookArgs, h1, h3], by
      simp only [jsonOfHookArgs]; exact List.Forall₂.cons h2 h4⟩

theorem decodeAnyMapElems_jsonOf (args : List (Option AnyMap)) (h : wfHookArgs args = true) :
    decodeAnyMapElems (jsonOfHookArgs args) = .ok (args.map canonAnyMap) := by
  induction args with
  | nil => rfl
  | cons m ms ih =>
    have hw : wfAnyMap m = true ∧ wfHookArgs ms = true := by
      simpa [wfHookArgs] using h
    simp [jsonOfHookArgs, decodeAnyMapElems, decodeAnyMap_jsonOf m hw.1, ih hw.2]

/-! ## Round trip of the target -/

theorem rel_optional {A B : Type} (R : A → B → Prop) (c : Prop) [Decidable c] (a : A) (b : B)
    (h : c → R a b) :
    List.Forall₂ R (if c then [a] else []) (if c then [b] else []) := by
  by_cases hc : c
  · simp only [hc, if_true]; exact List.Forall₂.cons (h hc) List.Forall₂.nil
  · simp only [hc, if_false]; exact List.Forall₂.nil

theorem rel_unless {A B : Type} (R : A → B → Prop) (c : Prop) [Decidable c] (a : A) (b : B)
    (h : ¬ c → R a b) :
    List.Forall₂ R (if c then [] else [a]) (if c then [] else [b]) := by
  by_cases hc : c
  · simp only [hc, if_true]; exact List.Forall₂.nil
  · simp only [hc, if_false]; exact List.Forall₂.cons (h hc) List.Forall₂.nil

theorem marshalBroadcast_parses (b : Option WebsocketBroadcast)
    (h : ∀ wb, b = some wb → wfBroadcast wb = true) :
    ∃ s, marshalBroadcast b = .ok s ∧ Parses s (jsonOfBroadcast b) := by
  cases b with
  | none => exact ⟨_, rfl, parses_null⟩
  | some wb =>
    have hw : wfHookArgs wb.BroadcastHookArgs = true := by
      have := h wb rfl
      simp only [wfBroadcast, Bool.and_eq_true] at this
      exact this.1
    obtain ⟨ss, h1, h2⟩ := marshalHookArgs_parses wb.BroadcastHookArgs hw
    simp only [marshalBroadcast, WebsocketBroadcast.members, h1, jsonOfBroadcast,
      jsonOfBroadcastMembers]
    refine ⟨_, rfl, ?_⟩
    refine parses_object _ _ ?_
    refine List.rel_append (List.rel_append (List.rel_append (List.rel_append ?_ ?_) ?_) ?_) ?_
    · exact List.Forall₂.cons ⟨rfl, marshalBoolMap_parses _⟩
        (List.Forall₂.cons ⟨rfl, parses_quote _⟩
        (List.Forall₂.cons ⟨rfl, parses_quote _⟩
        (List.Forall₂.cons ⟨rfl, parses_quote _⟩
        (List.Forall₂.cons ⟨rfl, parses_quote _⟩
        (List.Forall₂.cons ⟨rfl, parses_quote _⟩ List.Forall₂.nil)))))
    · exact rel_optional _ _ _ _ (fun _ => ⟨rfl, parses_true⟩)
    · exact rel_optional _ _ _ _ (fun _ => ⟨rfl, parses_true⟩)
    · exact rel_unless _ _ _ _ (fun _ => ⟨rfl, hooks_parses _⟩)
    · exact rel_unless _ _ _ _ (fun _ => ⟨rfl, parses_array _ _ h2⟩)

/-- For an object whose keys are exact field names, each once, the value found
for a field is the value under its name. -/
theorem fieldValue_exact (names : List String) (name : String) (ms : List (String × JVal))
    (hkeys : ∀ kv ∈ ms, kv.1 ∈ names) (hnd : (ms.map Prod.fst).Nodup) :
    fieldValue names name ms = .ok (mapLookup ms name) := by
  induction ms with
  | nil => rfl
  | cons x rest ih =>
    obtain ⟨k, v⟩ := x
    have hnd1 : (rest.map Prod.fst).Nodup := (List.nodup_cons.mp hnd).2
    have hk : k ∉ rest.map Prod.fst := (List.nodup_cons.mp hnd).1
    have ih1 := ih (fun kv hkv => hkeys kv (List.mem_cons_of_mem _ hkv)) hnd1
    by_cases hkn : k = name
    · subst hkn
      have hnone : mapLookup rest k = none := mapLookup_eq_none rest k hk
      simp [fieldValue, keySelects, ih1, hnone, mapLookup]
    · have hmem : k ∈ names := hkeys (k, v) (List.mem_cons_self _ _)
      have hsel : keySelects names name k = .ok false := by
        simp [keySelects, hkn, hmem]
      simp [fieldValue, hsel, ih1, mapLookup, hkn]

theorem decodeField_exact {α : Type} (dec : JVal → Outcome α) (zero : α) (names : List String)
    (name : String) (ms : List (String × JVal))
    (hkeys : ∀ kv ∈ ms, kv.1 ∈ names) (hnd : (ms.map Prod.fst).Nodup) :
    decodeField dec zero names name ms =
      match mapLookup ms name with
      | none => .ok zero
      | some v => dec v := by
  unfold decodeField
  rw [fieldValue_exact names name ms hkeys hnd]
  cases mapLookup ms name <;> rfl

theorem broadcastMembers_keys (wb : WebsocketBroadcast) :
    (∀ kv ∈ jsonOfBroadcastMembers wb, kv.1 ∈ broadcastFieldNames) ∧
      ((jsonOfBroadcastMembers wb).map Prod.fst).Nodup := by
  obtain ⟨ou, uid, cid, tid, conn, oconn, san, sen, rel, hooks, args⟩ := wb
  cases san <;> cases sen <;> cases hooks <;> cases args <;>
    simp [jsonOfBroadcastMembers, broadcastFieldNames]

theorem broadcastMembers_lookup (wb : WebsocketBroadcast) :
    mapLookup (jsonOfBroadcastMembers wb) "omit_users" = some (jsonOfBoolMap wb.OmitUsers) ∧
    mapLookup (jsonOfBroadcastMembers wb) "user_id" = some (JVal.str wb.UserId) ∧
    mapLookup (jsonOfBroadcastMembers wb) "channel_id" = some (JVal.str wb.ChannelId) ∧
    mapLookup (jsonOfBroadcastMembers wb) "team_id" = some (JVal.str wb.TeamId) ∧
    mapLookup (jsonOfBroadcastMembers wb) "connection_id" = some (JVal.str wb.ConnectionId) ∧
    mapLookup (jsonOfBroadcastMembers wb) "omit_connection_id"
      = some (JVal.str wb.OmitConnectionId) ∧
    mapLookup (jsonOfBroadcastMembers wb) "contains_sanitized_data"
      = (if wb.ContainsSanitizedData then some (JVal.bool true) else none) ∧
    mapLookup (jsonOfBroadcastMembers wb) "contains_sensitive_data"
      = (if wb.ContainsSensitiveData then some (JVal.bool true) else none) ∧
    mapLookup (jsonOfBroadcastMembers wb) "broadcast_hooks"
      = (if wb.BroadcastHooks.length = 0 then none
         else some (JVal.arr (wb.BroadcastHooks.map JVal.str))) ∧
    mapLookup (jsonOfBroadcastMembers wb) "broadcast_hook_args"
      = (if wb.BroadcastHookArgs.length = 0 then none
         else some (JVal.arr (jsonOfHookArgs wb.BroadcastHookArgs))) := by
  obtain ⟨ou, uid, cid, tid, conn, oconn, san, sen, rel, hooks, args⟩ := wb
  cases san <;> cases sen <;> cases hooks <;> cases args <;>
    simp [jsonOfBroadcastMembers, mapLookup]

theorem decodeBroadcast_jsonOf (wb : WebsocketBroadcast) (h : wfBroadcast wb = true) :
    decodeBroadcast (jsonOfBroadcast (some wb)) = .ok (some (canonBroadcast wb)) := by
  have hk := (broadcastMembers_keys wb).1
  have hn := (broadcastMembers_keys wb).2
  obtain ⟨l1, l2, l3, l4, l5, l6, l7, l8, l9, l10⟩ := broadcastMembers_lookup wb
  simp only [wfBroadcast, Bool.and_eq_true] at h
  have hou : decodeBoolMap (jsonOfBoolMap wb.OmitUsers) = .ok (wb.OmitUsers.map sortEntries) := by
    apply decodeBoolMap_jsonOf
    intro kvs hkvs
    have h2 := h.2
    rw [hkvs] at h2
    exact of_decide_eq_true h2
  have f1 : decodeField decodeBoolMap none broadcastFieldNames "omit_users"
      (jsonOfBroadcastMembers wb) = .ok (wb.OmitUsers.map sortEntries) := by
    rw [decodeField_exact _ _ _ _ _ hk hn, l1]; exact hou
  have f2 : decodeField decodeString "" broadcastFieldNames "user_id"
      (jsonOfBroadcastMembers wb) = .ok wb.UserId := by
    rw [decodeField_exact _ _ _ _ _ hk hn, l2]; rfl
  have f3 : decodeField decodeString "" broadcastFieldNames "channel_id"
      (jsonOfBroadcastMembers wb) = .ok wb.ChannelId := by
    rw [decodeField_exact _ _ _ _ _ hk hn, l3]; rfl
  have f4 : decodeField decodeString "" broadcastFieldNames "team_id"
      (jsonOfBroadcastMembers wb) = .ok wb.TeamId := by
    rw [decodeField_exact _ _ _ _ _ hk hn, l4]; rfl
  have f5 : decodeField decodeString "" broadcastFieldNames "connection_id"
      (jsonOfBroadcastMembers wb) = .ok wb.ConnectionId := by
    rw [decodeField_exact _ _ _ _ _ hk hn, l5]; rfl
  have f6 : decodeField decodeString "" broadcastFieldNames "omit_connection_id"
      (jsonOfBroadcastMembers wb) = .ok wb.OmitConnectionId := by
    rw [decodeField_exact _ _ _ _ _ hk hn, l6]; rfl
  have f7 : decodeField decodeBool false broadcastFieldNames "contains_sanitized_data"
      (jsonOfBroadcastMembers wb) = .ok wb.ContainsSanitizedData := by
    rw [decodeField_exact _ _ _ _ _ hk hn, l7]
    cases wb.ContainsSanitizedData <;> rfl
  have f8 : decodeField decodeBool false broadcastFieldNames "contains_sensitive_data"
      (jsonOfBroadcastMembers wb) = .ok wb.ContainsSensitiveData := by
    rw [decodeField_exact _ _ _ _ _ hk hn, l8]
    cases wb.ContainsSensitiveData <;> rfl
  have f9 : decodeField decodeStrings [] broadcastFieldNames "broadcast_hooks"
      (jsonOfBroadcastMembers wb) = .ok wb.BroadcastHooks := by
    rw [decodeField_exact _ _ _ _ _ hk hn, l9]
    by_cases hh : wb.BroadcastHooks.length = 0
    · simp only [hh, if_true]
      rw [List.length_eq_zero.mp hh]
    · simp only [hh, if_false]
      exact decodeStringElems_map _
  have f10 : decodeField decodeAnyMaps [] broadcastFieldNames "broadcast_hook_args"
      (jsonOfBroadcastMembers wb) = .ok (wb.BroadcastHookArgs.map canonAnyMap) := by
    rw [decodeField_exact _ _ _ _ _ hk hn, l10]
    by_cases hh : wb.BroadcastHookArgs.length = 0
    · simp only [hh, if_true]
      rw [List.length_eq_zero.mp hh]
      rfl
    · simp only [hh, if_false]
      exact decodeAnyMapElems_jsonOf _ h.1
  simp only [jsonOfBroadcast, decodeBroadcast, f1, f2, f3, f4, f5, f6, f7, f8, f9, f10,
    Outcome.bind, canonBroadcast]

/-! ## Nesting of the encoder's output -/

theorem jdepthMembers_le (ms : List (String × JVal)) (n : Nat)
    (h : ∀ kv ∈ ms, jdepth kv.2 ≤ n) : jdepthMembers ms ≤ n := by
  induction ms with
  | nil => simp [jdepthMembers]
  | cons x rest ih =>
    obtain ⟨k, v⟩ := x
    have h1 : jdepth v ≤ n := h (k, v) (List.mem_cons_self _ _)
    have h2 := ih (fun kv hkv => h kv (List.mem_cons_of_mem _ hkv))
    simp only [jdepthMembers]
    omega

theorem jdepth_le_jdepthMembers (ms : List (String × JVal)) (kv : String × JVal)
    (h : kv ∈ ms) : jdepth kv.2 ≤ jdepthMembers ms := by
  induction ms with
  | nil => cases h
  | cons x rest ih =>
    obtain ⟨k, v⟩ := x
    simp only [jdepthMembers]
    rcases List.mem_cons.mp h with h1 | h1
    · subst h1
      exact Nat.le_max_left _ _
    · exact Nat.le_trans (ih h1) (Nat.le_max_right _ _)

theorem jdepthMembers_sortEntries (ms : List (String × JVal)) :
    jdepthMembers (sortEntries ms) ≤ jdepthMembers ms := by
  apply jdepthMembers_le
  intro kv hkv
  exact jdepth_le_jdepthMembers ms kv ((sortEntries_perm ms).mem_iff.mp hkv)

theorem jdepthMembers_append (a b : List (String × JVal)) :
    jdepthMembers (a ++ b) = max (jdepthMembers a) (jdepthMembers b) := by
  induction a with
  | nil => simp [jdepthMembers]
  | cons x rest ih =>
    obtain ⟨k, v⟩ := x
    rw [List.cons_append]
    show max (jdepth v) (jdepthMembers (rest ++ b))
      = max (max (jdepth v) (jdepthMembers rest)) (jdepthMembers b)
    rw [ih]
    omega

mutual
/-- What a dynamic value is read as is nested no deeper than the value. -/
theorem jdepth_jsonOfAny : ∀ (v : GoAny), jdepth (jsonOfAny v) ≤ depthAny v
  | .null => Nat.le_refl _
  | .bool _ => Nat.le_refl _
  | .int _ => Nat.le_refl _
  | .float _ _ => Nat.le_refl _
  | .str _ => Nat.le_refl _
  | .nilSlice => Nat.le_refl _
  | .nilMap => Nat.le_refl _
  | .chan => Nat.le_refl _
  | .slice xs => by
    have := jdepth_jsonOfElems xs
    simp only [jsonOfAny, jdepth, depthAny]
    omega
  | .map kvs => by
    have h1 := jdepth_jsonOfMembers kvs
    have h2 := jdepthMembers_sortEntries (jsonOfMembers kvs)
    simp only [jsonOfAny, jdepth, depthAny]
    omega
/-- Elementwise `jdepth_jsonOfAny`. -/
theorem jdepth_jsonOfElems : ∀ (xs : List GoAny), jdepthElems (jsonOfElems xs) ≤ depthElems xs
  | [] => Nat.le_refl _
  | x :: xs => by
    have h1 := jdepth_jsonOfAny x
    have h2 := jdepth_jsonOfElems xs
    simp only [jsonOfElems, jdepthElems, depthElems]
    omega
/-- Memberwise `jdepth_jsonOfAny`. -/
theorem jdepth_jsonOfMembers : ∀ (kvs : List (String × GoAny)),
    jdepthMembers (jsonOfMembers kvs) ≤ depthMembers kvs
  | [] => Nat.le_refl _
  | (k, v) :: kvs => by
    have h1 := jdepth_jsonOfAny v
    have h2 := jdepth_jsonOfMembers kvs
    simp only [jsonOfMembers, jdepthMembers, depthMembers]
    omega
end

theorem jdepth_jsonOfAnyMap (d : Option AnyMap) : jdepth (jsonOfAnyMap d) ≤ depthAnyMap d := by
  cases d with
  | none => exact Nat.le_refl _
  | some m =>
    have h1 := jdepth_jsonOfMembers m
    have h2 := jdepthMembers_sortEntries (jsonOfMembers m)
    simp only [jsonOfAnyMap, jdepth, depthAnyMap]
    omega

theorem jdepth_jsonOfHookArgs (args : List (Option AnyMap)) :
    jdepthElems (jsonOfHookArgs args) ≤ depthHookArgs args := by
  induction args with
  | nil => exact Nat.le_refl _
  | cons m ms ih =>
    have h1 := jdepth_jsonOfAnyMap m
    simp only [jsonOfHookArgs, jdepthElems, depthHookArgs]
    omega

theorem jdepth_jsonOfBoolMap (m : Option (List (String × Bool))) :
    jdepth (jsonOfBoolMap m) ≤ 1 := by
  cases m with
  | none => simp [jsonOfBoolMap, jdepth]
  | some kvs =>
    have h : jdepthMembers (sortEntries (kvs.map (fun kv => (kv.1, JVal.bool kv.2)))) ≤ 0 := by
      apply jdepthMembers_le
      intro kv hkv
      have hmem := (sortEntries_perm _).mem_iff.mp hkv
      obtain ⟨x, -, hx⟩ := List.mem_map.mp hmem
      rw [← hx]
      simp [jdepth]
    simp only [jsonOfBoolMap, jdepth]
    omega

theorem jdepthElems_strings (hooks : List String) :
    jdepthElems (hooks.map JVal.str) = 0 := by
  induction hooks with
  | nil => rfl
  | cons x rest ih => simp [jdepthElems, jdepth, ih]

theorem jdepthMembers_optional (c : Prop) [Decidable c] (kv : String × JVal) :
    jdepthMembers (if c then [kv] else []) ≤ jdepth kv.2 := by
  obtain ⟨k, v⟩ := kv
  split <;> simp [jdepthMembers]

theorem jdepthMembers_unless (c : Prop) [Decidable c] (kv : String × JVal) :
    jdepthMembers (if c then [] else [kv]) ≤ jdepth kv.2 := by
  obtain ⟨k, v⟩ := kv
  split <;> simp [jdepthMembers]

theorem jdepth_jsonOfBroadcast (b : Option WebsocketBroadcast) (n : Nat)
    (h : ∀ wb, b = some wb → depthHookArgs wb.BroadcastHookArgs ≤ n) :
    jdepth (jsonOfBroadcast b) ≤ n + 2 := by
  cases b with
  | none => simp [jsonOfBroadcast, jdepth]
  | some wb =>
    have h0 := h wb rfl
    have h1 := jdepth_jsonOfBoolMap wb.OmitUsers
    have h2 := jdepthMembers_optional (wb.ContainsSanitizedData = true)
      ("contains_sanitized_data", JVal.bool true)
    have h3 := jdepthMembers_optional (wb.ContainsSensitiveData = true)
      ("contains_sensitive_data", JVal.bool true)
    have h4 := jdepthMembers_unless (wb.BroadcastHooks.length = 0)
      ("broadcast_hooks", JVal.arr (wb.BroadcastHooks.map JVal.str))
    have h5 := jdepthMembers_unless (wb.BroadcastHookArgs.length = 0)
      ("broadcast_hook_args", JVal.arr (jsonOfHookArgs wb.BroadcastHookArgs))
    have h6 := jdepthElems_strings wb.BroadcastHooks
    have h7 := jdepth_jsonOfHookArgs wb.BroadcastHookArgs
    simp only [jdepth] at h2 h3 h4 h5
    simp only [jsonOfBroadcast, jdepth, jsonOfBroadcastMembers]
    rw [jdepthMembers_append, jdepthMembers_append, jdepthMembers_append, jdepthMembers_append]
    simp only [jdepthMembers, jdepth]
    omega

theorem jdepth_jsonOfEvent (o : webSocketEventJSON)
    (hd : depthAnyMap o.Data + 1 ≤ maxNestingDepth)
    (hb : ∀ wb, o.Broadcast = some wb →
      depthHookArgs wb.BroadcastHookArgs + 3 ≤ maxNestingDepth) :
    jdepth (.obj (jsonOfEventMembers o)) ≤ maxNestingDepth := by
  have h1 := jdepth_jsonOfAnyMap o.Data
  have h2 := jdepth_jsonOfBroadcast o.Broadcast (maxNestingDepth - 3)
    (fun wb hwb => by have := hb wb hwb; omega)
  have h3 : 3 ≤ maxNestingDepth := by decide
  simp only [jdepth, jsonOfEventMembers, jdepthMembers]
  omega

/-- The nesting limit of the reader: inside `maxNestingDepth` open objects and
arrays, an opening bracket is an error. -/
theorem parseValue_exceeds_depth (f depth : Nat) (cs : List Char)
    (h : maxNestingDepth ≤ depth) :
    parseValue (f + 1) depth ('[' :: cs) = .error ∧
      parseValue (f + 1) depth ('\x7b' :: cs) = .error := by
  have hlt : ¬ depth < maxNestingDepth := by omega
  constructor
  · simp only [parseValue, skipWs, show isWs '[' = false from rfl, Bool.false_eq_true, if_false,
      show ('[' : Char).toNat = 91 from rfl, show ¬ (91 = 34) by decide,
      show ¬ (91 = 123) by decide, if_true, hlt]
  · simp only [parseValue, skipWs, show isWs '\x7b' = false from rfl, Bool.false_eq_true,
      if_false, show ('\x7b' : Char).toNat = 123 from rfl, show ¬ (123 = 34) by decide,
      if_true, hlt]

/-! ## Round trip of the envelope -/

theorem marshalEvent_parses (o : webSocketEventJSON) (hd : wfAnyMap o.Data = true)
    (hb : ∀ wb, o.Broadcast = some wb → wfBroadcast wb = true) :
    ∃ s, marshalWebSocketEventJSON o = .ok s ∧ Parses s (.obj (jsonOfEventMembers o)) := by
  obtain ⟨dj, h1, h2⟩ := marshalAnyMap_parses o.Data hd
  obtain ⟨bj, h3, h4⟩ := marshalBroadcast_parses o.Broadcast hb
  simp only [marshalWebSocketEventJSON, h1, h3]
  refine ⟨_, rfl, ?_⟩
  refine parses_object _ _ ?_
  exact List.Forall₂.cons ⟨rfl, parses_quote _⟩
    (List.Forall₂.cons ⟨rfl, h2⟩
    (List.Forall₂.cons ⟨rfl, h4⟩
    (List.Forall₂.cons ⟨rfl, parses_formatInt _⟩ List.Forall₂.nil)))

theorem decodeInt64_num (s : Int) (h : isInt64 s) :
    decodeInt64 (.num (decide (s < 0)) s.natAbs) = .ok s := by
  obtain ⟨h1, h2⟩ := h
  by_cases hs : s < 0
  · have hm : s.natAbs ≤ 9223372036854775808 := by omega
    have e : -(s.natAbs : Int) = s := by omega
    simp only [decodeInt64, hs, decide_True, if_true, hm, e]
  · have hm : s.natAbs < 9223372036854775808 := by omega
    have e : (s.natAbs : Int) = s := by omega
    simp only [decodeInt64, hs, decide_False, if_true, hm, e]
    rfl

theorem decodeBroadcast_jsonOf_option (b : Option WebsocketBroadcast)
    (hb : ∀ wb, b = some wb → wfBroadcast wb = true) :
    decodeBroadcast (jsonOfBroadcast b) = .ok (b.map canonBroadcast) := by
  cases b with
  | none => rfl
  | some wb => exact decodeBroadcast_jsonOf wb (hb wb rfl)

theorem decodeEvent_jsonOf (o : webSocketEventJSON) (hd : wfAnyMap o.Data = true)
    (hb : ∀ wb, o.Broadcast = some wb → wfBroadcast wb = true) (hs : isInt64 o.Sequence) :
    decodeEvent (.obj (jsonOfEventMembers o)) = .ok (canonEvent o) := by
  have hk : ∀ kv ∈ jsonOfEventMembers o, kv.1 ∈ eventFieldNames := by
    simp [jsonOfEventMembers, eventFieldNames]
  have hn : ((jsonOfEventMembers o).map Prod.fst).Nodup := by
    simp [jsonOfEventMembers]
  have f1 : decodeField decodeString "" eventFieldNames "event" (jsonOfEventMembers o)
      = .ok o.Event := by
    rw [decodeField_exact _ _ _ _ _ hk hn]; rfl
  have f2 : decodeField decodeAnyMap none eventFieldNames "data" (jsonOfEventMembers o)
      = .ok (canonAnyMap o.Data) := by
    rw [decodeField_exact _ _ _ _ _ hk hn]
    exact decodeAnyMap_jsonOf o.Data hd
  have f3 : decodeField decodeBroadcast none eventFieldNames "broadcast" (jsonOfEventMembers o)
      = .ok (o.Broadcast.map canonBroadcast) := by
    rw [decodeField_exact _ _ _ _ _ hk hn]
    exact decodeBroadcast_jsonOf_option o.Broadcast hb
  have f4 : decodeField decodeInt64 0 eventFieldNames "seq" (jsonOfEventMembers o)
      = .ok o.Sequence := by
    rw [decodeField_exact _ _ _ _ _ hk hn]
    exact decodeInt64_num o.Sequence hs
  simp only [decodeEvent, f1, f2, f3, f4, Outcome.bind, canonEvent]

theorem decodeValue_of_parses (s : String) (t : JVal) (h : Parses s t)
    (hd : jdepth t ≤ maxNestingDepth) :
    decodeValue s = .ok t := by
  have := h.2 (s.length + 1) 0 [] (Nat.le_succ _) (by omega) (Or.inl rfl)
  rw [List.append_nil] at this
  simp only [decodeValue, this]

theorem canonAnyMap_no_user (d : Option AnyMap)
    (hu : ∀ m, d = some m → "user" ∉ m.map Prod.fst) :
    ∀ m, canonAnyMap d = some m → mapLookup m "user" = none := by
  intro m hm
  cases d with
  | none => simp [canonAnyMap] at hm
  | some m0 =>
    simp only [canonAnyMap, Option.some.injEq] at hm
    subst hm
    apply mapLookup_eq_none
    intro hmem
    have hp := ((sortEntries_perm (canonMembers m0)).map Prod.fst).mem_iff.mp hmem
    rw [canonMembers_keys] at hp
    exact hu m0 rfl hp

/-- Decoding the bytes of the generic encoding of a `webSocketEventJSON`. -/
theorem FromJSON_of_marshal (rehydrate : GoAny → Outcome GoAny) (h0 : Heap)
    (o : webSocketEventJSON) (hd : wfAnyMap o.Data = true)
    (hb : ∀ wb, o.Broadcast = some wb → wfBroadcast wb = true) (hs : isInt64 o.Sequence)
    (hu : ∀ m, o.Data = some m → "user" ∉ m.map Prod.fst)
    (hdd : depthAnyMap o.Data + 1 ≤ maxNestingDepth)
    (hdb : ∀ wb, o.Broadcast = some wb →
      depthHookArgs wb.BroadcastHookArgs + 3 ≤ maxNestingDepth) :
    ∃ bytes, marshalWebSocketEventJSON o = .ok bytes ∧
      WebSocketEventFromJSON rehydrate h0 bytes = .ok (envelopeOf h0 (canonEvent o)) := by
  obtain ⟨bytes, h1, h2⟩ := marshalEvent_parses o hd hb
  refine ⟨bytes, h1, ?_⟩
  have hv := decodeValue_of_parses bytes _ h2 (jdepth_jsonOfEvent o hdd hdb)
  have he := decodeEvent_jsonOf o hd hb hs
  have hnu := canonAnyMap_no_user o.Data hu
  simp only [WebSocketEventFromJSON, hv, he, Outcome.bind, canonEvent]
  cases hcd : canonAnyMap o.Data with
  | none => rfl
  | some m => simp only [hnu m hcd]

/-- The fields of the envelope built from a decoded struct. -/
theorem envelopeOf_fields (h0 : Heap) (o : webSocketEventJSON) :
    ∃ e2, (envelopeOf h0 o).2.events[(envelopeOf h0 o).1]? = some e2 ∧
      e2.event = o.Event ∧ e2.sequence = o.Sequence ∧ e2.precomputedJSON = none ∧
      (envelopeOf h0 o).2.getData e2.data = some o.Data ∧
      (envelopeOf h0 o).2.getBroadcast e2.broadcast = some o.Broadcast := by
  obtain ⟨ev, d, b, s⟩ := o
  cases d with
  | none =>
    cases b with
    | none => exact ⟨_, getElem?_snoc_self _ _, rfl, rfl, rfl, rfl, rfl⟩
    | some wb =>
      refine ⟨_, getElem?_snoc_self _ _, rfl, rfl, rfl, rfl, ?_⟩
      simp [envelopeOf, Heap.getBroadcast, Heap.newBroadcast, Heap.newEvent]
  | some m =>
    cases b with
    | none =>
      refine ⟨_, getElem?_snoc_self _ _, rfl, rfl, rfl, ?_, rfl⟩
      simp [envelopeOf, Heap.getData, Heap.newMap, Heap.newEvent]
    | some wb =>
      refine ⟨_, getElem?_snoc_self _ _, rfl, rfl, rfl, ?_, ?_⟩
      · simp [envelopeOf, Heap.getData, Heap.newMap, Heap.newEvent, Heap.newBroadcast]
      · simp [envelopeOf, Heap.getBroadcast, Heap.newBroadcast, Heap.newEvent, Heap.newMap]

/-! ## The nesting limit on nested arrays -/

theorem nestedArrays_parses : ∀ (k : Nat), Parses (nestedArrays k) (nestedArraysValue k)
  | 0 => parses_array [] [] List.Forall₂.nil
  | k + 1 => parses_array [nestedArrays k] [nestedArraysValue k]
      (List.Forall₂.cons (nestedArrays_parses k) List.Forall₂.nil)

theorem jdepth_nestedArraysValue (k : Nat) : jdepth (nestedArraysValue k) = k + 1 := by
  induction k with
  | zero => simp [nestedArraysValue, jdepth, jdepthElems]
  | succ k ih => simp [nestedArraysValue, jdepth, jdepthElems, ih]

theorem nestedArrays_data (k : Nat) :
    (nestedArrays k).data = List.replicate (k + 1) '[' ++ List.replicate (k + 1) ']' := by
  induction k with
  | zero => rfl
  | succ k ih =>
    have hj : joinComma [nestedArrays k] = nestedArrays k := rfl
    rw [nestedArrays, renderArray_data, hj, ih]
    rw [List.replicate_succ '[' (k + 1), List.replicate_succ' (k + 1) ']']
    simp [List.append_assoc]

/-- Opening brackets that reach beyond the nesting limit are an error. -/
theorem parseValue_brackets_error : ∀ (k f depth : Nat) (cs : List Char),
    maxNestingDepth < depth + (k + 1) → 2 * k + 1 ≤ f →
    parseValue f depth (List.replicate (k + 1) '[' ++ cs) = .error
  | 0, f, depth, cs, hd, hf => by
    obtain ⟨f, rfl⟩ : ∃ g, f = g + 1 := ⟨f - 1, by omega⟩
    exact (parseValue_exceeds_depth f depth cs (by omega)).1
  | k + 1, f, depth, cs, hd, hf => by
    obtain ⟨f, rfl⟩ : ∃ g, f = g + 2 := ⟨f - 2, by omega⟩
    by_cases hlt : depth < maxNestingDepth
    · have ih := parseValue_brackets_error k f (depth + 1) cs (by omega) (by omega)
      rw [List.replicate_succ, List.cons_append]
      rw [List.replicate_succ, List.cons_append] at ih ⊢
      simp only [parseValue, parseElems, skipWs, show isWs '[' = false from rfl,
        Bool.false_eq_true, if_false, show ('[' : Char).toNat = 91 from rfl,
        show ¬ (91 = 34) by decide, show ¬ (91 = 123) by decide, show ¬ (91 = 93) by decide,
        if_true, hlt, ih]
    · rw [List.replicate_succ, List.cons_append]
      exact (parseValue_exceeds_depth (f + 1) depth _ (by omega)).1

/-- The nesting limit of the decoder on nested arrays: up to `maxNestingDepth`
arrays in one another are read, one more is an error. -/
theorem decodeValue_nestedArrays (k : Nat) :
    (k + 1 ≤ maxNestingDepth → decodeValue (nestedArrays k) = .ok (nestedArraysValue k)) ∧
    (maxNestingDepth < k + 1 → decodeValue (nestedArrays k) = .error) := by
  constructor
  · intro hk
    exact decodeValue_of_parses _ _ (nestedArrays_parses k)
      (by rw [jdepth_nestedArraysValue]; exact hk)
  · intro hk
    have hlen : (nestedArrays k).length = (k + 1) + (k + 1) := by
      show (nestedArrays k).data.length = _
      rw [nestedArrays_data, List.length_append, List.length_replicate, List.length_replicate]
    have hrun := parseValue_brackets_error k ((nestedArrays k).length + 1) 0
      (List.replicate (k + 1) ']') (by omega) (by omega)
    rw [← nestedArrays_data] at hrun
    simp only [decodeValue, hrun]

/-! ## Claim C14 -/

set_option maxRecDepth 100000 in
/-- Counterexample to claim C14 as stated: the envelope of `reliableHeap` is
valid, has no snapshot and no `user` key in its payload; its target has
`ReliableClusterSend` true and its payload holds the `int` 1 and a nil
`[]any`.  Decoding the bytes of its `ToJSON` (the conversion to `User` is
never reached, so it is left without an answer here) succeeds and gives the
envelope of `decodedHeap`, whose target has `ReliableClusterSend` false and
whose payload holds the `float64` 1 and the nil interface value: neither the
target nor the payload is equal to the one encoded. -/
theorem FromJSON_drops_ReliableClusterSend :
    WebSocketEvent.IsValid reliableHeap 0 = some true ∧
    WebSocketEvent.ToJSON reliableHeap 0 = some (.ok ("\x7b\"event\":\"posted\",\"data\":\x7b\"n\":1,\"s\":null\x7d,\"broadcast\":\x7b\"omit_users\":null,\"user_id\":\""
          ++ "\",\"channel_id\":\"\",\"team_id\":\"\",\"connection_id\":\"conn1\",\"omit_conn"
          ++ "ection_id\":\"\"\x7d,\"seq\":7\x7d")) ∧
    WebSocketEventFromJSON (fun _ => Outcome.unmodelled) emptyHeap ("\x7b\"event\":\"posted\",\"data\":\x7b\"n\":1,\"s\":null\x7d,\"broadcast\":\x7b\"omit_users\":null,\"user_id\":\""
          ++ "\",\"channel_id\":\"\",\"team_id\":\"\",\"connection_id\":\"conn1\",\"omit_conn"
          ++ "ection_id\":\"\"\x7d,\"seq\":7\x7d") = .ok (0, decodedHeap) ∧
    (reliableHeap.targetOf 0).map (fun wb => wb.ReliableClusterSend) = some true ∧
    (decodedHeap.targetOf 0).map (fun wb => wb.ReliableClusterSend) = some false ∧
    reliableHeap.payloadOf 0 = some (some [("n", GoAny.int 1), ("s", GoAny.nilSlice)]) ∧
    decodedHeap.payloadOf 0
      = some (some [("n", GoAny.float 1 (by decide)), ("s", GoAny.null)]) ∧
    GoAny.int 1 ≠ GoAny.float 1 (by decide) ∧ GoAny.nilSlice ≠ GoAny.null := by
  refine ⟨rfl, rfl, ?_, rfl, rfl, rfl, rfl, fun hne => GoAny.noConfusion hne,
    fun hne => GoAny.noConfusion hne⟩
  obtain ⟨bytes, h1, h2⟩ := FromJSON_of_marshal (fun _ => Outcome.unmodelled) emptyHeap
    { Event := "posted", Data := some [("n", GoAny.int 1), ("s", GoAny.nilSlice)],
      Broadcast := some reliableTarget, Sequence := 7 }
    rfl (fun wb hwb => by cases hwb; rfl) (by decide)
    (fun m hm => by cases hm; decide) (by decide) (fun wb hwb => by cases hwb; decide)
  have e : marshalWebSocketEventJSON
      { Event := "posted", Data := some [("n", GoAny.int 1), ("s", GoAny.nilSlice)],
        Broadcast := some reliableTarget, Sequence := 7 }
      = .ok ("\x7b\"event\":\"posted\",\"data\":\x7b\"n\":1,\"s\":null\x7d,\"broadcast\":\x7b\"omit_users\":null,\"user_id\":\""
          ++ "\",\"channel_id\":\"\",\"team_id\":\"\",\"connection_id\":\"conn1\",\"omit_conn"
          ++ "ection_id\":\"\"\x7d,\"seq\":7\x7d") := rfl
  rw [e] at h1
  injection h1 with h1
  rw [h1, h2]
  rfl

/-- Claim C14, amended. For every valid envelope with no frozen snapshot and
a sequence number in the range of `int64`, whose payload has no `user` key and
holds only dynamic values of the kinds of `GoAny` other than `chan` (the nil
interface value, booleans, strings, `int`s of magnitude at most `2^53`, whole
`float64`s of that magnitude, nil and non-nil `[]any` and `map[string]any` of
such values), whose target (when there is one) has hook argument bags that are
such maps, and whose encoding stays within the nesting limit of the decoder
(the payload is nested one level, the hook argument bags three levels inside
the envelope): the generic `ToJSON` returns bytes, `WebSocketEventFromJSON`
applied to them succeeds, and the envelope it returns is valid, has no
snapshot, the same event type and sequence number, the payload `canonAnyMap d`
(the same keys with the same values, where each `int` has come back as the
`float64` of the same value and each nil slice or nil map held in an `any` as
the nil interface value; entries listed by key) and the target
`canonBroadcast wb` (every field as encoded, `ConnectionId` included, the hook
argument bags coming back as the payload does, except `ReliableClusterSend`,
which is false); a nil payload comes back nil and a nil target comes back
nil. -/
theorem FromJSON_ToJSON_round_trip (rehydrate : GoAny → Outcome GoAny) (h h0 : Heap)
    (ev : Addr) (e : WebSocketEvent) (d : Option AnyMap) (b : Option WebsocketBroadcast)
    (hev : h.events[ev]? = some e) (hvalid : WebSocketEvent.IsValid h ev = some true)
    (hp : e.precomputedJSON = none)
    (hd : h.getData e.data = some d) (hb : h.getBroadcast e.broadcast = some b)
    (hseq : isInt64 e.sequence)
    (hwd : wfAnyMap d = true) (hwb : ∀ wb, b = some wb → wfBroadcast wb = true)
    (huser : ∀ m, d = some m → "user" ∉ m.map Prod.fst)
    (hdd : depthAnyMap d + 1 ≤ maxNestingDepth)
    (hdb : ∀ wb, b = some wb → depthHookArgs wb.BroadcastHookArgs + 3 ≤ maxNestingDepth) :
    ∃ (bytes : String) (ev2 : Addr) (h2 : Heap) (e2 : WebSocketEvent),
      WebSocketEvent.ToJSON h ev = some (.ok bytes) ∧
      WebSocketEventFromJSON rehydrate h0 bytes = .ok (ev2, h2) ∧
      h2.events[ev2]? = some e2 ∧
      WebSocketEvent.IsValid h2 ev2 = some true ∧
      e2.event = e.event ∧ e2.sequence = e.sequence ∧ e2.precomputedJSON = none ∧
      h2.getData e2.data = some (canonAnyMap d) ∧
      h2.getBroadcast e2.broadcast = some (b.map canonBroadcast) := by
  obtain ⟨bytes, h1, h2⟩ := FromJSON_of_marshal rehydrate h0
    { Event := e.event, Data := d, Broadcast := b, Sequence := e.sequence } hwd hwb hseq huser
    hdd hdb
  obtain ⟨e2, g1, g2, g3, g4, g5, g6⟩ := envelopeOf_fields h0
    (canonEvent { Event := e.event, Data := d, Broadcast := b, Sequence := e.sequence })
  refine ⟨bytes, _, _, e2, ?_, h2, g1, ?_, g2, g3, g4, g5, g6⟩
  · rw [ToJSON_generic h ev e hev hp, hd, hb]
    exact congrArg some h1
  · have hiv : ∀ (hh : Heap) (a : Addr) (x : WebSocketEvent), hh.events[a]? = some x →
        WebSocketEvent.IsValid hh a = some (decide (x.event ≠ "")) := by
      intro hh a x hx
      simp only [WebSocketEvent.IsValid, hx, Option.map_some']
    have g2b : e2.event = e.event := g2
    rw [hiv _ _ _ hev] at hvalid
    exact (hiv _ _ _ g1).trans (by rw [g2b]; exact hvalid)

/-- Claim C14, amended, at the envelope of `richHeap`: an escaped string, a
negative integer, a nested map and slice, an empty slice, a nil map, an omit
list, hooks with their argument bags. -/
theorem FromJSON_ToJSON_round_trip_witness :
    richHeap.events[0]? = some richEvent ∧
    WebSocketEvent.IsValid richHeap 0 = some true ∧
    isInt64 (-3) ∧ wfAnyMap (some richPayload) = true ∧ wfBroadcast richTarget = true ∧
    "user" ∉ richPayload.map Prod.fst ∧
    depthAnyMap (some richPayload) + 1 ≤ maxNestingDepth ∧
    depthHookArgs richTarget.BroadcastHookArgs + 3 ≤ maxNestingDepth ∧
    ∃ (bytes : String) (ev2 : Addr) (h2 : Heap) (e2 : WebSocketEvent),
      WebSocketEvent.ToJSON richHeap 0 = some (.ok bytes) ∧
      WebSocketEventFromJSON (fun _ => Outcome.unmodelled) emptyHeap bytes = .ok (ev2, h2) ∧
      h2.events[ev2]? = some e2 ∧
      WebSocketEvent.IsValid h2 ev2 = some true ∧
      e2.event = "posted" ∧ e2.sequence = -3 ∧ e2.precomputedJSON = none ∧
      h2.getData e2.data = some (some
        [("count", GoAny.float (-42) (by decide)), ("empty", GoAny.slice []),
         ("none", GoAny.null),
         ("props", GoAny.map [("k", GoAny.slice [GoAny.bool true, GoAny.null])]),
         ("text", GoAny.str "a<b \"c\"")]) ∧
      h2.getBroadcast e2.broadcast = some (some
        { richTarget with OmitUsers := some [("u1", false), ("u2", true)] }) :=
  ⟨rfl, rfl, by decide, rfl, rfl, by decide, by decide, by decide,
    FromJSON_ToJSON_round_trip (fun _ => Outcome.unmodelled) richHeap emptyHeap 0 richEvent
      (some richPayload) (some richTarget) rfl rfl rfl rfl rfl (by decide) rfl
      (fun wb hwb => by cases hwb; rfl) (fun m hm => by cases hm; decide) (by decide)
      (fun wb hwb => by cases hwb; decide)⟩

end Model
